import Mathlib

/-!
# Timelapse-PixelBattle: frame rendering and streaming encode pipeline

A shallow embedding of the Go sources `graphics/imageManager.go`,
`graphics/graphics.go` and `graphics/ffmpegEncoding.go`, followed by the
properties established about them.

Conventions of the embedding.

* `time.Time` is modelled by the instant it denotes, an integer count of
  nanoseconds: `Time.After` is `>` and `Time.Equal` is `=` on instants.
* Go maps are modelled as total functions into `Option` (for `map[K]V` read
  with the comma-ok form) or into `Bool` (for `map[K]bool`, whose zero value
  is `false`).
* Strings are Lean strings, and `fmt.Sprintf` with `%d` is the decimal
  rendering `fmtInt`.
-/

namespace PixelBattle

/-! ## Data model (`common/visualData.go`) -/

/-- One placement record, `common.VisualData`. -/
structure VisualData where
  Time : Int
  X : Int
  Y : Int
  BlockTexture : String
deriving DecidableEq, Repr

/-- The format `%d` of an `int`. -/
def fmtInt (n : Int) : String :=
  if n < 0 then "-" ++ toString n.natAbs else toString n.natAbs

/-- The map key of `removeOldData`, `fmt.Sprintf("%d:%d", v.X, v.Y)`. -/
def key (v : VisualData) : String := fmtInt v.X ++ ":" ++ fmtInt v.Y

/-- The coordinate of an event. -/
def coord (v : VisualData) : Int × Int := (v.X, v.Y)

/-- The characters `0` to `9`. -/
def IsDigitChar (c : Char) : Prop := c ∈ ['0', '1', '2', '3', '4', '5', '6', '7', '8', '9']

/-! ## `removeOldData` (`graphics/imageManager.go`) -/

/-- One iteration of the first loop of `removeOldData`:
`if prev, ok := latest[key]; !ok || v.Time.After(prev.Time) { latest[key] = v }`. -/
def latestStep (latest : String → Option VisualData) (v : VisualData) :
    String → Option VisualData :=
  match latest (key v) with
  | none => Function.update latest (key v) (some v)
  | some prev =>
    if v.Time > prev.Time then Function.update latest (key v) (some v) else latest

/-- The first loop of `removeOldData`, started from the empty map. -/
def buildLatest (data : List VisualData) : String → Option VisualData :=
  data.foldl latestStep (fun _ => none)

/-- The state of the second loop of `removeOldData`: the backing array of the
slice, the write cursor and the `seen` map. -/
structure CompactState where
  arr : List VisualData
  write : Nat
  seen : String → Bool

/-- One iteration of the second loop of `removeOldData`, at index `i` of the
`range` over the slice. The element is read from the backing array at the time
of the iteration, and the survivor is written back in place at `write`. -/
def compactStep (latest : String → Option VisualData) (s : CompactState) (i : Nat) :
    CompactState :=
  match s.arr.get? i with
  | none => s
  | some v =>
    if s.seen (key v) then s
    else
      match latest (key v) with
      | none => s
      | some newest =>
        if newest.Time = v.Time then
          { arr := s.arr.set s.write v
            write := s.write + 1
            seen := Function.update s.seen (key v) true }
        else s

/-- The function `removeOldData`: the value of `*data` on return. -/
def removeOldData (data : List VisualData) : List VisualData :=
  if data.length = 0 then data
  else
    let latest := buildLatest data
    let s := (List.range data.length).foldl (compactStep latest)
      { arr := data, write := 0, seen := fun _ => false }
    s.arr.take s.write

/-- The test of the second loop of `removeOldData` on one event: it is kept
when its key is not yet `seen` and `latest` holds an event of equal time at its key. -/
def survives (latest : String → Option VisualData) (seen : String → Bool)
    (v : VisualData) : Bool :=
  if seen (key v) then false
  else
    match latest (key v) with
    | none => false
    | some newest => decide (newest.Time = v.Time)

/-- The second loop of `removeOldData` as a list recursion: the survivors of
`vs`, in order, for the given `latest` and `seen` maps. Used to reason about
the in-place loop, which is shown to compute the same list. -/
def filterPass (latest : String → Option VisualData) :
    List VisualData → (String → Bool) → List VisualData
  | [], _ => []
  | v :: vs, seen =>
    if survives latest seen v then
      v :: filterPass latest vs (Function.update seen (key v) true)
    else filterPass latest vs seen

/-- The `seen` map of the second loop after the events `vs` were visited. -/
def seenAfter (latest : String → Option VisualData) :
    List VisualData → (String → Bool) → (String → Bool)
  | [], seen => seen
  | v :: vs, seen =>
    if survives latest seen v then
      seenAfter latest vs (Function.update seen (key v) true)
    else seenAfter latest vs seen

/-- What the `latest` map knows about a processed prefix `p`: no entry at a key
absent from `p`, and otherwise an event of `p` at that key of maximal time. -/
def LatestInv (p : List VisualData) (m : String → Option VisualData) : Prop :=
  ∀ k, (m k = none → ∀ v ∈ p, key v ≠ k) ∧
    ∀ u, m k = some u → u ∈ p ∧ key u = k ∧ ∀ w ∈ p, key w = k → w.Time ≤ u.Time

/-! ## The block loop of `frameCreate` (`graphics/imageManager.go`) -/

/-- Go's two's-complement wraparound of a mathematical integer into `int64`. -/
def wrapInt64 (z : Int) : Int := (z + 2 ^ 63) % 2 ^ 64 - 2 ^ 63

/-- One call `dc.DrawImage(*texture, x, y)`, with the texture named by its path. -/
structure DrawCall where
  texture : String
  x : Int
  y : Int
deriving DecidableEq, Repr

/-- The draw calls issued by the block loop of `frameCreate`, in order. The
predicate `loads` tells for which paths `getCachedImage` succeeds; an event
whose texture does not load is skipped (`continue`). -/
def blockDraws (loads : String → Bool) (textureSize : Int) :
    List VisualData → List DrawCall
  | [] => []
  | block :: rest =>
    if loads ("assets/" ++ block.BlockTexture) then
      { texture := "assets/" ++ block.BlockTexture
        x := wrapInt64 (block.X * textureSize)
        y := wrapInt64 (block.Y * textureSize) } :: blockDraws loads textureSize rest
    else blockDraws loads textureSize rest

/-- The draw calls of `GeneratePhotoLocal`: `removeOldData(&dest)` followed by
one `frameCreate` over the remaining events. -/
def generatePhotoLocalDraws (loads : String → Bool) (textureSize : Int)
    (dest : List VisualData) : List DrawCall :=
  blockDraws loads textureSize (removeOldData dest)

/-! ## The writer loop of `EncodeGPU` (`graphics/graphics.go`)

Go's `int` is the 64-bit two's-complement integer: sums are reduced with
`wrapInt64`, and `/` is division truncating toward zero. -/

/-- A decoded image as far as the pipeline looks at it: its bounds and the
colour `img.At(x, y).RGBA()` of every pixel, as `(r, g, b, a)`. -/
structure Image where
  minX : Int
  minY : Int
  maxX : Int
  maxY : Int
  rgba : Int → Int → Nat × Nat × Nat × Nat

/-- What the `select` on `ffmpegDone` observes before a batch: the encoder is
still running, or it has exited, with `ffErr` nil or not. -/
inductive EncoderObs where
  | running
  | exitedClean
  | exitedErr (ffErr : String)
deriving DecidableEq, Repr

/-- The result `(n, err)` of one `pw.Write(frameBuffer)`. -/
inductive WriteOutcome where
  | ok
  | failed (n : Int) (err : String)
deriving DecidableEq, Repr

/-- The error values the writer closure of `EncodeGPU` returns. -/
inductive WriterError where
  /-- The message `ffmpeg exited before frame %d`, with `: %w` when `ffErr` is not nil. -/
  | exitedBeforeFrame (frameIndex : Int) (ffErr : Option String)
  /-- The message `render returned nil image at frame %d`. -/
  | nilImage (frameIndex : Int)
  /-- The message `writing to ffmpeg pipe failed after %d bytes at frame %d: %w`. -/
  | writeFailed (n : Int) (frameIndex : Int) (err : String)
deriving DecidableEq, Repr

/-- How a run of the writer closure ends. -/
inductive WriterExit where
  /-- The closure returned `writeErr`. -/
  | returned (writeErr : Option WriterError)
  /-- A run-time panic: division by zero or slice bounds out of range. -/
  | panicked
  /-- The call of `frameCreate` did not return. -/
  | renderStuck
  /-- The iteration bound of the model was reached. -/
  | outOfFuel
deriving DecidableEq, Repr

/-- The environment of the writer loop: the observation made by the `k`-th
`select`, the outcome of the `k`-th `pw.Write`, and the renderer
`frameCreate(&batch, imgTmp, width, height, textureSize, &frameBuffer)` as a
function of the batch, `imgTmp` and `frameBuffer`. The renderer yields `none`
when the call does not return, and otherwise the returned image (`none` for a
nil image) and the new `frameBuffer`. -/
structure WriterEnv where
  observe : Nat → EncoderObs
  write : Nat → WriteOutcome
  frameCreate : List VisualData → Option Image → List Nat → Option (Option Image × List Nat)

/-- The variables of the writer loop, with the trace of the calls made so far. -/
structure WriterState where
  /-- The loop variable `i`. -/
  i : Int
  frameIndex : Int
  /-- The number of loop iterations started so far. -/
  round : Nat
  imgTmp : Option Image
  frameBuffer : List Nat
  /-- The batches passed to `frameCreate`, in order. -/
  batches : List (List VisualData)
  /-- The buffers passed to `pw.Write`, in order. -/
  writes : List (List Nat)

/-- The outcome of the writer closure. -/
structure WriterResult where
  exit : WriterExit
  final : WriterState
  totalFrames : Int

/-- The slice expression `dest[i:end]`, `none` when it panics. -/
def sliceOf (dest : List VisualData) (i j : Int) : Option (List VisualData) :=
  if 0 ≤ i ∧ i ≤ j ∧ j ≤ (dest.length : Int) then
    some ((dest.drop i.toNat).take (j - i).toNat)
  else none

/-- The `for i := 0; i < len(dest); i += batchSize` loop of the writer closure,
started in state `st`, for at most `fuel` iterations. -/
def writerLoop (env : WriterEnv) (dest : List VisualData) (batchSize : Int) :
    Nat → WriterState → WriterExit × WriterState
  | 0, st => (WriterExit.outOfFuel, st)
  | fuel + 1, st =>
    if st.i < (dest.length : Int) then
      match env.observe st.round with
      | EncoderObs.exitedErr ffErr =>
        (WriterExit.returned (some (WriterError.exitedBeforeFrame st.frameIndex (some ffErr))), st)
      | EncoderObs.exitedClean =>
        (WriterExit.returned (some (WriterError.exitedBeforeFrame st.frameIndex none)), st)
      | EncoderObs.running =>
        let end0 := wrapInt64 (st.i + batchSize)
        let end1 := if end0 > (dest.length : Int) then (dest.length : Int) else end0
        match sliceOf dest st.i end1 with
        | none => (WriterExit.panicked, st)
        | some batch =>
          match env.frameCreate batch st.imgTmp st.frameBuffer with
          | none => (WriterExit.renderStuck, { st with batches := st.batches ++ [batch] })
          | some (none, buf) =>
            (WriterExit.returned (some (WriterError.nilImage st.frameIndex)),
              { st with batches := st.batches ++ [batch], frameBuffer := buf })
          | some (some img, buf) =>
            match env.write st.round with
            | WriteOutcome.failed n err =>
              (WriterExit.returned (some (WriterError.writeFailed n st.frameIndex err)),
                { st with
                  batches := st.batches ++ [batch], imgTmp := some img, frameBuffer := buf
                  writes := st.writes ++ [buf] })
            | WriteOutcome.ok =>
              writerLoop env dest batchSize fuel
                { i := wrapInt64 (st.i + batchSize)
                  frameIndex := wrapInt64 (st.frameIndex + 1)
                  round := st.round + 1
                  imgTmp := some img
                  frameBuffer := buf
                  batches := st.batches ++ [batch]
                  writes := st.writes ++ [buf] }
    else (WriterExit.returned none, st)

/-- The writer closure of `EncodeGPU`, run from the package-level variables
`imgTmp` and `frameBuffer`. `totalFrames` is computed before the loop, and its
division panics for a zero batch size. The loop takes at most one iteration
per event, so the bound `len(dest) + 1` on the iterations is never reached
(`encodeWriter_never_outOfFuel`). -/
def encodeWriter (env : WriterEnv) (dest : List VisualData) (iterations : Int)
    (imgTmp : Option Image) (frameBuffer : List Nat) : WriterResult :=
  let batchSize := iterations
  let st0 : WriterState :=
    { i := 0, frameIndex := 0, round := 0, imgTmp := imgTmp, frameBuffer := frameBuffer
      batches := [], writes := [] }
  if batchSize = 0 then { exit := WriterExit.panicked, final := st0, totalFrames := 0 }
  else
    let totalFrames :=
      Int.tdiv (wrapInt64 (wrapInt64 ((dest.length : Int) + batchSize) - 1)) batchSize
    let r := writerLoop env dest batchSize (dest.length + 1) st0
    { exit := r.1, final := r.2, totalFrames := totalFrames }

/-- The error value returned by `EncodeGPU`. -/
inductive EncodeError where
  /-- The message `ffmpeg error: %w; write error: %v`. -/
  | ffmpegAndWrite (ffErr : String) (writeErr : WriterError)
  /-- The message `ffmpeg error: %w`. -/
  | ffmpeg (ffErr : String)
  /-- The message `write error: %w`. -/
  | write (writeErr : WriterError)
deriving DecidableEq, Repr

/-- The end of `EncodeGPU`, after `wg.Wait()`: the returned error, `none` for nil. -/
def encodeGPUReturn (ffErr : Option String) (writeErr : Option WriterError) :
    Option EncodeError :=
  match ffErr with
  | some e =>
    match writeErr with
    | some w => some (EncodeError.ffmpegAndWrite e w)
    | none => some (EncodeError.ffmpeg e)
  | none =>
    match writeErr with
    | some w => some (EncodeError.write w)
    | none => none

/-- The value of `ffErr` after `wg.Wait()`: the error the encoder exited with.
When the writer saw the encoder exited it is the `ffErr` it saw, otherwise it
is the error `lateErr` the encoder ends with after its input is closed. -/
def ffErrAfterWait (lateErr : Option String) (writeErr : Option WriterError) : Option String :=
  match writeErr with
  | some (WriterError.exitedBeforeFrame _ ffErr) => ffErr
  | _ => lateErr

/-- The part of `EncodeGPU` from the writer closure to the return: the error
returned when the closure returns, `none` when it does not return. -/
def encodeGPUFromWriter (env : WriterEnv) (lateErr : Option String) (dest : List VisualData)
    (iterations : Int) (imgTmp : Option Image) (frameBuffer : List Nat) :
    Option (Option EncodeError) :=
  match (encodeWriter env dest iterations imgTmp frameBuffer).exit with
  | WriterExit.returned writeErr =>
    some (encodeGPUReturn (ffErrAfterWait lateErr writeErr) writeErr)
  | _ => none

/-- The renderer of a `frameCreate` that always returns a non-nil image. -/
def totalRenderer (f : List VisualData → Option Image → List Nat → Image × List Nat) :
    List VisualData → Option Image → List Nat → Option (Option Image × List Nat) :=
  fun batch im buf => some (some (f batch im buf).1, (f batch im buf).2)

/-- The environment in which the encoder stays alive, every write succeeds and
`frameCreate` is the function `f`. -/
def aliveEnv (f : List VisualData → Option Image → List Nat → Image × List Nat) : WriterEnv :=
  { observe := fun _ => EncoderObs.running
    write := fun _ => WriteOutcome.ok
    frameCreate := totalRenderer f }

/-- The batch with index `k` for batch size `b`: the slice `dest[k*b : min (k*b+b) len]`. -/
def batchAt (dest : List VisualData) (b k : Nat) : List VisualData :=
  (dest.drop (k * b)).take b

/-- The frame buffers produced by rendering the batches one after the other,
each call of `frameCreate` starting from the image and buffer left by the
previous one. -/
def renderAll (f : List VisualData → Option Image → List Nat → Image × List Nat) :
    Option Image → List Nat → List (List VisualData) → List (List Nat)
  | _, _, [] => []
  | im, buf, batch :: rest =>
    (f batch im buf).2 :: renderAll f (some (f batch im buf).1) (f batch im buf).2 rest

/-- A renderer used in examples: it returns an empty image and leaves the
frame buffer as it is. -/
def blankRenderer : List VisualData → Option Image → List Nat → Image × List Nat :=
  fun _ _ buf => ({ minX := 0, minY := 0, maxX := 0, maxY := 0, rgba := fun _ _ => (0, 0, 0, 0) }, buf)

/-- The cause recorded in the abort error for an observation of the encoder:
the `ffErr` seen, `none` when the encoder exited cleanly. -/
def exitCause : EncoderObs → Option String
  | EncoderObs.exitedErr ffErr => some ffErr
  | _ => none

/-- An environment used in examples: the encoder is seen running before the
first batch and exited with the error `ffErr` before the second one. -/
def exitAtOneEnv (ffErr : String) : WriterEnv :=
  { observe := fun k => if k = 0 then EncoderObs.running else EncoderObs.exitedErr ffErr
    write := fun _ => WriteOutcome.ok
    frameCreate := totalRenderer blankRenderer }

/-! ## Encoder selection (`graphics/ffmpegEncoding.go`) -/

/-- The outcome of the three `lspci` probes of `getGPUInfo`: whether the NVIDIA
probe succeeded with non-empty output, whether the AMD probe did and then
whether its lower-cased output contains `radeon`, and whether the Intel probe
succeeded with non-empty output. -/
structure Host where
  nvidia : Bool
  amd : Option Bool
  intel : Bool
deriving DecidableEq, Repr

/-- The function `getGPUInfo`: the GPU class and whether it is integrated. -/
def getGPUInfo (host : Host) : String × Bool :=
  let discrete0 := if host.nvidia then "nvidia" else ""
  let discrete := match host.amd with
    | some true => "amd_discrete"
    | _ => discrete0
  let integrated0 := match host.amd with
    | some false => "amd_integrated"
    | _ => ""
  let integrated := if host.intel then "intel_integrated" else integrated0
  if integrated ≠ "" then (integrated, true)
  else if discrete ≠ "" then (discrete, false)
  else ("unknown", false)

/-- One entry of the `encoders` slice of `getGPUEncoder`. -/
structure EncoderCandidate where
  name : String
  codec : String
  checkCmd : String
deriving DecidableEq, Repr

/-- The `switch gpuType` of `getGPUEncoder` that fills `encoders`. -/
def encodersFor (gpuType : String) : List EncoderCandidate :=
  if gpuType = "nvidia" then
    [⟨"nvenc", "h264_nvenc", "ffmpeg -hide_banner -encoders | grep h264_nvenc"⟩]
  else if gpuType = "intel_integrated" then
    [⟨"qsv", "h264_qsv", "ffmpeg -hide_banner -encoders | grep h264_qsv"⟩,
     ⟨"vaapi", "h264_vaapi", "ffmpeg -hide_banner -encoders | grep h264_vaapi"⟩]
  else
    [⟨"nvenc", "h264_nvenc", "ffmpeg -hide_banner -encoders | grep h264_nvenc"⟩,
     ⟨"amf", "h264_amf", "ffmpeg -hide_banner -encoders | grep h264_amf"⟩,
     ⟨"qsv", "h264_qsv", "ffmpeg -hide_banner -encoders | grep h264_qsv"⟩,
     ⟨"vaapi", "h264_vaapi", "ffmpeg -hide_banner -encoders | grep h264_vaapi"⟩]

/-- The probing loop of `getGPUEncoder` with the fallback after it. The
predicate `probe` tells for which check commands `cmd.Run()` returns no error. -/
def probeLoop (probe : String → Bool) (gpuType : String) :
    List EncoderCandidate → String × String × String
  | [] => ("libx264", "libx264", gpuType)
  | encoder :: rest =>
    if probe encoder.checkCmd then (encoder.codec, encoder.name, gpuType)
    else probeLoop probe gpuType rest

/-- The guard of the safety override of `getGPUEncoder`; the product is the
product of Go's `int`. -/
def overrideFires (isIntegrated : Bool) (width height : Int) : Bool :=
  isIntegrated && (decide (width > 3840) || decide (height > 2160) ||
    decide (wrapInt64 (width * height) > 8000000))

/-- The function `getGPUEncoder`: the triple `(codec, name, gpuType)`. -/
def getGPUEncoder (host : Host) (probe : String → Bool) (width height : Int) :
    String × String × String :=
  let gpuType := (getGPUInfo host).1
  let isIntegrated := (getGPUInfo host).2
  if overrideFires isIntegrated width height then ("libx264", "libx264", gpuType)
  else probeLoop probe gpuType (encodersFor gpuType)

/-- The candidate order as the specification gives it, by encoder name. -/
def specCandidateNames (gpuType : String) : List String :=
  if gpuType = "nvidia" then ["nvenc"]
  else if gpuType = "intel_integrated" then ["qsv", "vaapi"]
  else ["nvenc", "amf", "qsv", "vaapi"]

/-- The availability check command of the hardware encoder with the given name. -/
def specCheckCmd (name : String) : String :=
  "ffmpeg -hide_banner -encoders | grep h264_" ++ name

/-! ## Resolution scaling (`graphics/ffmpegEncoding.go`)

`float64` is modelled by the rationals it denotes together with the two
infinities and NaN. A finite result is rounded to the nearest number with a
53-bit significand, ties to even (`roundF64`). The exponent range is not
modelled: the magnitudes that occur in `calculateScaledDimensions` lie between
`2^-64` and `2^80`, far inside the normal range. The sign of zero is not
modelled: it influences no result here. -/

/-- Rounding of a rational to the nearest binary64 number, ties to even. -/
def roundF64 (x : ℚ) : ℚ :=
  if x = 0 then 0
  else
    let a := |x|
    let e := Int.log 2 a - 52
    let m := a / (2 : ℚ) ^ e
    let fl := ⌊m⌋
    let r : Int :=
      if m - fl < 1 / 2 then fl
      else if 1 / 2 < m - fl then fl + 1
      else if fl % 2 = 0 then fl else fl + 1
    (if x < 0 then -1 else 1) * (r : ℚ) * (2 : ℚ) ^ e

/-- The values of `float64`. -/
inductive F64 where
  | finite (q : ℚ)
  | posInf
  | negInf
  | nan
deriving DecidableEq

/-- The conversion `float64(n)` of an `int`. -/
def F64.ofInt (n : Int) : F64 := F64.finite (roundF64 (n : ℚ))

/-- The quotient `a / b` of `float64`. -/
def F64.div : F64 → F64 → F64
  | F64.finite a, F64.finite b =>
    if b = 0 then (if a = 0 then F64.nan else if 0 < a then F64.posInf else F64.negInf)
    else F64.finite (roundF64 (a / b))
  | F64.finite _, F64.posInf => F64.finite 0
  | F64.finite _, F64.negInf => F64.finite 0
  | F64.posInf, F64.finite b => if 0 ≤ b then F64.posInf else F64.negInf
  | F64.negInf, F64.finite b => if 0 ≤ b then F64.negInf else F64.posInf
  | _, _ => F64.nan

/-- The product `a * b` of `float64`. -/
def F64.mul : F64 → F64 → F64
  | F64.finite a, F64.finite b => F64.finite (roundF64 (a * b))
  | F64.finite a, F64.posInf =>
    if a = 0 then F64.nan else if 0 < a then F64.posInf else F64.negInf
  | F64.finite a, F64.negInf =>
    if a = 0 then F64.nan else if 0 < a then F64.negInf else F64.posInf
  | F64.posInf, F64.finite b =>
    if b = 0 then F64.nan else if 0 < b then F64.posInf else F64.negInf
  | F64.negInf, F64.finite b =>
    if b = 0 then F64.nan else if 0 < b then F64.negInf else F64.posInf
  | F64.posInf, F64.posInf => F64.posInf
  | F64.negInf, F64.negInf => F64.posInf
  | F64.posInf, F64.negInf => F64.negInf
  | F64.negInf, F64.posInf => F64.negInf
  | _, _ => F64.nan

/-- The comparison `a < b` of `float64`; it is false when an operand is NaN. -/
def F64.lt : F64 → F64 → Bool
  | F64.finite a, F64.finite b => decide (a < b)
  | F64.finite _, F64.posInf => true
  | F64.negInf, F64.finite _ => true
  | F64.negInf, F64.posInf => true
  | _, _ => false

/-- The conversion `int(f)`: truncation toward zero. For a value that `int`
cannot represent Go leaves the result to the implementation; on amd64 it is
the smallest `int`. -/
def F64.toInt : F64 → Int
  | F64.finite q =>
    let t : Int := if 0 ≤ q then ⌊q⌋ else ⌈q⌉
    if -(2 ^ 63) ≤ t ∧ t < 2 ^ 63 then t else -(2 ^ 63)
  | _ => -(2 ^ 63)

/-- The function `minFloat`. -/
def minFloat (a b : F64) : F64 := if F64.lt a b then a else b

/-- The function `getMaxResolution`. -/
def getMaxResolution (gpuType : String) : Int × Int :=
  if gpuType = "nvidia" then (8192, 8192)
  else if gpuType = "amd_discrete" then (4096, 4096)
  else if gpuType = "amd_integrated" then (3840, 2160)
  else if gpuType = "intel_integrated" then (3840, 2160)
  else (1920, 1080)

/-- The statement `if v%2 != 0 { v-- }` of `calculateScaledDimensions`. -/
def forceEven (v : Int) : Int :=
  if Int.tmod v 2 ≠ 0 then wrapInt64 (v - 1) else v

/-- The function `calculateScaledDimensions`. -/
def calculateScaledDimensions (width height : Int) (gpuType : String) : Int × Int :=
  let maxWidth := (getMaxResolution gpuType).1
  let maxHeight := (getMaxResolution gpuType).2
  if width ≤ maxWidth ∧ height ≤ maxHeight then (width, height)
  else
    let widthScale := F64.div (F64.ofInt maxWidth) (F64.ofInt width)
    let heightScale := F64.div (F64.ofInt maxHeight) (F64.ofInt height)
    let scale := minFloat widthScale heightScale
    let scaledWidth := F64.toInt (F64.mul (F64.ofInt width) scale)
    let scaledHeight := F64.toInt (F64.mul (F64.ofInt height) scale)
    (forceEven scaledWidth, forceEven scaledHeight)

/-- The value `fmt.Sprintf("scale=%d:%d:flags=lanczos", targetWidth, targetHeight)`. -/
def scaleFilter (targetWidth targetHeight : Int) : String :=
  "scale=" ++ fmtInt targetWidth ++ ":" ++ fmtInt targetHeight ++ ":flags=lanczos"

/-- The insertion `args[k] = v` into an `ffmpeg.KwArgs` map. -/
def kwSet (args : String → Option String) (k v : String) : String → Option String :=
  Function.update args k (some v)

/-- The function `getEncoderArgs`: the returned `ffmpeg.KwArgs` map. -/
def getEncoderArgs (encoder encoderName gpuType : String) (width height : Int)
    (useScaling : Bool) : String → Option String :=
  let baseArgs := kwSet (kwSet (fun _ => none) "pix_fmt" "yuv420p") "movflags" "faststart"
  let target := if useScaling then calculateScaledDimensions width height gpuType
    else (width, height)
  let vf := fun (args : String → Option String) =>
    if useScaling then kwSet args "vf" (scaleFilter target.1 target.2) else args
  if encoderName = "nvenc" then
    vf (kwSet (kwSet (kwSet (kwSet baseArgs "c:v" encoder) "preset" "p4") "cq" "23") "rc" "vbr")
  else if encoderName = "amf" then
    vf (kwSet (kwSet (kwSet baseArgs "c:v" encoder) "quality" "quality") "profile" "high")
  else if encoderName = "qsv" then
    vf (kwSet (kwSet (kwSet baseArgs "c:v" encoder) "preset" "quality") "profile" "high")
  else if encoderName = "vaapi" then
    let args := kwSet baseArgs "c:v" encoder
    let args := if gpuType = "amd_integrated" ∨ gpuType = "intel_integrated" then
      kwSet args "vaapi_device" "/dev/dri/renderD128" else args
    vf args
  else
    kwSet (kwSet (kwSet baseArgs "c:v" encoder) "preset" "medium") "crf" "23"

/-- The start of `EncodeGPU`: the selected encoder, `needsScaling` and
`outputArgs`. -/
structure EncodePlan where
  encoder : String
  encoderName : String
  gpuType : String
  needsScaling : Bool
  outputArgs : String → Option String

/-- The start of `EncodeGPU`, up to the computation of `outputArgs`. -/
def encodeGPUPlan (host : Host) (probe : String → Bool) (width height : Int) : EncodePlan :=
  let sel := getGPUEncoder host probe width height
  let encoder := sel.1
  let encoderName := sel.2.1
  let gpuType := sel.2.2
  let needsScaling := (decide (width > 3840) || decide (height > 2160)) &&
    decide (encoderName ≠ "libx264")
  { encoder := encoder
    encoderName := encoderName
    gpuType := gpuType
    needsScaling := needsScaling
    outputArgs := getEncoderArgs encoder encoderName gpuType width height needsScaling }

/-! ## Frame serialization (`graphics/imageManager.go`) -/

/-- The conversion `uint8(c >> 8)` of a colour channel. -/
def channelByte (c : Nat) : Nat := (c / 256) % 256

/-- The pixels visited by the nested loops `for y := bounds.Min.Y; y < bounds.Max.Y; y++`
and `for x := bounds.Min.X; x < bounds.Max.X; x++` of `imageToRGB`, in order. -/
def pixelOrder (img : Image) : List (Int × Int) :=
  (List.range (img.maxY - img.minY).toNat).flatMap fun dy =>
    (List.range (img.maxX - img.minX).toNat).map fun dx =>
      (img.minX + Int.ofNat dx, img.minY + Int.ofNat dy)

/-- The assignment `buf[index] = v`, `none` when the index is out of range. -/
def storeByte (buf : List Nat) (index : Nat) (v : Nat) : Option (List Nat) :=
  if index < buf.length then some (buf.set index v) else none

/-- The body of the pixel loop of `imageToRGB` that stores three bytes, on the
buffer and the index. -/
def storeRGB (img : Image) (st : List Nat × Nat) (p : Int × Int) : Option (List Nat × Nat) :=
  match storeByte st.1 st.2 (channelByte (img.rgba p.1 p.2).1) with
  | none => none
  | some b1 =>
    match storeByte b1 (st.2 + 1) (channelByte (img.rgba p.1 p.2).2.1) with
    | none => none
    | some b2 =>
      match storeByte b2 (st.2 + 2) (channelByte (img.rgba p.1 p.2).2.2.1) with
      | none => none
      | some b3 => some (b3, st.2 + 3)

/-- The body of the pixel loop of `imageToRGB` that stores four bytes. -/
def storeRGBA (img : Image) (st : List Nat × Nat) (p : Int × Int) : Option (List Nat × Nat) :=
  match storeRGB img st p with
  | none => none
  | some (b3, _) =>
    match storeByte b3 (st.2 + 3) (channelByte (img.rgba p.1 p.2).2.2.2) with
    | none => none
    | some b4 => some (b4, st.2 + 4)

/-- A pixel loop of `imageToRGB` over the pixels `ps`, `none` when a store
is out of range. -/
def pixelLoop (body : List Nat × Nat → Int × Int → Option (List Nat × Nat)) :
    List (Int × Int) → List Nat × Nat → Option (List Nat × Nat)
  | [], st => some st
  | p :: ps, st =>
    match body st p with
    | none => none
    | some st1 => pixelLoop body ps st1

/-- The allocation `make([]byte, n)`, `none` when the length is negative. -/
def makeBytes (n : Int) : Option (List Nat) :=
  if 0 ≤ n then some (List.replicate n.toNat 0) else none

/-- The function `imageToRGB`: the value of `*buffer` on return, `none` when
the function panics. -/
def imageToRGB (img : Image) (imType : Int) (buffer : List Nat) : Option (List Nat) :=
  let width := img.maxX
  let height := img.maxY
  if buffer.length ≠ 0 then
    (pixelLoop (storeRGB img) (pixelOrder img) (buffer, 0)).map Prod.fst
  else if imType = 24 then
    match makeBytes (wrapInt64 (wrapInt64 (width * height) * 4)) with
    | none => none
    | some rgb => (pixelLoop (storeRGBA img) (pixelOrder img) (rgb, 0)).map Prod.fst
  else
    match makeBytes (wrapInt64 (wrapInt64 (width * height) * 3)) with
    | none => none
    | some rgb => (pixelLoop (storeRGB img) (pixelOrder img) (rgb, 0)).map Prod.fst

/-- The drawing library `gg` as far as `frameCreate` uses it. `tiled w h t` is
the pixel content of `gg.NewContext(w, h)` after the tiling loops drew the
background texture with step `t`, and `cleared w h` its content after
`SetRGB(1, 1, 1)` and `Clear()`; they are `none` when that part does not
return. `drawImage` is the effect of one `dc.DrawImage` on the pixels. -/
structure Gg where
  tiled : Int → Int → Int → Option (Int → Int → Nat × Nat × Nat × Nat)
  cleared : Int → Int → Option (Int → Int → Nat × Nat × Nat × Nat)
  drawImage : (Int → Int → Nat × Nat × Nat × Nat) → DrawCall → Int → Int → Nat × Nat × Nat × Nat

/-- The canvas `gg.NewContext(width, height)` with the given pixels: its image
has the bounds `image.Rect(0, 0, width, height)`, which orders the corners. -/
def newContext (width height : Int) (pixels : Int → Int → Nat × Nat × Nat × Nat) : Image :=
  { minX := min 0 width, minY := min 0 height, maxX := max 0 width, maxY := max 0 height
    rgba := pixels }

/-- The function `frameCreate`: the returned image and the value of
`*frameBuffer` on return (`none` for a nil `frameBuffer`); the result is `none`
when the call does not return. -/
def frameCreate (gg : Gg) (loads : String → Bool) (blocks : List VisualData)
    (im : Option Image) (width height textureSize : Int) (frameBuffer : Option (List Nat)) :
    Option (Image × Option (List Nat)) :=
  let dc : Option Image :=
    match im with
    | some img => some img
    | none =>
      if loads "assets/white_concrete.png" then
        (gg.tiled width height textureSize).map (newContext width height)
      else (gg.cleared width height).map (newContext width height)
  match dc with
  | none => none
  | some canvas =>
    let img : Image :=
      { canvas with
        rgba := (blockDraws loads textureSize blocks).foldl gg.drawImage canvas.rgba }
    match frameBuffer with
    | none => some (img, none)
    | some buf =>
      match imageToRGB img 0 buf with
      | none => none
      | some out => some (img, some out)

/-- The environment of the writer loop in which `frameCreate` is the function
of this package, called with `&frameBuffer`. -/
def renderEnv (gg : Gg) (loads : String → Bool) (width height textureSize : Int)
    (observe : Nat → EncoderObs) (write : Nat → WriteOutcome) : WriterEnv :=
  { observe := observe
    write := write
    frameCreate := fun batch im buf =>
      match frameCreate gg loads batch im width height textureSize (some buf) with
      | none => none
      | some r => some (some r.1, r.2.getD buf) }

/-- Whether the image is a canvas of width `W` and height `H`: its bounds are
`image.Rect(0, 0, W, H)`. -/
def IsCanvas (img : Image) (W H : Nat) : Prop :=
  img.minX = 0 ∧ img.minY = 0 ∧ img.maxX = (W : Int) ∧ img.maxY = (H : Int)

/-- The invariant of the package-level variables and of the trace of the writer
loop for a canvas of width `W` and height `H`: `imgTmp` is nil or such a
canvas, `frameBuffer` is empty or of length `W * H * 3`, and every buffer
written has length `W * H * 3`. -/
def RenderInv (W H : Nat) (st : WriterState) : Prop :=
  (∀ img, st.imgTmp = some img → IsCanvas img W H) ∧
  (st.frameBuffer.length = 0 ∨ st.frameBuffer.length = W * H * 3) ∧
  ∀ w ∈ st.writes, w.length = W * H * 3

/-- An image of one pixel, used in examples. -/
def onePixel : Image :=
  { minX := 0, minY := 0, maxX := 1, maxY := 1, rgba := fun _ _ => (65535, 32768, 255, 65535) }

/-- A drawing library used in examples: white canvases, and drawing leaves the pixels. -/
def plainGg : Gg :=
  { tiled := fun _ _ _ => some (fun _ _ => (65535, 65535, 65535, 65535))
    cleared := fun _ _ => some (fun _ _ => (65535, 65535, 65535, 65535))
    drawImage := fun px _ => px }

/-! ## Loading from the data source (`db/db.go`, `main.go`)

The table `PB` is modelled by the list of its rows in the order of
`ORDER BY timestamp`; it does not change during the run, and the queries do
not fail for a non-negative `OFFSET`. `strings.ToLower` is a parameter. -/

/-- One row `timestamp, x, y, c` of the table `PB`. -/
structure Row where
  timestamp : Int
  x : Int
  y : Int
  c : String
deriving DecidableEq, Repr

/-- The body of the loop over `rows.Next()` of `GetData`: the scanned row with
the texture name `strings.ToLower(c) + ".png"`. -/
def scanRow (toLower : String → String) (r : Row) : VisualData :=
  { Time := r.timestamp, X := r.x, Y := r.y, BlockTexture := toLower r.c ++ ".png" }

/-- The query `SELECT timestamp, x, y, c FROM PB ORDER BY timestamp LIMIT 1000 OFFSET ?`
with the given argument: the rows returned, `none` when the query is rejected
(negative offset). -/
def queryPage (source : List Row) (offset : Int) : Option (List Row) :=
  if offset < 0 then none else some ((source.drop offset.toNat).take 1000)

/-- The function `GetData`: the query is issued with the argument
`offset*1000`, and an error gives the empty slice. -/
def GetData (toLower : String → String) (source : List Row) (offset : Int) :
    List VisualData :=
  match queryPage source (wrapInt64 (offset * 1000)) with
  | none => []
  | some rows => rows.map (scanRow toLower)

/-- The function `GetMaxCount`: `int(totalRecords)` for `SELECT COUNT(*) FROM PB`. -/
def GetMaxCount (source : List Row) : Int := wrapInt64 (source.length : Int)

/-- The variables of the loading loop of `normalModeSetup`, with the `OFFSET`
arguments of the queries issued so far. -/
structure LoadState where
  i : Int
  num : Int
  data : List VisualData
  offsets : List Int

/-- The loop `for i := 0; i <= num; i += 1000` of `normalModeSetup`, for at
most `fuel` iterations: the state when the loop is left, `none` when the
iterations are used up. -/
def loadLoop (toLower : String → String) (source : List Row) :
    Nat → LoadState → Option LoadState
  | 0, _ => none
  | fuel + 1, st =>
    if st.i ≤ st.num then
      loadLoop toLower source fuel
        { i := wrapInt64 (st.i + 1000)
          num := GetMaxCount source
          data := st.data ++ GetData toLower source st.i
          offsets := st.offsets ++ [wrapInt64 (st.i * 1000)] }
    else some st

/-- The loading part of `normalModeSetup`: the state after the loop. The loop
runs once for every multiple of 1000 up to the record count, so the bound on
the iterations is not reached (`normalModeSetup_loads`). -/
def normalModeSetup (toLower : String → String) (source : List Row) : Option LoadState :=
  loadLoop toLower source (source.length / 1000 + 2)
    { i := 0, num := GetMaxCount source, data := [], offsets := [] }

/-- The page that the loop of `normalModeSetup` receives in round `k`: the
rows from record offset `k * 1000 * 1000` on, at most 1000 of them. -/
def loadedPage (toLower : String → String) (source : List Row) (k : Nat) : List VisualData :=
  ((source.drop (k * 1000 * 1000)).take 1000).map (scanRow toLower)

/-- A table of `n` rows with the timestamps `0, 1, ..., n - 1`, used in examples. -/
def sampleTable (n : Nat) : List Row :=
  (List.range n).map fun k => { timestamp := Int.ofNat k, x := Int.ofNat k, y := 0, c := "RED" }

/-! ## The canvas as a map of cells

The picture on the drawing context as far as whole textures go: for every
position, the path of the texture drawn there last, and `none` where only the
background shows. -/

/-- The position at which the block loop of `frameCreate` draws a block:
`int(block.X*textureSize64), int(block.Y*textureSize64)`. -/
def cellOrigin (textureSize : Int) (block : VisualData) : Int × Int :=
  (wrapInt64 (block.X * textureSize), wrapInt64 (block.Y * textureSize))

/-- One call `dc.DrawImage(*texture, x, y)` on the map of cells. -/
def drawCell (canvas : Int × Int → Option String) (d : DrawCall) : Int × Int → Option String :=
  Function.update canvas (d.x, d.y) (some d.texture)

/-- The block loop of `frameCreate` on the map of cells, started on `canvas`. -/
def drawBlocks (loads : String → Bool) (textureSize : Int)
    (canvas : Int × Int → Option String) (blocks : List VisualData) :
    Int × Int → Option String :=
  (blockDraws loads textureSize blocks).foldl drawCell canvas

/-- The canvas `frameCreate` starts from when `im` is nil: background only. -/
def newCanvas : Int × Int → Option String := fun _ => none

/-- The picture of `GeneratePhotoLocal`: `removeOldData(&dest)`, then one
`frameCreate` with a nil image. -/
def photoCanvas (loads : String → Bool) (textureSize : Int) (dest : List VisualData) :
    Int × Int → Option String :=
  drawBlocks loads textureSize newCanvas (removeOldData dest)

/-- The picture of the last frame of `EncodeGPU` when the encoder stays alive
and every write succeeds: the batches of the writer loop are drawn one after
the other, the first on a new canvas and each later one on the canvas left by
the previous call (`imgTmp`). -/
def videoCanvas (f : List VisualData → Option Image → List Nat → Image × List Nat)
    (loads : String → Bool) (textureSize : Int) (dest : List VisualData) (iterations : Int) :
    Int × Int → Option String :=
  (encodeWriter (aliveEnv f) dest iterations none []).final.batches.foldl
    (drawBlocks loads textureSize) newCanvas

/-! ## Properties of `removeOldData` -/

theorem digitChar_lt_ten (d : Nat) (h : d < 10) : IsDigitChar (Nat.digitChar d) := by
  unfold IsDigitChar
  interval_cases d <;> decide

theorem digitChar_inj_lt_ten (a b : Nat) (ha : a < 10) (hb : b < 10)
    (h : Nat.digitChar a = Nat.digitChar b) : a = b := by
  interval_cases a <;> interval_cases b <;> first | rfl | (exact absurd h (by decide))

theorem map_digitChar_inj : ∀ (l1 l2 : List Nat), (∀ x ∈ l1, x < 10) → (∀ x ∈ l2, x < 10) →
    l1.map Nat.digitChar = l2.map Nat.digitChar → l1 = l2 := by
  intro l1
  induction l1 with
  | nil => intro l2 _ _ h; cases l2 with
    | nil => rfl
    | cons b l2 => simp at h
  | cons a l1 ih =>
    intro l2 h1 h2 h
    cases l2 with
    | nil => simp at h
    | cons b l2 =>
      simp only [List.map_cons, List.cons.injEq] at h
      have hab := digitChar_inj_lt_ten a b (h1 a (List.mem_cons_self _ _))
        (h2 b (List.mem_cons_self _ _)) h.1
      rw [hab, ih l2 (fun x hx => h1 x (List.mem_cons_of_mem _ hx))
        (fun x hx => h2 x (List.mem_cons_of_mem _ hx)) h.2]

theorem toDigitsCore_eq_digits (fuel : Nat) : ∀ (n : Nat) (ds : List Char), n < fuel → 0 < n →
    Nat.toDigitsCore 10 fuel n ds = ((Nat.digits 10 n).reverse.map Nat.digitChar) ++ ds := by
  induction fuel with
  | zero => intro n ds h; omega
  | succ fuel ih =>
    intro n ds hn hpos
    simp only [Nat.toDigitsCore]
    rw [Nat.digits_def' (by norm_num) hpos]
    by_cases h0 : n / 10 = 0
    · rw [if_pos h0, h0]
      simp
    · rw [if_neg h0, ih (n / 10) _ (by omega) (Nat.pos_of_ne_zero h0)]
      simp

theorem toDigits_pos (n : Nat) (hpos : 0 < n) :
    Nat.toDigits 10 n = (Nat.digits 10 n).reverse.map Nat.digitChar := by
  unfold Nat.toDigits
  rw [toDigitsCore_eq_digits (n + 1) n [] (by omega) hpos]
  simp

theorem toDigits_zero : Nat.toDigits 10 0 = ['0'] := by decide

theorem toDigits_isDigit (n : Nat) : ∀ c ∈ Nat.toDigits 10 n, IsDigitChar c := by
  rcases Nat.eq_zero_or_pos n with rfl | hpos
  · rw [toDigits_zero]; intro c hc; simp at hc; subst hc; unfold IsDigitChar; decide
  · rw [toDigits_pos n hpos]
    intro c hc
    simp only [List.mem_map, List.mem_reverse] at hc
    obtain ⟨d, hd, rfl⟩ := hc
    exact digitChar_lt_ten d (Nat.digits_lt_base (by norm_num) hd)

theorem toDigits_head (n : Nat) (hpos : 0 < n) :
    ∃ d tl, 0 < d ∧ d < 10 ∧ Nat.toDigits 10 n = Nat.digitChar d :: tl := by
  have hne : Nat.digits 10 n ≠ [] := Nat.digits_ne_nil_iff_ne_zero.mpr (by omega)
  have hlast := Nat.getLast_digit_ne_zero 10 (by omega : n ≠ 0)
  have hlt := Nat.digits_lt_base (b := 10) (m := n) (by norm_num) (List.getLast_mem hne)
  refine ⟨(Nat.digits 10 n).getLast hne, ((Nat.digits 10 n).dropLast.reverse.map Nat.digitChar),
    Nat.pos_of_ne_zero hlast, hlt, ?_⟩
  rw [toDigits_pos n hpos]
  conv_lhs => rw [← List.dropLast_append_getLast hne]
  simp

theorem toDigits_injective (n m : Nat) (h : Nat.toDigits 10 n = Nat.toDigits 10 m) : n = m := by
  have key : ∀ a b : Nat, 0 < a → Nat.toDigits 10 a = Nat.toDigits 10 b → a = b := by
    intro a b ha hab
    rcases Nat.eq_zero_or_pos b with rfl | hb
    · exfalso
      obtain ⟨d, tl, hd0, hd10, hd⟩ := toDigits_head a ha
      rw [toDigits_zero, hd] at hab
      simp only [List.cons.injEq] at hab
      have := digitChar_inj_lt_ten d 0 hd10 (by norm_num) hab.1
      omega
    · rw [toDigits_pos a ha, toDigits_pos b hb] at hab
      have hrev := map_digitChar_inj _ _
        (fun x hx => Nat.digits_lt_base (by norm_num) (List.mem_reverse.mp hx))
        (fun x hx => Nat.digits_lt_base (by norm_num) (List.mem_reverse.mp hx)) hab
      have hdig : Nat.digits 10 a = Nat.digits 10 b := List.reverse_injective hrev
      exact Nat.digits_inj_iff.mp hdig
  rcases Nat.eq_zero_or_pos n with rfl | hn
  · rcases Nat.eq_zero_or_pos m with rfl | hm
    · rfl
    · exact (key m 0 hm h.symm).symm
  · exact key n m hn h

theorem fmtInt_data (n : Int) :
    (fmtInt n).data = if n < 0 then '-' :: Nat.toDigits 10 n.natAbs else Nat.toDigits 10 n.natAbs := by
  unfold fmtInt
  split
  · show ("-" ++ (Nat.toDigits 10 n.natAbs).asString).data = _
    rw [String.data_append]
    rfl
  · rfl

theorem fmtInt_no_colon (n : Int) : ':' ∉ (fmtInt n).data := by
  rw [fmtInt_data]
  have hd : ∀ c ∈ Nat.toDigits 10 n.natAbs, c ≠ ':' := by
    intro c hc
    have := toDigits_isDigit _ c hc
    intro e
    subst e
    revert this
    unfold IsDigitChar
    decide
  split
  · intro h
    rcases List.mem_cons.mp h with h | h
    · exact absurd h (by decide)
    · exact hd _ h rfl
  · intro h
    exact hd _ h rfl

theorem fmtInt_injective (a b : Int) (h : fmtInt a = fmtInt b) : a = b := by
  have hdata := congrArg String.data h
  rw [fmtInt_data, fmtInt_data] at hdata
  have hminus : ∀ n : Nat, '-' :: Nat.toDigits 10 n ≠ Nat.toDigits 10 0 := by
    intro n; rw [toDigits_zero]; intro e; simp at e
  have hnodash : ∀ (n m : Nat), '-' :: Nat.toDigits 10 n ≠ Nat.toDigits 10 m := by
    intro n m e
    have := toDigits_isDigit m '-' (by rw [← e]; exact List.mem_cons_self _ _)
    revert this
    unfold IsDigitChar
    decide
  by_cases ha : a < 0 <;> by_cases hb : b < 0
  · rw [if_pos ha, if_pos hb] at hdata
    have := toDigits_injective _ _ (List.cons.inj hdata).2
    omega
  · rw [if_pos ha, if_neg hb] at hdata
    exact absurd hdata (hnodash _ _)
  · rw [if_neg ha, if_pos hb] at hdata
    exact absurd hdata.symm (hnodash _ _)
  · rw [if_neg ha, if_neg hb] at hdata
    have := toDigits_injective _ _ hdata
    omega

theorem append_colon_inj : ∀ (l1 l1' l2 l2' : List Char), ':' ∉ l1 → ':' ∉ l1' →
    l1 ++ ':' :: l2 = l1' ++ ':' :: l2' → l1 = l1' ∧ l2 = l2' := by
  intro l1
  induction l1 with
  | nil =>
    intro l1' l2 l2' _ h' h
    cases l1' with
    | nil => simpa using h
    | cons c l1' =>
      simp only [List.nil_append, List.cons_append, List.cons.injEq] at h
      exact absurd (h.1 ▸ List.mem_cons_self _ _) h'
  | cons c l1 ih =>
    intro l1' l2 l2' h1 h1' h
    cases l1' with
    | nil =>
      simp only [List.nil_append, List.cons_append, List.cons.injEq] at h
      exact absurd (h.1 ▸ List.mem_cons_self _ _) h1
    | cons c' l1' =>
      simp only [List.cons_append, List.cons.injEq] at h
      obtain ⟨e1, e2⟩ := ih l1' l2 l2' (fun hm => h1 (List.mem_cons_of_mem _ hm))
        (fun hm => h1' (List.mem_cons_of_mem _ hm)) h.2
      exact ⟨by rw [h.1, e1], e2⟩

theorem key_inj (x y x' y' : Int)
    (h : fmtInt x ++ ":" ++ fmtInt y = fmtInt x' ++ ":" ++ fmtInt y') : x = x' ∧ y = y' := by
  have hdata := congrArg String.data h
  simp only [String.data_append] at hdata
  rw [List.append_assoc, List.append_assoc] at hdata
  obtain ⟨e1, e2⟩ := append_colon_inj _ _ _ _ (fmtInt_no_colon x) (fmtInt_no_colon x') hdata
  exact ⟨fmtInt_injective _ _ (String.ext e1), fmtInt_injective _ _ (String.ext e2)⟩

/-- The keys of two events are equal exactly when their coordinates are. -/
theorem key_eq_iff (u v : VisualData) : key u = key v ↔ coord u = coord v := by
  unfold key coord
  constructor
  · intro h
    obtain ⟨e1, e2⟩ := key_inj _ _ _ _ h
    rw [e1, e2]
  · intro h
    rw [(Prod.mk.inj h).1, (Prod.mk.inj h).2]

theorem compactStep_eq (latest : String → Option VisualData) (s : CompactState) (i : Nat)
    (v : VisualData) (h : s.arr.get? i = some v) :
    compactStep latest s i =
      if survives latest s.seen v then
        { arr := s.arr.set s.write v, write := s.write + 1,
          seen := Function.update s.seen (key v) true }
      else s := by
  unfold compactStep survives
  rw [h]
  dsimp only
  split
  · simp
  · split
    · simp
    · split <;> simp_all

theorem filterPass_append_singleton (latest : String → Option VisualData)
    (l : List VisualData) (v : VisualData) (seen : String → Bool) :
    filterPass latest (l ++ [v]) seen =
      filterPass latest l seen ++
        (if survives latest (seenAfter latest l seen) v then [v] else []) := by
  induction l generalizing seen with
  | nil => simp only [List.nil_append, filterPass, seenAfter]
  | cons a l ih =>
    simp only [List.cons_append, filterPass, seenAfter]
    split
    · exact congrArg (List.cons a) (ih _)
    · exact ih _

theorem seenAfter_append_singleton (latest : String → Option VisualData)
    (l : List VisualData) (v : VisualData) (seen : String → Bool) :
    seenAfter latest (l ++ [v]) seen =
      (if survives latest (seenAfter latest l seen) v then
        Function.update (seenAfter latest l seen) (key v) true
      else seenAfter latest l seen) := by
  induction l generalizing seen with
  | nil => simp only [List.nil_append, seenAfter]
  | cons a l ih =>
    simp only [List.cons_append, seenAfter]
    split
    · exact ih _
    · exact ih _

/-- The loop invariant of the in-place second loop after `i` iterations. -/
theorem compact_invariant (latest : String → Option VisualData) (data : List VisualData)
    (seen0 : String → Bool) (i : Nat) (hi : i ≤ data.length) :
    let s := (List.range i).foldl (compactStep latest) { arr := data, write := 0, seen := seen0 }
    s.write ≤ i ∧ s.arr.length = data.length ∧ s.arr.drop i = data.drop i ∧
      s.arr.take s.write = filterPass latest (data.take i) seen0 ∧
      s.seen = seenAfter latest (data.take i) seen0 := by
  induction i with
  | zero => simp [filterPass, seenAfter]
  | succ i ih =>
    have hlt : i < data.length := hi
    obtain ⟨hw, hlen, hdrop, htake, hseen⟩ := ih (Nat.le_of_lt hlt)
    simp only [List.range_succ, List.foldl_append, List.foldl_cons, List.foldl_nil]
    generalize (List.range i).foldl (compactStep latest)
      { arr := data, write := 0, seen := seen0 } = s at hw hlen hdrop htake hseen ⊢
    have hget : s.arr.get? i = some data[i] := by
      have h1 : (s.arr.drop i).head? = (data.drop i).head? := by rw [hdrop]
      simpa [List.head?_drop, List.getElem?_eq_getElem hlt] using h1
    have hdrop1 : s.arr.drop (i + 1) = data.drop (i + 1) := by
      have := congrArg (List.drop 1) hdrop
      simpa [List.drop_drop, Nat.add_comm] using this
    have htk : data.take (i + 1) = data.take i ++ [data[i]] := by
      rw [List.take_succ, List.getElem?_eq_getElem hlt]; rfl
    rw [htk, filterPass_append_singleton, seenAfter_append_singleton, ← hseen, ← htake,
      compactStep_eq latest s i _ hget]
    by_cases hs : survives latest s.seen data[i] = true
    · simp only [hs, if_true]
      have hwl : s.write < s.arr.length := by omega
      refine ⟨Nat.succ_le_succ hw, by simpa using hlen, ?_, ?_⟩
      · rw [List.drop_set_of_lt _ _ (Nat.lt_succ_of_le hw)]
        exact hdrop1
      · refine ⟨?_, trivial⟩
        rw [List.take_succ, List.set_take,
          List.set_eq_of_length_le (by simp), List.getElem?_set_self hwl]
        rfl
    · simp only [hs]
      exact ⟨Nat.le_succ_of_le hw, hlen, hdrop1, by simp, rfl⟩

/-- The in-place second loop computes the list recursion `filterPass`. -/
theorem removeOldData_eq_filterPass (data : List VisualData) :
    removeOldData data = filterPass (buildLatest data) data (fun _ => false) := by
  unfold removeOldData
  split
  · next h =>
    have : data = [] := List.length_eq_zero.mp h
    subst this
    rfl
  · have h := compact_invariant (buildLatest data) data (fun _ => false) data.length (Nat.le_refl _)
    simp only [List.take_length] at h
    exact h.2.2.2.1

theorem latestStep_ne (m : String → Option VisualData) (v : VisualData) (k : String)
    (hk : k ≠ key v) : latestStep m v k = m k := by
  unfold latestStep
  cases m (key v) with
  | none => exact Function.update_noteq hk _ m
  | some prev =>
    dsimp only
    split
    · exact Function.update_noteq hk _ m
    · rfl

theorem latestStep_none (m : String → Option VisualData) (v : VisualData)
    (h : m (key v) = none) : latestStep m v (key v) = some v := by
  unfold latestStep
  rw [h]
  exact Function.update_same _ _ _

theorem latestStep_some (m : String → Option VisualData) (v prev : VisualData)
    (h : m (key v) = some prev) :
    latestStep m v (key v) = if v.Time > prev.Time then some v else some prev := by
  unfold latestStep
  rw [h]
  dsimp only
  split
  · exact Function.update_same _ _ _
  · exact h

theorem latestInv_step (p : List VisualData) (m : String → Option VisualData)
    (v : VisualData) (h : LatestInv p m) : LatestInv (p ++ [v]) (latestStep m v) := by
  intro k
  by_cases hkv : k = key v
  · subst hkv
    have hv := h (key v)
    cases hm : m (key v) with
    | none =>
      rw [latestStep_none m v hm]
      refine ⟨fun e => Option.noConfusion e, ?_⟩
      intro u hu
      cases hu
      refine ⟨by simp, rfl, ?_⟩
      intro w hw hwk
      rcases List.mem_append.mp hw with hw | hw
      · exact absurd hwk (hv.1 hm w hw)
      · simp at hw; subst hw; exact le_refl _
    | some prev =>
      obtain ⟨hp, hpk, hmax⟩ := hv.2 prev hm
      rw [latestStep_some m v prev hm]
      split
      · next hgt =>
        refine ⟨fun e => Option.noConfusion e, ?_⟩
        intro u hu
        cases hu
        refine ⟨by simp, rfl, ?_⟩
        intro w hw hwk
        rcases List.mem_append.mp hw with hw | hw
        · exact le_trans (hmax w hw hwk) (le_of_lt hgt)
        · simp at hw; subst hw; exact le_refl _
      · next hgt =>
        refine ⟨fun e => Option.noConfusion e, ?_⟩
        intro u hu
        cases hu
        refine ⟨List.mem_append_left _ hp, hpk, ?_⟩
        intro w hw hwk
        rcases List.mem_append.mp hw with hw | hw
        · exact hmax w hw hwk
        · simp at hw; subst hw; exact not_lt.mp hgt
  · rw [latestStep_ne m v k hkv]
    have hk := h k
    refine ⟨?_, ?_⟩
    · intro hm w hw
      rcases List.mem_append.mp hw with hw | hw
      · exact hk.1 hm w hw
      · simp at hw; subst hw; exact fun e => hkv e.symm
    · intro u hm
      obtain ⟨hp, hpk, hmax⟩ := hk.2 u hm
      refine ⟨List.mem_append_left _ hp, hpk, ?_⟩
      intro w hw hwk
      rcases List.mem_append.mp hw with hw | hw
      · exact hmax w hw hwk
      · simp at hw; subst hw; exact absurd hwk.symm hkv

theorem latestInv_foldl (l p : List VisualData) (m : String → Option VisualData)
    (h : LatestInv p m) : LatestInv (p ++ l) (l.foldl latestStep m) := by
  induction l generalizing p m with
  | nil => simpa using h
  | cons v l ih =>
    have := ih (p ++ [v]) (latestStep m v) (latestInv_step p m v h)
    simpa using this

theorem buildLatest_inv (data : List VisualData) : LatestInv data (buildLatest data) := by
  have h0 : LatestInv [] (fun _ => none) := by
    intro k
    simp
  simpa [buildLatest] using latestInv_foldl data [] _ h0

/-- For every event of the input, `latest` holds an event of maximal time at its key. -/
theorem buildLatest_some (data : List VisualData) (v : VisualData) (hv : v ∈ data) :
    ∃ u, buildLatest data (key v) = some u ∧ u ∈ data ∧ key u = key v ∧
      ∀ w ∈ data, key w = key v → w.Time ≤ u.Time := by
  have h := buildLatest_inv data (key v)
  cases hm : buildLatest data (key v) with
  | none => exact absurd rfl (h.1 hm v hv)
  | some u => exact ⟨u, rfl, h.2 u hm⟩

theorem survives_iff (latest : String → Option VisualData) (seen : String → Bool)
    (v : VisualData) :
    survives latest seen v = true ↔
      seen (key v) = false ∧ ∃ n, latest (key v) = some n ∧ n.Time = v.Time := by
  unfold survives
  cases hs : seen (key v) <;> cases hl : latest (key v) <;> simp

theorem filterPass_sublist (latest : String → Option VisualData) (vs : List VisualData)
    (seen : String → Bool) : List.Sublist (filterPass latest vs seen) vs := by
  induction vs generalizing seen with
  | nil => exact List.Sublist.slnil
  | cons v vs ih =>
    simp only [filterPass]
    split
    · exact (ih _).cons₂ v
    · exact (ih _).cons v

theorem filterPass_keys (latest : String → Option VisualData) (vs : List VisualData)
    (seen : String → Bool) :
    ((filterPass latest vs seen).map key).Nodup ∧
      ∀ u ∈ filterPass latest vs seen, seen (key u) = false := by
  induction vs generalizing seen with
  | nil => simp [filterPass]
  | cons v vs ih =>
    simp only [filterPass]
    split
    · next hs =>
      obtain ⟨hnd, hseen⟩ := ih (Function.update seen (key v) true)
      have hne : ∀ u ∈ filterPass latest vs (Function.update seen (key v) true),
          key u ≠ key v := by
        intro u hu e
        have := hseen u hu
        rw [e, Function.update_same] at this
        exact Bool.noConfusion this
      refine ⟨?_, ?_⟩
      · rw [List.map_cons, List.nodup_cons]
        refine ⟨?_, hnd⟩
        intro hmem
        obtain ⟨u, hu, hk⟩ := List.mem_map.mp hmem
        exact hne u hu hk
      · intro u hu
        rcases List.mem_cons.mp hu with rfl | hu
        · exact ((survives_iff _ _ _).mp hs).1
        · have := hseen u hu
          rwa [Function.update_noteq (hne u hu)] at this
    · exact ih seen

theorem filterPass_mem (latest : String → Option VisualData) (vs : List VisualData)
    (seen : String → Bool) (u : VisualData) (hu : u ∈ filterPass latest vs seen) :
    ∃ pre post, vs = pre ++ u :: post ∧
      (∃ n, latest (key u) = some n ∧ n.Time = u.Time) ∧
      ∀ w ∈ pre, key w = key u → w.Time ≠ u.Time := by
  induction vs generalizing seen with
  | nil => simp [filterPass] at hu
  | cons v vs ih =>
    simp only [filterPass] at hu
    split at hu
    · next hs =>
      rcases List.mem_cons.mp hu with rfl | hu
      · exact ⟨[], vs, rfl, ((survives_iff _ _ _).mp hs).2, by simp⟩
      · obtain ⟨pre, post, hvs, hn, hpre⟩ := ih _ hu
        have hseen := (filterPass_keys latest vs _).2 u hu
        have hne : key v ≠ key u := by
          intro e
          rw [← e, Function.update_same] at hseen
          exact Bool.noConfusion hseen
        refine ⟨v :: pre, post, by rw [hvs]; rfl, hn, ?_⟩
        intro w hw hk
        rcases List.mem_cons.mp hw with rfl | hw
        · exact absurd hk hne
        · exact hpre w hw hk
    · next hs =>
      obtain ⟨pre, post, hvs, hn, hpre⟩ := ih _ hu
      have hseen := (filterPass_keys latest vs _).2 u hu
      refine ⟨v :: pre, post, by rw [hvs]; rfl, hn, ?_⟩
      intro w hw hk
      rcases List.mem_cons.mp hw with rfl | hw
      · intro ht
        apply hs
        rw [survives_iff, hk]
        obtain ⟨n, hn1, hn2⟩ := hn
        exact ⟨hseen, n, hn1, by rw [hn2, ht]⟩
      · exact hpre w hw hk

theorem filterPass_complete (latest : String → Option VisualData) (vs : List VisualData)
    (seen : String → Bool) (v : VisualData) (hv : v ∈ vs) (hseen : seen (key v) = false)
    (hl : ∃ n, latest (key v) = some n ∧ n.Time = v.Time) :
    ∃ u ∈ filterPass latest vs seen, key u = key v := by
  induction vs generalizing seen with
  | nil => simp at hv
  | cons a vs ih =>
    simp only [filterPass]
    split
    · next hs =>
      by_cases hk : key a = key v
      · exact ⟨a, List.mem_cons_self _ _, hk⟩
      · have hva : v ∈ vs := by
          rcases List.mem_cons.mp hv with rfl | h
          · exact absurd rfl hk
          · exact h
        obtain ⟨u, hu, huk⟩ := ih (Function.update seen (key a) true) hva
          (by rw [Function.update_noteq (Ne.symm hk)]; exact hseen)
        exact ⟨u, List.mem_cons_of_mem _ hu, huk⟩
    · next hs =>
      have hva : v ∈ vs := by
        rcases List.mem_cons.mp hv with rfl | h
        · exact absurd ((survives_iff _ _ _).mpr ⟨hseen, hl⟩) hs
        · exact h
      exact ih seen hva hseen

theorem filterPass_eq_self (latest : String → Option VisualData) (vs : List VisualData)
    (seen : String → Bool) (hnd : (vs.map key).Nodup)
    (h : ∀ v ∈ vs, seen (key v) = false ∧ ∃ n, latest (key v) = some n ∧ n.Time = v.Time) :
    filterPass latest vs seen = vs := by
  induction vs generalizing seen with
  | nil => rfl
  | cons a vs ih =>
    rw [List.map_cons, List.nodup_cons] at hnd
    have ha := h a (List.mem_cons_self _ _)
    simp only [filterPass, (survives_iff _ _ _).mpr ha, if_true]
    congr 1
    apply ih _ hnd.2
    intro v hv
    have hne : key v ≠ key a := by
      intro e
      exact hnd.1 (e ▸ List.mem_map_of_mem key hv)
    refine ⟨?_, (h v (List.mem_cons_of_mem _ hv)).2⟩
    rw [Function.update_noteq hne]
    exact (h v (List.mem_cons_of_mem _ hv)).1

/-- A list with one event per coordinate is left unchanged by `removeOldData`. -/
theorem removeOldData_of_nodup_keys (data : List VisualData) (hnd : (data.map key).Nodup) :
    removeOldData data = data := by
  rw [removeOldData_eq_filterPass]
  apply filterPass_eq_self _ _ _ hnd
  intro v hv
  obtain ⟨u, hu, hmem, hk, _⟩ := buildLatest_some data v hv
  have : u = v := List.inj_on_of_nodup_map hnd hmem hv hk
  exact ⟨rfl, u, hu, by rw [this]⟩

theorem blockDraws_length_le (loads : String → Bool) (textureSize : Int)
    (blocks : List VisualData) : (blockDraws loads textureSize blocks).length ≤ blocks.length := by
  induction blocks with
  | nil => simp [blockDraws]
  | cons b rest ih =>
    simp only [blockDraws]
    split
    · simpa using ih
    · exact Nat.le_succ_of_le ih

theorem countP_coord_eq_one (l : List VisualData) (c : Int × Int)
    (hnd : (l.map coord).Nodup) (hc : c ∈ l.map coord) :
    l.countP (fun u => decide (coord u = c)) = 1 := by
  induction l with
  | nil => simp at hc
  | cons a l ih =>
    rw [List.map_cons, List.nodup_cons] at hnd
    by_cases ha : coord a = c
    · have hnone : l.countP (fun u => decide (coord u = c)) = 0 := by
        rw [List.countP_eq_zero]
        intro u hu
        simp only [decide_eq_true_eq]
        intro e
        exact hnd.1 (ha ▸ e ▸ List.mem_map_of_mem coord hu)
      rw [List.countP_cons_of_pos _ _ (by simpa using ha), hnone]
    · rw [List.countP_cons_of_neg _ _ (by simpa using ha)]
      apply ih hnd.2
      rcases List.mem_cons.mp hc with h | h
      · exact absurd h.symm ha
      · exact h

theorem removeOldData_keys_nodup (data : List VisualData) :
    ((removeOldData data).map key).Nodup := by
  rw [removeOldData_eq_filterPass]
  exact (filterPass_keys _ _ _).1

theorem removeOldData_coords_nodup (data : List VisualData) :
    ((removeOldData data).map coord).Nodup := by
  have h := removeOldData_keys_nodup data
  unfold List.Nodup at h ⊢
  rw [List.pairwise_map] at h ⊢
  exact h.imp (fun hne e => hne ((key_eq_iff _ _).mpr e))

theorem removeOldData_sublist (data : List VisualData) :
    List.Sublist (removeOldData data) data := by
  rw [removeOldData_eq_filterPass]
  exact filterPass_sublist _ _ _

theorem removeOldData_coord_mem (data : List VisualData) (v : VisualData) (hv : v ∈ data) :
    coord v ∈ (removeOldData data).map coord := by
  obtain ⟨n, hn, hmem, hk, _⟩ := buildLatest_some data v hv
  have := filterPass_complete (buildLatest data) data (fun _ => false) n hmem rfl
    ⟨n, by rw [hk]; exact hn, rfl⟩
  obtain ⟨u, hu, huk⟩ := this
  rw [removeOldData_eq_filterPass]
  exact List.mem_map.mpr ⟨u, hu, (key_eq_iff u v).mp (by rw [huk, hk])⟩

theorem removeOldData_time_max (data : List VisualData) (u : VisualData)
    (hu : u ∈ removeOldData data) (w : VisualData) (hw : w ∈ data) (hk : coord w = coord u) :
    w.Time ≤ u.Time := by
  rw [removeOldData_eq_filterPass] at hu
  obtain ⟨_, _, _, ⟨n, hn, hnt⟩, _⟩ := filterPass_mem _ _ _ u hu
  have := ((buildLatest_inv data (key u)).2 n hn).2.2 w hw ((key_eq_iff w u).mpr hk)
  rwa [hnt] at this

theorem removeOldData_length (data : List VisualData) :
    (removeOldData data).length = (data.map coord).dedup.length := by
  have hperm : List.Perm ((removeOldData data).map coord) (data.map coord).dedup := by
    rw [List.perm_ext_iff_of_nodup (removeOldData_coords_nodup data) (List.nodup_dedup _)]
    intro k
    rw [List.mem_dedup]
    constructor
    · intro h
      exact (List.Sublist.map coord (removeOldData_sublist data)).subset h
    · intro h
      obtain ⟨v, hv, rfl⟩ := List.mem_map.mp h
      exact removeOldData_coord_mem data v hv
  simpa using hperm.length_eq

/-- C1. After `removeOldData` the list holds only input events, exactly one
event at every coordinate that occurs in the input, and that event carries the
maximum timestamp of the input events at its coordinate. Hence `N` events over
`M` distinct coordinates leave exactly `M` events, and the still-image path
issues at most `M` block draws. On the three-event example of the
specification the result is the two events `B` and `C`. -/
theorem removeOldData_one_latest_per_coordinate (data : List VisualData) :
    (∀ u ∈ removeOldData data, u ∈ data) ∧
    (∀ v ∈ data, (removeOldData data).countP (fun u => decide (coord u = coord v)) = 1) ∧
    (∀ u ∈ removeOldData data, ∀ w ∈ data, coord w = coord u → w.Time ≤ u.Time) ∧
    (removeOldData data).length = (data.map coord).dedup.length ∧
    (∀ (loads : String → Bool) (textureSize : Int),
      (generatePhotoLocalDraws loads textureSize data).length ≤
        (data.map coord).dedup.length) ∧
    removeOldData [⟨1, 0, 0, "A"⟩, ⟨3, 0, 0, "B"⟩, ⟨2, 1, 0, "C"⟩] =
      [⟨3, 0, 0, "B"⟩, ⟨2, 1, 0, "C"⟩] := by
  refine ⟨?_, ?_, ?_, removeOldData_length data, ?_, ?_⟩
  · intro u hu
    exact (removeOldData_sublist data).subset hu
  · intro v hv
    exact countP_coord_eq_one _ _ (removeOldData_coords_nodup data)
      (removeOldData_coord_mem data v hv)
  · intro u hu w hw hk
    exact removeOldData_time_max data u hu w hw hk
  · intro loads textureSize
    rw [← removeOldData_length]
    exact blockDraws_length_le _ _ _
  · decide

/-- The second loop of `removeOldData` keeps the events at the positions `i`
for which `Q (i, v)` holds, when `Q (i, v)` says that `v` carries the maximum
timestamp of its coordinate and the events before position `i` at its
coordinate are strictly older. -/
theorem filterPass_eq_enum_filter (data : List VisualData) (Q : Nat × VisualData → Bool)
    (hQ : ∀ i v, Q (i, v) = true ↔
      ((∀ w ∈ data, coord w = coord v → w.Time ≤ v.Time) ∧
        (∀ w ∈ data.take i, coord w = coord v → w.Time < v.Time))) :
    ∀ (vs p : List VisualData) (seen : String → Bool), data = p ++ vs →
      (∀ k, seen k = true ↔
        ∃ w ∈ p, key w = k ∧ ∃ n, buildLatest data k = some n ∧ n.Time = w.Time) →
      filterPass (buildLatest data) vs seen =
        ((vs.enumFrom p.length).filter Q).map Prod.snd := by
  intro vs
  induction vs with
  | nil => intro p seen _ _; rfl
  | cons v vs ih =>
    intro p seen hdata hseen
    have hv : v ∈ data := by
      rw [hdata]; exact List.mem_append_right _ (List.mem_cons_self _ _)
    have htake : data.take p.length = p := by
      rw [hdata]; simp
    have hnext : data = (p ++ [v]) ++ vs := by
      rw [hdata]; simp
    have hiff : survives (buildLatest data) seen v = true ↔ Q (p.length, v) = true := by
      rw [hQ, survives_iff, htake]
      constructor
      · rintro ⟨hs, n, hn, hnt⟩
        have hmax := ((buildLatest_inv data (key v)).2 n hn).2.2
        refine ⟨fun w hw hc => ?_, fun w hw hc => ?_⟩
        · have := hmax w hw ((key_eq_iff w v).mpr hc)
          rwa [hnt] at this
        · have hwd : w ∈ data := by
            rw [hdata]; exact List.mem_append_left _ hw
          have hle := hmax w hwd ((key_eq_iff w v).mpr hc)
          rw [hnt] at hle
          refine lt_of_le_of_ne hle ?_
          intro he
          have hst : seen (key v) = true :=
            (hseen (key v)).mpr ⟨w, hw, (key_eq_iff w v).mpr hc, n, hn, by rw [hnt, he]⟩
          rw [hs] at hst
          exact Bool.noConfusion hst
      · rintro ⟨h1, h2⟩
        obtain ⟨n, hn, hnd, hnk, hmax⟩ := buildLatest_some data v hv
        have hnt : n.Time = v.Time :=
          le_antisymm (h1 n hnd ((key_eq_iff n v).mp hnk)) (hmax v hv rfl)
        refine ⟨?_, n, hn, hnt⟩
        cases hs : seen (key v) with
        | false => rfl
        | true =>
          obtain ⟨w, hw, hwk, m, hm, hmt⟩ := (hseen (key v)).mp hs
          rw [hn] at hm
          have hmn : n = m := Option.some.inj hm
          have hlt := h2 w hw ((key_eq_iff w v).mp hwk)
          rw [← hmt, ← hmn, hnt] at hlt
          exact absurd hlt (lt_irrefl _)
    rw [filterPass, List.enumFrom_cons]
    by_cases hs : survives (buildLatest data) seen v = true
    · rw [if_pos hs, List.filter_cons_of_pos (hiff.mp hs), List.map_cons]
      have hinv : ∀ k, Function.update seen (key v) true k = true ↔
          ∃ w ∈ p ++ [v], key w = k ∧
            ∃ n, buildLatest data k = some n ∧ n.Time = w.Time := by
        intro k
        by_cases hk : k = key v
        · subst hk
          rw [Function.update_same]
          exact ⟨fun _ => ⟨v, List.mem_append_right _ (List.mem_singleton_self _), rfl,
            ((survives_iff _ _ _).mp hs).2⟩, fun _ => rfl⟩
        · rw [Function.update_noteq hk, hseen k]
          constructor
          · rintro ⟨w, hw, h⟩
            exact ⟨w, List.mem_append_left _ hw, h⟩
          · rintro ⟨w, hw, hwk, h⟩
            rcases List.mem_append.mp hw with hw | hw
            · exact ⟨w, hw, hwk, h⟩
            · rw [List.mem_singleton] at hw
              subst hw
              exact absurd hwk.symm hk
      have := ih (p ++ [v]) (Function.update seen (key v) true) hnext hinv
      rw [List.length_append, List.length_singleton] at this
      rw [this]
    · rw [if_neg hs, List.filter_cons_of_neg (fun h => hs (hiff.mpr h))]
      have hinv : ∀ k, seen k = true ↔
          ∃ w ∈ p ++ [v], key w = k ∧
            ∃ n, buildLatest data k = some n ∧ n.Time = w.Time := by
        intro k
        rw [hseen k]
        constructor
        · rintro ⟨w, hw, h⟩
          exact ⟨w, List.mem_append_left _ hw, h⟩
        · rintro ⟨w, hw, hwk, h⟩
          rcases List.mem_append.mp hw with hw | hw
          · exact ⟨w, hw, hwk, h⟩
          · rw [List.mem_singleton] at hw
            subst hw
            subst hwk
            have hst : seen (key w) = true := by
              cases hsk : seen (key w) with
              | true => rfl
              | false => exact absurd ((survives_iff _ _ _).mpr ⟨hsk, h⟩) hs
            exact (hseen (key w)).mp hst
      have := ih (p ++ [v]) seen hnext hinv
      rw [List.length_append, List.length_singleton] at this
      exact this

/-- The output of `removeOldData` is the list of the input events, in input
order, at the positions whose event carries the maximum timestamp of its
coordinate and has only strictly older events of its coordinate before it. -/
theorem removeOldData_eq_enum_filter (data : List VisualData) :
    removeOldData data =
      (data.enum.filter (fun q => decide
        ((∀ w ∈ data, coord w = coord q.2 → w.Time ≤ q.2.Time) ∧
          (∀ w ∈ data.take q.1, coord w = coord q.2 → w.Time < q.2.Time)))).map Prod.snd := by
  rw [removeOldData_eq_filterPass]
  exact filterPass_eq_enum_filter data _ (fun i v => decide_eq_true_iff) data []
    (fun _ => false) rfl (fun k => by simp)

/-- C9. The output of `removeOldData` is the input with some events deleted
and nothing reordered: it is the list of the input events, in input order, at
exactly the positions whose event carries the maximum timestamp of its
coordinate and has no event of that coordinate and timestamp before it. Every
coordinate of the input has exactly one survivor, and every survivor is the
earliest event of the input among those at its coordinate that carry the
maximum timestamp at that coordinate: the events at its coordinate before it
are strictly older, the ones after it are not newer. Of two events of one
coordinate with the same timestamp the first is kept, at its place among the
other survivors. -/
theorem removeOldData_keeps_order_first_newest (data : List VisualData) :
    List.Sublist (removeOldData data) data ∧
    removeOldData data =
      (data.enum.filter (fun q => decide
        ((∀ w ∈ data, coord w = coord q.2 → w.Time ≤ q.2.Time) ∧
          (∀ w ∈ data.take q.1, coord w = coord q.2 → w.Time < q.2.Time)))).map Prod.snd ∧
    (∀ v ∈ data, ∃ u ∈ removeOldData data, coord u = coord v ∧
      ∀ u2 ∈ removeOldData data, coord u2 = coord v → u2 = u) ∧
    (∀ u ∈ removeOldData data, ∃ pre post, data = pre ++ u :: post ∧
      (∀ w ∈ pre, coord w = coord u → w.Time < u.Time) ∧
      (∀ w ∈ post, coord w = coord u → w.Time ≤ u.Time)) ∧
    removeOldData [⟨5, 0, 0, "A"⟩, ⟨5, 1, 0, "B"⟩, ⟨5, 0, 0, "C"⟩, ⟨4, 1, 0, "D"⟩] =
      [⟨5, 0, 0, "A"⟩, ⟨5, 1, 0, "B"⟩] := by
  refine ⟨removeOldData_sublist data, removeOldData_eq_enum_filter data, ?_, ?_, by decide⟩
  · intro v hv
    obtain ⟨u, hu, huc⟩ := List.mem_map.mp (removeOldData_coord_mem data v hv)
    refine ⟨u, hu, huc, ?_⟩
    intro u2 hu2 hc
    exact List.inj_on_of_nodup_map (removeOldData_coords_nodup data) hu2 hu (hc.trans huc.symm)
  · intro u hu
    have hu2 := hu
    rw [removeOldData_eq_filterPass] at hu2
    obtain ⟨pre, post, hdata, _, hpre⟩ := filterPass_mem _ _ _ u hu2
    refine ⟨pre, post, hdata, ?_, ?_⟩
    · intro w hw hk
      have hmem : w ∈ data := by rw [hdata]; exact List.mem_append_left _ hw
      exact lt_of_le_of_ne (removeOldData_time_max data u hu w hmem hk)
        (hpre w hw ((key_eq_iff w u).mpr hk))
    · intro w hw hk
      have hmem : w ∈ data := by
        rw [hdata]; exact List.mem_append_right _ (List.mem_cons_of_mem _ hw)
      exact removeOldData_time_max data u hu w hmem hk

/-- C10. Idempotence: applying `removeOldData` to its own output returns that
output unchanged, same events in the same order. -/
theorem removeOldData_idempotent (data : List VisualData) :
    removeOldData (removeOldData data) = removeOldData data :=
  removeOldData_of_nodup_keys _ (removeOldData_keys_nodup data)

/-! ## Properties of the writer loop of `EncodeGPU` -/

theorem wrapInt64_of_range (z : Int) (h1 : -(2 ^ 63) ≤ z) (h2 : z < 2 ^ 63) :
    wrapInt64 z = z := by
  unfold wrapInt64
  rw [Int.emod_eq_of_lt (by omega) (by omega)]
  omega

theorem sliceOf_batch (dest : List VisualData) (b k : Nat) (hk : k * b < dest.length) :
    sliceOf dest ((k * b : Nat) : Int)
      (if ((k * b + b : Nat) : Int) > (dest.length : Int) then (dest.length : Int)
        else ((k * b + b : Nat) : Int)) = some (batchAt dest b k) := by
  unfold sliceOf batchAt
  split
  · next h =>
    have h' : dest.length < k * b + b := by exact_mod_cast h
    rw [if_pos ⟨by positivity, by exact_mod_cast hk.le, le_refl _⟩]
    have e1 : ((k * b : Nat) : Int).toNat = k * b := Int.toNat_natCast _
    have e2 : ((dest.length : Int) - ((k * b : Nat) : Int)).toNat = dest.length - k * b := by
      omega
    rw [e1, e2]
    congr 1
    rw [List.take_of_length_le (by simp), List.take_of_length_le (by simp; omega)]
  · next h =>
    have h' : k * b + b ≤ dest.length := by
      have := not_lt.mp h
      exact_mod_cast this
    rw [if_pos ⟨by positivity, by push_cast; omega, by exact_mod_cast h'⟩]
    have e1 : ((k * b : Nat) : Int).toNat = k * b := Int.toNat_natCast _
    have e2 : (((k * b + b : Nat) : Int) - ((k * b : Nat) : Int)).toNat = b := by
      push_cast; omega
    rw [e1, e2]

theorem sliceOf_some_bounds (dest batch : List VisualData) (i j : Int)
    (h : sliceOf dest i j = some batch) : 0 ≤ i ∧ i ≤ j ∧ j ≤ (dest.length : Int) := by
  unfold sliceOf at h
  by_cases hc : 0 ≤ i ∧ i ≤ j ∧ j ≤ (dest.length : Int)
  · exact hc
  · rw [if_neg hc] at h
    cases h

theorem writerLoop_never_outOfFuel (env : WriterEnv) (dest : List VisualData) (b : Int)
    (hb0 : b ≠ 0) (hb1 : -(2 ^ 63) ≤ b) (hb2 : b < 2 ^ 63) (fuel : Nat) :
    ∀ st : WriterState, 1 ≤ fuel → (st.i < 0 ∨ (dest.length : Int) - st.i < (fuel : Int)) →
      (writerLoop env dest b fuel st).1 ≠ WriterExit.outOfFuel := by
  induction fuel with
  | zero => intro st h; omega
  | succ fuel ih =>
    intro st _ hst
    rw [writerLoop]
    split
    · next hcond =>
      split
      · simp
      · simp
      · simp only []
        split
        · simp
        · next batch hslice =>
          split
          · simp
          · simp
          · split
            · simp
            · have hsl : 0 ≤ st.i ∧ st.i ≤ (if wrapInt64 (st.i + b) > (dest.length : Int)
                  then (dest.length : Int) else wrapInt64 (st.i + b)) :=
                ⟨(sliceOf_some_bounds _ _ _ _ hslice).1, (sliceOf_some_bounds _ _ _ _ hslice).2.1⟩
              have hne : wrapInt64 (st.i + b) ≠ st.i := by
                unfold wrapInt64
                omega
              have hfuel : 1 ≤ fuel := by omega
              apply ih _ hfuel
              right
              show (dest.length : Int) - wrapInt64 (st.i + b) < (fuel : Int)
              obtain ⟨h0, h1⟩ := hsl
              split at h1
              · omega
              · have : st.i < wrapInt64 (st.i + b) := lt_of_le_of_ne h1 (Ne.symm hne)
                rcases hst with h | h
                · omega
                · push_cast at h
                  omega
    · simp

/-- The iteration bound of `encodeWriter` is never reached: for every
environment, list and batch size of type `int` the writer closure returns,
panics, or is stuck in `frameCreate`. -/
theorem encodeWriter_never_outOfFuel (env : WriterEnv) (dest : List VisualData)
    (iterations : Int) (imgTmp : Option Image) (frameBuffer : List Nat)
    (h1 : -(2 ^ 63) ≤ iterations) (h2 : iterations < 2 ^ 63) :
    (encodeWriter env dest iterations imgTmp frameBuffer).exit ≠ WriterExit.outOfFuel := by
  unfold encodeWriter
  simp only []
  split
  · simp
  · next h0 =>
    apply writerLoop_never_outOfFuel env dest iterations h0 h1 h2 (dest.length + 1) _ (by omega)
    right
    show (dest.length : Int) - 0 < ((dest.length + 1 : Nat) : Int)
    push_cast
    omega

/-- The writer loop with a live encoder and successful writes, started at the
beginning of round `k`, runs to the end of the list. -/
theorem writerLoop_alive_of_steps
    (f : List VisualData → Option Image → List Nat → Image × List Nat)
    (dest : List VisualData) (b : Nat) (hb : 1 ≤ b) (hlen : dest.length < 2 ^ 63)
    (hst : ∀ k, k * b < dest.length → k * b + b < 2 ^ 63)
    (fuel : Nat) : ∀ (k : Nat) (st : WriterState),
      st.i = ((k * b : Nat) : Int) → st.frameIndex = (k : Int) → st.round = k →
      k * b < dest.length + b → dest.length ≤ (k + fuel) * b →
      ∃ c : Nat, dest.length ≤ (k + c) * b ∧ (c = 0 ∨ (k + c - 1) * b < dest.length) ∧
        (writerLoop (aliveEnv f) dest (b : Int) (fuel + 1) st).1 = WriterExit.returned none ∧
        (writerLoop (aliveEnv f) dest (b : Int) (fuel + 1) st).2.batches =
          st.batches ++ (List.range' k c).map (batchAt dest b) ∧
        (writerLoop (aliveEnv f) dest (b : Int) (fuel + 1) st).2.writes =
          st.writes ++ renderAll f st.imgTmp st.frameBuffer
            ((List.range' k c).map (batchAt dest b)) ∧
        (writerLoop (aliveEnv f) dest (b : Int) (fuel + 1) st).2.frameIndex = ((k + c : Nat) : Int) := by
  induction fuel with
  | zero =>
    intro k st hi hf hr hlt hle
    have hle' : dest.length ≤ k * b := by simpa using hle
    refine ⟨0, by simpa using hle', Or.inl rfl, ?_⟩
    have hcond : ¬ st.i < (dest.length : Int) := by
      rw [hi]; exact_mod_cast not_lt.mpr hle'
    simp [writerLoop, hcond, renderAll, hf]
  | succ fuel ih =>
    intro k st hi hf hr hlt hle
    by_cases hcond : k * b < dest.length
    · have hci : st.i < (dest.length : Int) := by rw [hi]; exact_mod_cast hcond
      have hwrap : wrapInt64 (st.i + (b : Int)) = ((k * b + b : Nat) : Int) := by
        rw [hi, wrapInt64_of_range]
        · push_cast; rfl
        · have : (0 : Int) ≤ ((k * b : Nat) : Int) + (b : Int) := by positivity
          omega
        · have h2 : ((k * b + b : Nat) : Int) < 2 ^ 63 := by exact_mod_cast hst k hcond
          push_cast at h2
          exact h2
      have hfi : wrapInt64 (st.frameIndex + 1) = ((k + 1 : Nat) : Int) := by
        rw [hf, wrapInt64_of_range]
        · push_cast; rfl
        · have : (0 : Int) ≤ (k : Int) := by positivity
          omega
        · have : k ≤ k * b := Nat.le_mul_of_pos_right k hb
          have h2 : ((k : Nat) : Int) < 2 ^ 63 := by
            have : k < 2 ^ 63 := by omega
            exact_mod_cast this
          have h3 : ((k : Nat) : Int) + 1 ≤ (dest.length : Int) := by
            have : k + 1 ≤ dest.length := by omega
            exact_mod_cast this
          have h4 : (dest.length : Int) < 2 ^ 63 := by
            have : dest.length < 2 ^ 63 := by omega
            exact_mod_cast this
          omega
      have hslice := sliceOf_batch dest b k hcond
      obtain ⟨c, hc1, hc2, h1, h2, h3, h4⟩ := ih (k + 1)
        { i := ((k * b + b : Nat) : Int)
          frameIndex := ((k + 1 : Nat) : Int)
          round := k + 1
          imgTmp := some (f (batchAt dest b k) st.imgTmp st.frameBuffer).1
          frameBuffer := (f (batchAt dest b k) st.imgTmp st.frameBuffer).2
          batches := st.batches ++ [batchAt dest b k]
          writes := st.writes ++ [(f (batchAt dest b k) st.imgTmp st.frameBuffer).2] }
        (by simp [Nat.add_mul]) rfl rfl
        (by rw [Nat.add_mul, Nat.one_mul]; omega)
        (by rw [Nat.add_assoc, Nat.add_comm 1 fuel]; exact hle)
      have hstep : writerLoop (aliveEnv f) dest (b : Int) (fuel + 1 + 1) st =
          writerLoop (aliveEnv f) dest (b : Int) (fuel + 1)
            { i := ((k * b + b : Nat) : Int)
              frameIndex := ((k + 1 : Nat) : Int)
              round := k + 1
              imgTmp := some (f (batchAt dest b k) st.imgTmp st.frameBuffer).1
              frameBuffer := (f (batchAt dest b k) st.imgTmp st.frameBuffer).2
              batches := st.batches ++ [batchAt dest b k]
              writes := st.writes ++ [(f (batchAt dest b k) st.imgTmp st.frameBuffer).2] } := by
        rw [writerLoop]
        simp only [hci, if_true, aliveEnv, hwrap, totalRenderer, hfi, hr]
        rw [hi, hslice]
      refine ⟨c + 1, ?_, Or.inr ?_, ?_, ?_, ?_, ?_⟩
      · rw [← Nat.add_assoc, Nat.add_right_comm]; exact hc1
      · rcases hc2 with rfl | hc2
        · simpa using hcond
        · have : k + (c + 1) - 1 = k + 1 + c - 1 := by omega
          rw [this]; exact hc2
      · rw [hstep]; exact h1
      · rw [hstep, h2, List.range'_succ]
        simp
      · rw [hstep, h3, List.range'_succ]
        simp [renderAll]
      · rw [hstep, h4]
        congr 1
        omega
    · have hle' : dest.length ≤ k * b := not_lt.mp hcond
      refine ⟨0, by simpa using hle', Or.inl rfl, ?_⟩
      have hcond' : ¬ st.i < (dest.length : Int) := by
        rw [hi]; exact_mod_cast not_lt.mpr hle'
      simp [writerLoop, hcond', renderAll, hf]

/-- The writer loop with a live encoder and successful writes, started at the
beginning of round `k`, runs to the end of the list when `len(dest) + batchSize`
does not overflow `int`. -/
theorem writerLoop_alive (f : List VisualData → Option Image → List Nat → Image × List Nat)
    (dest : List VisualData) (b : Nat) (hb : 1 ≤ b) (hn : dest.length + b ≤ 2 ^ 63)
    (fuel : Nat) : ∀ (k : Nat) (st : WriterState),
      st.i = ((k * b : Nat) : Int) → st.frameIndex = (k : Int) → st.round = k →
      k * b < dest.length + b → dest.length ≤ (k + fuel) * b →
      ∃ c : Nat, dest.length ≤ (k + c) * b ∧ (c = 0 ∨ (k + c - 1) * b < dest.length) ∧
        (writerLoop (aliveEnv f) dest (b : Int) (fuel + 1) st).1 = WriterExit.returned none ∧
        (writerLoop (aliveEnv f) dest (b : Int) (fuel + 1) st).2.batches =
          st.batches ++ (List.range' k c).map (batchAt dest b) ∧
        (writerLoop (aliveEnv f) dest (b : Int) (fuel + 1) st).2.writes =
          st.writes ++ renderAll f st.imgTmp st.frameBuffer
            ((List.range' k c).map (batchAt dest b)) ∧
        (writerLoop (aliveEnv f) dest (b : Int) (fuel + 1) st).2.frameIndex = ((k + c : Nat) : Int) :=
  writerLoop_alive_of_steps f dest b hb (by omega) (fun k hk => by omega) fuel

theorem batches_join (dest : List VisualData) (b q : Nat) :
    ((List.range q).map (batchAt dest b)).flatten = dest.take (q * b) := by
  induction q with
  | zero => simp
  | succ q ih =>
    rw [List.range_succ, List.map_append, List.flatten_append, ih, Nat.succ_mul, List.take_add]
    simp [batchAt]

theorem batchAt_length (dest : List VisualData) (b k : Nat) :
    (batchAt dest b k).length = min b (dest.length - k * b) := by
  simp [batchAt]

theorem ceil_div_unique (n b q : Nat) (hb : 1 ≤ b) (h1 : n ≤ q * b)
    (h2 : q = 0 ∨ (q - 1) * b < n) : q = (n + b - 1) / b := by
  symm
  apply Nat.div_eq_of_lt_le
  · rcases h2 with rfl | h2
    · simp
    · have hq : 1 ≤ q := by
        rcases Nat.eq_zero_or_pos q with rfl | h
        · simp at h1 h2
          omega
        · exact h
      have : q * b = (q - 1) * b + b := by
        conv_lhs => rw [← Nat.sub_add_cancel hq, Nat.add_mul, Nat.one_mul]
      omega
  · rw [Nat.succ_mul]
    omega

/-- The batching of the writer loop when `len(dest) + batchSize` does not
overflow `int`: with a live encoder and successful writes
the loop returns nil, the batches it renders are the slices
`dest[k*b : min (k*b+b) len]` for `k < ceil(n/b)`; they are non-empty, of size at
most `b`, of size exactly `b` except possibly the last, and concatenate to
`dest`; one buffer is written per batch, and `frameIndex` ends at
`ceil(n/b)`, which is also the value of `totalFrames`. -/
theorem encodeWriter_batches (f : List VisualData → Option Image → List Nat → Image × List Nat)
    (dest : List VisualData) (b : Nat) (imgTmp : Option Image) (frameBuffer : List Nat)
    (hb : 1 ≤ b) (hn : dest.length + b ≤ 2 ^ 63) :
    (encodeWriter (aliveEnv f) dest (b : Int) imgTmp frameBuffer).exit = WriterExit.returned none ∧
    (encodeWriter (aliveEnv f) dest (b : Int) imgTmp frameBuffer).final.batches =
      (List.range ((dest.length + b - 1) / b)).map (batchAt dest b) ∧
    (encodeWriter (aliveEnv f) dest (b : Int) imgTmp frameBuffer).final.batches.flatten = dest ∧
    (∀ k, k < (dest.length + b - 1) / b →
      0 < (batchAt dest b k).length ∧ (batchAt dest b k).length ≤ b) ∧
    (∀ k, k + 1 < (dest.length + b - 1) / b → (batchAt dest b k).length = b) ∧
    (encodeWriter (aliveEnv f) dest (b : Int) imgTmp frameBuffer).final.writes =
      renderAll f imgTmp frameBuffer
        (encodeWriter (aliveEnv f) dest (b : Int) imgTmp frameBuffer).final.batches ∧
    (encodeWriter (aliveEnv f) dest (b : Int) imgTmp frameBuffer).final.writes.length =
      (dest.length + b - 1) / b ∧
    (encodeWriter (aliveEnv f) dest (b : Int) imgTmp frameBuffer).final.frameIndex =
      (((dest.length + b - 1) / b : Nat) : Int) ∧
    (encodeWriter (aliveEnv f) dest (b : Int) imgTmp frameBuffer).totalFrames =
      (((dest.length + b - 1) / b : Nat) : Int) := by
  have hb0 : (b : Int) ≠ 0 := by
    have : b ≠ 0 := by omega
    exact_mod_cast this
  obtain ⟨c, hc1, hc2, h1, h2, h3, h4⟩ := writerLoop_alive f dest b hb hn dest.length 0
    { i := 0, frameIndex := 0, round := 0, imgTmp := imgTmp, frameBuffer := frameBuffer
      batches := [], writes := [] } (by simp) rfl rfl (by omega)
    (by
      rw [Nat.zero_add]
      exact Nat.le_mul_of_pos_right _ hb)
  rw [Nat.zero_add] at hc1 hc2
  have hq : c = (dest.length + b - 1) / b := ceil_div_unique _ _ _ hb hc1 hc2
  simp only [List.nil_append, Nat.zero_add] at h2 h3 h4
  rw [← List.range_eq_range'] at h2 h3
  have hlenk : ∀ k, k < c → k * b < dest.length := by
    intro k hk
    rcases hc2 with rfl | hc2
    · omega
    · have : k * b ≤ (c - 1) * b := Nat.mul_le_mul_right b (by omega)
      omega
  have hexit : (encodeWriter (aliveEnv f) dest (b : Int) imgTmp frameBuffer).exit =
      WriterExit.returned none := by
    simp only [encodeWriter, hb0, if_false]; exact h1
  have hbat : (encodeWriter (aliveEnv f) dest (b : Int) imgTmp frameBuffer).final.batches =
      (List.range c).map (batchAt dest b) := by
    simp only [encodeWriter, hb0, if_false]; exact h2
  have hwr : (encodeWriter (aliveEnv f) dest (b : Int) imgTmp frameBuffer).final.writes =
      renderAll f imgTmp frameBuffer ((List.range c).map (batchAt dest b)) := by
    simp only [encodeWriter, hb0, if_false]; exact h3
  have hfi : (encodeWriter (aliveEnv f) dest (b : Int) imgTmp frameBuffer).final.frameIndex =
      (c : Int) := by
    simp only [encodeWriter, hb0, if_false]; exact h4
  have hrlen : ∀ (bs : List (List VisualData)) (im : Option Image) (buf : List Nat),
      (renderAll f im buf bs).length = bs.length := by
    intro bs
    induction bs with
    | nil => intro im buf; rfl
    | cons x xs ih => intro im buf; simp [renderAll, ih]
  rw [← hq]
  refine ⟨hexit, hbat, ?_, ?_, ?_, ?_, ?_, hfi, ?_⟩
  · rw [hbat, batches_join, List.take_of_length_le hc1]
  · intro k hk
    rw [batchAt_length]
    have := hlenk k hk
    omega
  · intro k hk
    rw [batchAt_length]
    have := hlenk (k + 1) hk
    rw [Nat.succ_mul] at this
    omega
  · rw [hwr, hbat]
  · rw [hwr, hrlen]; simp
  · simp only [encodeWriter, hb0, if_false]
    have e1 : wrapInt64 (wrapInt64 ((dest.length : Int) + (b : Int)) - 1) =
        ((dest.length + b - 1 : Nat) : Int) := by
      have hsum : (dest.length : Int) + (b : Int) ≤ 2 ^ 63 := by exact_mod_cast hn
      have hpos : (1 : Int) ≤ (b : Int) := by exact_mod_cast hb
      have hnn : (0 : Int) ≤ (dest.length : Int) := by positivity
      have hcast : ((dest.length + b - 1 : Nat) : Int) = (dest.length : Int) + (b : Int) - 1 := by
        omega
      rw [hcast]
      unfold wrapInt64
      omega
    rw [e1, hq]
    exact (Int.ofNat_tdiv _ _).symm

/-- C2 at a failing input. For two events and the batch size
`9223372036854775807`, with a live encoder and successful writes, the loop
renders the single batch of both events, writes one frame and ends with
`frameIndex = 1 = ceil(2 / b)`, but `totalFrames` is `-1`: the sum
`len(dest) + batchSize - 1` overflows `int`. -/
theorem encodeWriter_totalFrames_overflow :
    (encodeWriter (aliveEnv blankRenderer) [⟨1, 0, 0, "a.png"⟩, ⟨2, 1, 0, "b.png"⟩]
      9223372036854775807 none []).exit = WriterExit.returned none ∧
    (encodeWriter (aliveEnv blankRenderer) [⟨1, 0, 0, "a.png"⟩, ⟨2, 1, 0, "b.png"⟩]
      9223372036854775807 none []).final.batches =
        [[⟨1, 0, 0, "a.png"⟩, ⟨2, 1, 0, "b.png"⟩]] ∧
    (encodeWriter (aliveEnv blankRenderer) [⟨1, 0, 0, "a.png"⟩, ⟨2, 1, 0, "b.png"⟩]
      9223372036854775807 none []).final.writes.length = 1 ∧
    (encodeWriter (aliveEnv blankRenderer) [⟨1, 0, 0, "a.png"⟩, ⟨2, 1, 0, "b.png"⟩]
      9223372036854775807 none []).final.frameIndex = 1 ∧
    (encodeWriter (aliveEnv blankRenderer) [⟨1, 0, 0, "a.png"⟩, ⟨2, 1, 0, "b.png"⟩]
      9223372036854775807 none []).totalFrames = -1 := by
  decide

/-- The writer loop started at the beginning of round `j`, when the encoder is
seen running and the writes succeed in the rounds before `k`, and the encoder
is seen exited at the check of round `k`. -/
theorem writerLoop_exit_at (env : WriterEnv)
    (f : List VisualData → Option Image → List Nat → Image × List Nat)
    (dest : List VisualData) (b k : Nat) (hb : 1 ≤ b) (hlen : dest.length < 2 ^ 63)
    (hk : k * b < dest.length) (hfc : env.frameCreate = totalRenderer f)
    (hrun : ∀ j, j < k → env.observe j = EncoderObs.running ∧ env.write j = WriteOutcome.ok)
    (hexit : env.observe k ≠ EncoderObs.running)
    (fuel : Nat) : ∀ (j : Nat) (st : WriterState),
      st.i = ((j * b : Nat) : Int) → st.frameIndex = (j : Int) → st.round = j →
      j ≤ k → k - j ≤ fuel →
      (writerLoop env dest (b : Int) (fuel + 1) st).1 =
        WriterExit.returned (some (WriterError.exitedBeforeFrame (k : Int)
          (exitCause (env.observe k)))) ∧
      (writerLoop env dest (b : Int) (fuel + 1) st).2.batches =
        st.batches ++ (List.range' j (k - j)).map (batchAt dest b) ∧
      (writerLoop env dest (b : Int) (fuel + 1) st).2.writes =
        st.writes ++ renderAll f st.imgTmp st.frameBuffer
          ((List.range' j (k - j)).map (batchAt dest b)) ∧
      (writerLoop env dest (b : Int) (fuel + 1) st).2.frameIndex = (k : Int) := by
  induction fuel with
  | zero =>
    intro j st hi hf hr hjk hfuel
    have hjk' : j = k := by omega
    subst hjk'
    have hci : st.i < (dest.length : Int) := by rw [hi]; exact_mod_cast hk
    rw [writerLoop]
    simp only [hci, if_true, hr]
    cases hobs : env.observe j with
    | running => exact absurd hobs hexit
    | exitedClean => simp [exitCause, hf, renderAll]
    | exitedErr e => simp [exitCause, hf, renderAll]
  | succ fuel ih =>
    intro j st hi hf hr hjk hfuel
    have hci0 : j * b < dest.length := lt_of_le_of_lt (Nat.mul_le_mul_right b hjk) hk
    have hci : st.i < (dest.length : Int) := by rw [hi]; exact_mod_cast hci0
    by_cases hjk' : j = k
    · subst hjk'
      rw [writerLoop]
      simp only [hci, if_true, hr]
      cases hobs : env.observe j with
      | running => exact absurd hobs hexit
      | exitedClean => simp [exitCause, hf, renderAll]
      | exitedErr e => simp [exitCause, hf, renderAll]
    · have hlt : j < k := lt_of_le_of_ne hjk hjk'
      have hnext : j * b + b ≤ k * b := by
        have := Nat.mul_le_mul_right b (Nat.succ_le_of_lt hlt)
        rwa [Nat.succ_mul] at this
      have hwrap : wrapInt64 (st.i + (b : Int)) = ((j * b + b : Nat) : Int) := by
        rw [hi, wrapInt64_of_range]
        · push_cast; rfl
        · have : (0 : Int) ≤ ((j * b : Nat) : Int) + (b : Int) := by positivity
          omega
        · have : ((j * b + b : Nat) : Int) < 2 ^ 63 := by
            have : j * b + b < 2 ^ 63 := by omega
            exact_mod_cast this
          push_cast at this
          exact this
      have hfi : wrapInt64 (st.frameIndex + 1) = ((j + 1 : Nat) : Int) := by
        rw [hf, wrapInt64_of_range]
        · push_cast; rfl
        · have : (0 : Int) ≤ (j : Int) := by positivity
          omega
        · have : j ≤ j * b := Nat.le_mul_of_pos_right j hb
          have h2 : ((j + 1 : Nat) : Int) < 2 ^ 63 := by
            have : j + 1 < 2 ^ 63 := by omega
            exact_mod_cast this
          push_cast at h2
          exact h2
      have hslice := sliceOf_batch dest b j hci0
      obtain ⟨h1, h2, h3, h4⟩ := ih (j + 1)
        { i := ((j * b + b : Nat) : Int)
          frameIndex := ((j + 1 : Nat) : Int)
          round := j + 1
          imgTmp := some (f (batchAt dest b j) st.imgTmp st.frameBuffer).1
          frameBuffer := (f (batchAt dest b j) st.imgTmp st.frameBuffer).2
          batches := st.batches ++ [batchAt dest b j]
          writes := st.writes ++ [(f (batchAt dest b j) st.imgTmp st.frameBuffer).2] }
        (by simp [Nat.add_mul]) rfl rfl hlt (by omega)
      have hstep : writerLoop env dest (b : Int) (fuel + 1 + 1) st =
          writerLoop env dest (b : Int) (fuel + 1)
            { i := ((j * b + b : Nat) : Int)
              frameIndex := ((j + 1 : Nat) : Int)
              round := j + 1
              imgTmp := some (f (batchAt dest b j) st.imgTmp st.frameBuffer).1
              frameBuffer := (f (batchAt dest b j) st.imgTmp st.frameBuffer).2
              batches := st.batches ++ [batchAt dest b j]
              writes := st.writes ++ [(f (batchAt dest b j) st.imgTmp st.frameBuffer).2] } := by
        rw [writerLoop]
        simp only [hci, if_true, hr, (hrun j hlt).1, (hrun j hlt).2, hwrap, hfi, hfc,
          totalRenderer]
        rw [hi, hslice]
      have hkj : k - j = (k - (j + 1)) + 1 := by omega
      refine ⟨?_, ?_, ?_, ?_⟩
      · rw [hstep]; exact h1
      · rw [hstep, h2, hkj, List.range'_succ]
        simp
      · rw [hstep, h3, hkj, List.range'_succ]
        simp [renderAll]
      · rw [hstep, h4]

theorem renderAll_length (f : List VisualData → Option Image → List Nat → Image × List Nat)
    (bs : List (List VisualData)) : ∀ (im : Option Image) (buf : List Nat),
      (renderAll f im buf bs).length = bs.length := by
  induction bs with
  | nil => intro im buf; rfl
  | cons x xs ih => intro im buf; simp [renderAll, ih]

/-- C3. In the writer loop of `EncodeGPU`, when the encoder is seen running and
the writes succeed for the batches before batch `k`, and the encoder is seen
exited at the check preceding batch `k`, the loop returns the error
`ffmpeg exited before frame k` (wrapping `ffErr` when the encoder reported an
error), `frameIndex` is `k`, exactly the `k` frames of the batches before `k`
have been written and nothing is written at or after that check, and
`EncodeGPU` returns a non-nil error, both when the encoder reported an error
and when it exited cleanly. -/
theorem encodeGPU_abort_on_encoder_exit (env : WriterEnv)
    (f : List VisualData → Option Image → List Nat → Image × List Nat)
    (lateErr : Option String) (dest : List VisualData) (b k : Nat)
    (imgTmp : Option Image) (frameBuffer : List Nat)
    (hb : 1 ≤ b) (hlen : dest.length < 2 ^ 63) (hk : k * b < dest.length)
    (hfc : env.frameCreate = totalRenderer f)
    (hrun : ∀ j, j < k → env.observe j = EncoderObs.running ∧ env.write j = WriteOutcome.ok)
    (hexit : env.observe k ≠ EncoderObs.running) :
    (encodeWriter env dest (b : Int) imgTmp frameBuffer).exit =
      WriterExit.returned (some (WriterError.exitedBeforeFrame (k : Int)
        (exitCause (env.observe k)))) ∧
    (encodeWriter env dest (b : Int) imgTmp frameBuffer).final.frameIndex = (k : Int) ∧
    (encodeWriter env dest (b : Int) imgTmp frameBuffer).final.writes =
      renderAll f imgTmp frameBuffer ((List.range k).map (batchAt dest b)) ∧
    (encodeWriter env dest (b : Int) imgTmp frameBuffer).final.writes.length = k ∧
    encodeGPUFromWriter env lateErr dest (b : Int) imgTmp frameBuffer =
      some (some (match env.observe k with
        | EncoderObs.exitedErr ffErr =>
          EncodeError.ffmpegAndWrite ffErr
            (WriterError.exitedBeforeFrame (k : Int) (some ffErr))
        | _ => EncodeError.write (WriterError.exitedBeforeFrame (k : Int) none))) := by
  have hb0 : (b : Int) ≠ 0 := by
    have : b ≠ 0 := by omega
    exact_mod_cast this
  have hkl : k ≤ dest.length := by
    have : k ≤ k * b := Nat.le_mul_of_pos_right k hb
    omega
  obtain ⟨h1, _, h3, h4⟩ := writerLoop_exit_at env f dest b k hb hlen hk hfc hrun hexit
    dest.length 0
    { i := 0, frameIndex := 0, round := 0, imgTmp := imgTmp, frameBuffer := frameBuffer
      batches := [], writes := [] } (by simp) rfl rfl (Nat.zero_le _) (by omega)
  simp only [List.nil_append, Nat.sub_zero] at h3
  rw [← List.range_eq_range'] at h3
  have hexit' : (encodeWriter env dest (b : Int) imgTmp frameBuffer).exit =
      WriterExit.returned (some (WriterError.exitedBeforeFrame (k : Int)
        (exitCause (env.observe k)))) := by
    simp only [encodeWriter, hb0, if_false]; exact h1
  have hwr : (encodeWriter env dest (b : Int) imgTmp frameBuffer).final.writes =
      renderAll f imgTmp frameBuffer ((List.range k).map (batchAt dest b)) := by
    simp only [encodeWriter, hb0, if_false]; exact h3
  refine ⟨hexit', ?_, hwr, ?_, ?_⟩
  · simp only [encodeWriter, hb0, if_false]; exact h4
  · rw [hwr, renderAll_length]; simp
  · unfold encodeGPUFromWriter
    rw [hexit']
    cases hobs : env.observe k with
    | running => exact absurd hobs hexit
    | exitedClean => cases lateErr <;> rfl
    | exitedErr e => rfl

/-- C3 applied to three events with batch size 1 and an encoder seen exited with an error
before the second batch. -/
theorem encodeGPU_abort_on_encoder_exit_example :
    (encodeWriter (exitAtOneEnv "exit status 1") [⟨1, 0, 0, "a.png"⟩, ⟨2, 1, 0, "b.png"⟩,
      ⟨3, 2, 0, "c.png"⟩] ((1 : Nat) : Int) none []).exit =
      WriterExit.returned (some (WriterError.exitedBeforeFrame ((1 : Nat) : Int)
        (exitCause ((exitAtOneEnv "exit status 1").observe 1)))) ∧
    (encodeWriter (exitAtOneEnv "exit status 1") [⟨1, 0, 0, "a.png"⟩, ⟨2, 1, 0, "b.png"⟩,
      ⟨3, 2, 0, "c.png"⟩] ((1 : Nat) : Int) none []).final.frameIndex = ((1 : Nat) : Int) ∧
    (encodeWriter (exitAtOneEnv "exit status 1") [⟨1, 0, 0, "a.png"⟩, ⟨2, 1, 0, "b.png"⟩,
      ⟨3, 2, 0, "c.png"⟩] ((1 : Nat) : Int) none []).final.writes =
      renderAll blankRenderer none [] ((List.range 1).map (batchAt [⟨1, 0, 0, "a.png"⟩,
        ⟨2, 1, 0, "b.png"⟩, ⟨3, 2, 0, "c.png"⟩] 1)) ∧
    (encodeWriter (exitAtOneEnv "exit status 1") [⟨1, 0, 0, "a.png"⟩, ⟨2, 1, 0, "b.png"⟩,
      ⟨3, 2, 0, "c.png"⟩] ((1 : Nat) : Int) none []).final.writes.length = 1 ∧
    encodeGPUFromWriter (exitAtOneEnv "exit status 1") none [⟨1, 0, 0, "a.png"⟩,
      ⟨2, 1, 0, "b.png"⟩, ⟨3, 2, 0, "c.png"⟩] ((1 : Nat) : Int) none [] =
      some (some (match (exitAtOneEnv "exit status 1").observe 1 with
        | EncoderObs.exitedErr ffErr =>
          EncodeError.ffmpegAndWrite ffErr
            (WriterError.exitedBeforeFrame ((1 : Nat) : Int) (some ffErr))
        | _ => EncodeError.write (WriterError.exitedBeforeFrame ((1 : Nat) : Int) none))) :=
  encodeGPU_abort_on_encoder_exit (exitAtOneEnv "exit status 1") blankRenderer none
    [⟨1, 0, 0, "a.png"⟩, ⟨2, 1, 0, "b.png"⟩, ⟨3, 2, 0, "c.png"⟩] 1 1 none []
    (by decide) (by decide) (by decide) rfl
    (by
      intro j hj
      have : j = 0 := by omega
      subst this
      exact ⟨rfl, rfl⟩)
    (by decide)

/-! ## Properties of the encoder selection -/

theorem probeLoop_eq_find (probe : String → Bool) (gpuType : String)
    (l : List EncoderCandidate) :
    probeLoop probe gpuType l =
      match l.find? (fun e => probe e.checkCmd) with
      | some e => (e.codec, e.name, gpuType)
      | none => ("libx264", "libx264", gpuType) := by
  induction l with
  | nil => rfl
  | cons e rest ih =>
    simp only [probeLoop, List.find?_cons]
    cases h : probe e.checkCmd
    · simpa using ih
    · simp

theorem encodersFor_spec (gpuType : String) :
    encodersFor gpuType =
      (specCandidateNames gpuType).map (fun nm => ⟨nm, "h264_" ++ nm, specCheckCmd nm⟩) := by
  unfold encodersFor specCandidateNames specCheckCmd
  split
  · decide
  · split <;> decide

/-- C4. When the integrated-GPU safety override does not fire, `getGPUEncoder`
returns the first candidate, in the order the class prescribes (`nvidia`:
nvenc; `intel_integrated`: qsv, vaapi; every other class: nvenc, amf, qsv,
vaapi), whose availability probe succeeds, as `(h264_<name>, <name>, gpuType)`;
every candidate before it was probed without success; and when no probe
succeeds it returns `("libx264", "libx264", gpuType)`. It returns in every
case. -/
theorem getGPUEncoder_first_available (host : Host) (probe : String → Bool)
    (width height : Int)
    (hno : overrideFires (getGPUInfo host).2 width height = false) :
    (getGPUEncoder host probe width height =
      match (specCandidateNames (getGPUInfo host).1).find? (fun nm => probe (specCheckCmd nm)) with
      | some nm => ("h264_" ++ nm, nm, (getGPUInfo host).1)
      | none => ("libx264", "libx264", (getGPUInfo host).1)) ∧
    ((∀ nm ∈ specCandidateNames (getGPUInfo host).1, probe (specCheckCmd nm) = false) →
      getGPUEncoder host probe width height = ("libx264", "libx264", (getGPUInfo host).1)) ∧
    (∀ pre nm post, specCandidateNames (getGPUInfo host).1 = pre ++ nm :: post →
      (∀ x ∈ pre, probe (specCheckCmd x) = false) → probe (specCheckCmd nm) = true →
      getGPUEncoder host probe width height = ("h264_" ++ nm, nm, (getGPUInfo host).1)) := by
  have hmain : getGPUEncoder host probe width height =
      match (specCandidateNames (getGPUInfo host).1).find? (fun nm => probe (specCheckCmd nm)) with
      | some nm => ("h264_" ++ nm, nm, (getGPUInfo host).1)
      | none => ("libx264", "libx264", (getGPUInfo host).1) := by
    unfold getGPUEncoder
    simp only [hno, Bool.false_eq_true, if_false]
    rw [probeLoop_eq_find, encodersFor_spec, List.find?_map]
    have hcomp : ((fun e : EncoderCandidate => probe e.checkCmd) ∘
        fun nm => (⟨nm, "h264_" ++ nm, specCheckCmd nm⟩ : EncoderCandidate)) =
        fun nm => probe (specCheckCmd nm) := rfl
    rw [hcomp]
    cases (specCandidateNames (getGPUInfo host).1).find? (fun nm => probe (specCheckCmd nm)) <;>
      rfl
  refine ⟨hmain, ?_, ?_⟩
  · intro hall
    rw [hmain]
    have : (specCandidateNames (getGPUInfo host).1).find? (fun nm => probe (specCheckCmd nm)) =
        none := by
      rw [List.find?_eq_none]
      intro nm hnm
      simp [hall nm hnm]
    rw [this]
  · intro pre nm post hsplit hpre hnm
    rw [hmain, hsplit]
    have : (pre ++ nm :: post).find? (fun nm => probe (specCheckCmd nm)) = some nm := by
      rw [List.find?_append]
      have hnone : pre.find? (fun nm => probe (specCheckCmd nm)) = none := by
        rw [List.find?_eq_none]
        intro x hx
        simp [hpre x hx]
      rw [hnone]
      simp [List.find?_cons, hnm]
    rw [this]

theorem getGPUInfo_integrated (host : Host)
    (h : (getGPUInfo host).1 = "amd_integrated" ∨ (getGPUInfo host).1 = "intel_integrated") :
    (getGPUInfo host).2 = true := by
  obtain ⟨nv, amd, intel⟩ := host
  revert h
  cases nv <;> cases intel <;> rcases amd with _ | _ | _ <;> decide

/-- C4 applied to a host with an NVIDIA card only, where the nvenc probe succeeds. -/
theorem getGPUEncoder_first_available_example :
    (getGPUEncoder ⟨true, none, false⟩ (fun _ => true) 1080 1920 =
      match (specCandidateNames (getGPUInfo ⟨true, none, false⟩).1).find?
          (fun nm => (fun _ => true) (specCheckCmd nm)) with
      | some nm => ("h264_" ++ nm, nm, (getGPUInfo ⟨true, none, false⟩).1)
      | none => ("libx264", "libx264", (getGPUInfo ⟨true, none, false⟩).1)) ∧
    ((∀ nm ∈ specCandidateNames (getGPUInfo ⟨true, none, false⟩).1,
        (fun _ => true) (specCheckCmd nm) = false) →
      getGPUEncoder ⟨true, none, false⟩ (fun _ => true) 1080 1920 =
        ("libx264", "libx264", (getGPUInfo ⟨true, none, false⟩).1)) ∧
    (∀ pre nm post, specCandidateNames (getGPUInfo ⟨true, none, false⟩).1 = pre ++ nm :: post →
      (∀ x ∈ pre, (fun _ => true) (specCheckCmd x) = false) →
      (fun _ => true) (specCheckCmd nm) = true →
      getGPUEncoder ⟨true, none, false⟩ (fun _ => true) 1080 1920 =
        ("h264_" ++ nm, nm, (getGPUInfo ⟨true, none, false⟩).1)) :=
  getGPUEncoder_first_available ⟨true, none, false⟩ (fun _ => true) 1080 1920 (by decide)

/-- C8. For an integrated GPU class (`amd_integrated`, `intel_integrated`) and
a width above 3840, a height above 2160 or a product `width * height` above
8000000, `getGPUEncoder` returns `("libx264", "libx264", gpuType)` whatever
the availability probes answer. The first part takes the product as the code
computes it, in Go's `int`. The second part takes the mathematical product: the
two agree in the only case where the product is looked at, unless both
dimensions are negative. -/
theorem getGPUEncoder_integrated_override (host : Host) (probe : String → Bool)
    (width height : Int)
    (hclass : (getGPUInfo host).1 = "amd_integrated" ∨
      (getGPUInfo host).1 = "intel_integrated") :
    ((width > 3840 ∨ height > 2160 ∨ wrapInt64 (width * height) > 8000000) →
      getGPUEncoder host probe width height = ("libx264", "libx264", (getGPUInfo host).1)) ∧
    ((0 ≤ width ∨ 0 ≤ height) → (width > 3840 ∨ height > 2160 ∨ width * height > 8000000) →
      getGPUEncoder host probe width height = ("libx264", "libx264", (getGPUInfo host).1)) := by
  have hint := getGPUInfo_integrated host hclass
  have key1 : (width > 3840 ∨ height > 2160 ∨ wrapInt64 (width * height) > 8000000) →
      getGPUEncoder host probe width height = ("libx264", "libx264", (getGPUInfo host).1) := by
    intro hd
    unfold getGPUEncoder
    have : overrideFires (getGPUInfo host).2 width height = true := by
      unfold overrideFires
      rw [hint]
      simpa [or_assoc] using hd
    simp only [this, if_true]
  refine ⟨key1, ?_⟩
  intro hsign hd
  apply key1
  by_cases h1 : width > 3840
  · exact Or.inl h1
  by_cases h2 : height > 2160
  · exact Or.inr (Or.inl h2)
  rcases hd with hd | hd | hd
  · exact absurd hd h1
  · exact absurd hd h2
  · right; right
    have hpos : 0 < width * height := by omega
    have hboth : 0 ≤ width ∧ 0 ≤ height := by
      rcases hsign with hw | hh
      · refine ⟨hw, ?_⟩
        by_contra hneg
        have : width * height ≤ 0 :=
          Int.mul_nonpos_of_nonneg_of_nonpos hw (by omega)
        omega
      · refine ⟨?_, hh⟩
        by_contra hneg
        have : width * height ≤ 0 :=
          Int.mul_nonpos_of_nonpos_of_nonneg (by omega) hh
        omega
    have hle : width * height ≤ 3840 * 2160 :=
      Int.mul_le_mul (not_lt.mp h1) (not_lt.mp h2) hboth.2 (by norm_num)
    rw [wrapInt64_of_range _ (by omega) (by omega)]
    exact hd

/-- C8 applied to an Intel integrated GPU and a canvas of 4000 by 1000. -/
theorem getGPUEncoder_integrated_override_example :
    ((((4000 : Int) > 3840 ∨ (1000 : Int) > 2160 ∨ wrapInt64 (4000 * 1000) > 8000000) →
      getGPUEncoder ⟨false, none, true⟩ (fun _ => true) 4000 1000 =
        ("libx264", "libx264", (getGPUInfo ⟨false, none, true⟩).1)) ∧
    (((0 : Int) ≤ 4000 ∨ (0 : Int) ≤ 1000) →
      ((4000 : Int) > 3840 ∨ (1000 : Int) > 2160 ∨ (4000 : Int) * 1000 > 8000000) →
      getGPUEncoder ⟨false, none, true⟩ (fun _ => true) 4000 1000 =
        ("libx264", "libx264", (getGPUInfo ⟨false, none, true⟩).1))) ∧
    getGPUEncoder ⟨false, none, true⟩ (fun _ => true) 4000 1000 =
      ("libx264", "libx264", "intel_integrated") :=
  ⟨getGPUEncoder_integrated_override ⟨false, none, true⟩ (fun _ => true) 4000 1000
    (by decide), by decide⟩

/-! ## Properties of the resolution scaling -/

/-- For a positive rational the rounding is positive and exceeds it by at most
the relative error `2^-53`. -/
theorem roundF64_pos_bound (x : ℚ) (hx : 0 < x) :
    0 < roundF64 x ∧ roundF64 x ≤ x * (1 + 1 / 2 ^ 53) := by
  unfold roundF64
  rw [if_neg (ne_of_gt hx), abs_of_pos hx, if_neg (not_lt.mpr hx.le)]
  simp only []
  have hlog : (2 : ℚ) ^ Int.log 2 x ≤ x := Int.zpow_log_le_self (by norm_num) hx
  set e : Int := Int.log 2 x - 52 with he
  have hpe : (0 : ℚ) < (2 : ℚ) ^ e := zpow_pos (by norm_num) e
  have hsplit : (2 : ℚ) ^ Int.log 2 x = 2 ^ (52 : ℕ) * 2 ^ e := by
    have : Int.log 2 x = (52 : ℕ) + e := by rw [he]; push_cast; ring
    rw [this, zpow_add₀ (by norm_num : (2 : ℚ) ≠ 0), zpow_natCast]
  have hm : (2 : ℚ) ^ (52 : ℕ) ≤ x / 2 ^ e := by
    rw [le_div_iff₀ hpe, ← hsplit]
    exact hlog
  set m : ℚ := x / 2 ^ e with hmdef
  have hfl : ((2 : Int) ^ (52 : ℕ) : Int) ≤ ⌊m⌋ := by
    apply Int.le_floor.mpr
    push_cast
    exact hm
  have hflm : ((⌊m⌋ : Int) : ℚ) ≤ m := Int.floor_le m
  have hr : ∀ r : Int, (r = ⌊m⌋ ∨ (r = ⌊m⌋ + 1 ∧ (1 : ℚ) / 2 ≤ m - ⌊m⌋)) →
      0 < 1 * (r : ℚ) * 2 ^ e ∧ 1 * (r : ℚ) * 2 ^ e ≤ x * (1 + 1 / 2 ^ 53) := by
    intro r hr
    have hrpos : (0 : ℚ) < (r : ℚ) := by
      have h0 : (0 : Int) < r := by
        rcases hr with h | ⟨h, _⟩ <;> rw [h] <;>
          have := hfl <;> norm_num at this ⊢ <;> omega
      exact_mod_cast h0
    have hrle : (r : ℚ) ≤ m + 1 / 2 := by
      rcases hr with h | ⟨h, h2⟩
      · rw [h]; linarith
      · rw [h]; push_cast; linarith
    have hxm : x = m * 2 ^ e := by
      rw [hmdef, div_mul_cancel₀ _ (ne_of_gt hpe)]
    have h2e : (2 : ℚ) ^ e * 2 ^ (52 : ℕ) ≤ x := by
      rw [mul_comm, ← hsplit]; exact hlog
    refine ⟨by positivity, ?_⟩
    have h1 : 1 * (r : ℚ) * 2 ^ e ≤ (m + 1 / 2) * 2 ^ e := by
      rw [one_mul]
      exact mul_le_mul_of_nonneg_right hrle hpe.le
    have h3 : (m + 1 / 2) * 2 ^ e = x + 2 ^ e / 2 := by
      rw [add_mul, ← hxm]; ring
    have h4 : (2 : ℚ) ^ e / 2 ≤ x * (1 / 2 ^ 53) := by
      have : (2 : ℚ) ^ e ≤ x / 2 ^ (52 : ℕ) := by
        rw [le_div_iff₀ (by positivity)]; exact h2e
      calc (2 : ℚ) ^ e / 2 ≤ (x / 2 ^ (52 : ℕ)) / 2 := by linarith
        _ = x * (1 / 2 ^ 53) := by ring
    linarith
  split
  · exact hr _ (Or.inl rfl)
  · next h1 =>
    split
    · next h2 => exact hr _ (Or.inr ⟨rfl, h2.le⟩)
    · split
      · exact hr _ (Or.inl rfl)
      · exact hr _ (Or.inr ⟨rfl, not_lt.mp h1⟩)

theorem getMaxResolution_range (gpuType : String) :
    1 ≤ (getMaxResolution gpuType).1 ∧ (getMaxResolution gpuType).1 ≤ 8192 ∧
    1 ≤ (getMaxResolution gpuType).2 ∧ (getMaxResolution gpuType).2 ≤ 8192 := by
  unfold getMaxResolution
  split
  · decide
  · split
    · decide
    · split
      · decide
      · split <;> decide

theorem forceEven_of_nonneg (v : Int) (h0 : 0 ≤ v) (h1 : v < 2 ^ 63) :
    2 ∣ forceEven v ∧ 0 ≤ forceEven v ∧ forceEven v ≤ v := by
  unfold forceEven
  have htm : Int.tmod v 2 = v % 2 := Int.tmod_eq_emod h0 (by norm_num)
  rw [htm]
  split
  · next h =>
    rw [wrapInt64_of_range _ (by omega) (by omega)]
    refine ⟨?_, by omega, by omega⟩
    omega
  · next h =>
    refine ⟨?_, h0, le_refl _⟩
    omega

/-- One axis of the scaled branch of `calculateScaledDimensions`: the product
of a positive dimension `d` with a positive scale that is at most the rounded
quotient `limit / w` of a ceiling by a positive dimension `w ≥ d` truncates to a
value between `0` and the ceiling. -/
theorem scaled_axis_bound (limit d : Int) (s : ℚ) (h1 : 1 ≤ limit) (h2 : limit ≤ 8192)
    (hd : 0 < d) (hs0 : 0 < s)
    (hs : s ≤ roundF64 (roundF64 (limit : ℚ) / roundF64 (d : ℚ))) :
    0 ≤ F64.toInt (F64.mul (F64.ofInt d) (F64.finite s)) ∧
    F64.toInt (F64.mul (F64.ofInt d) (F64.finite s)) ≤ limit := by
  have hlq : (0 : ℚ) < (limit : ℚ) := by exact_mod_cast (by omega : (0 : Int) < limit)
  have hdq : (0 : ℚ) < (d : ℚ) := by exact_mod_cast hd
  obtain ⟨hLpos, hLub⟩ := roundF64_pos_bound _ hlq
  obtain ⟨hDpos, _⟩ := roundF64_pos_bound _ hdq
  obtain ⟨_, hCub⟩ := roundF64_pos_bound _ (div_pos hLpos hDpos)
  have hprod : 0 < roundF64 (d : ℚ) * s := mul_pos hDpos hs0
  obtain ⟨hPpos, hPub⟩ := roundF64_pos_bound _ hprod
  have hu : (0 : ℚ) < 1 + 1 / 2 ^ 53 := by norm_num
  have hchain : roundF64 (roundF64 (d : ℚ) * s) ≤ (limit : ℚ) * (1 + 1 / 2 ^ 53) ^ 3 := by
    calc roundF64 (roundF64 (d : ℚ) * s)
        ≤ roundF64 (d : ℚ) * s * (1 + 1 / 2 ^ 53) := hPub
      _ ≤ roundF64 (d : ℚ) * (roundF64 (limit : ℚ) / roundF64 (d : ℚ) * (1 + 1 / 2 ^ 53)) *
            (1 + 1 / 2 ^ 53) := by
          apply mul_le_mul_of_nonneg_right _ hu.le
          exact mul_le_mul_of_nonneg_left (le_trans hs hCub) hDpos.le
      _ = roundF64 (limit : ℚ) * (1 + 1 / 2 ^ 53) ^ 2 := by
          field_simp
          ring
      _ ≤ (limit : ℚ) * (1 + 1 / 2 ^ 53) * (1 + 1 / 2 ^ 53) ^ 2 := by
          apply mul_le_mul_of_nonneg_right hLub (by positivity)
      _ = (limit : ℚ) * (1 + 1 / 2 ^ 53) ^ 3 := by ring
  have hlt : roundF64 (roundF64 (d : ℚ) * s) < (limit : ℚ) + 1 := by
    have hk : (limit : ℚ) * ((1 + 1 / 2 ^ 53) ^ 3 - 1) < 1 := by
      have hl : (limit : ℚ) ≤ 8192 := by exact_mod_cast h2
      have hkpos : (0 : ℚ) ≤ (1 + 1 / 2 ^ 53) ^ 3 - 1 := by norm_num
      calc (limit : ℚ) * ((1 + 1 / 2 ^ 53) ^ 3 - 1)
          ≤ 8192 * ((1 + 1 / 2 ^ 53) ^ 3 - 1) := mul_le_mul_of_nonneg_right hl hkpos
        _ < 1 := by norm_num
    linarith
  have hfloor_le : ⌊roundF64 (roundF64 (d : ℚ) * s)⌋ ≤ limit := by
    have : ⌊roundF64 (roundF64 (d : ℚ) * s)⌋ < limit + 1 := by
      rw [Int.floor_lt]
      push_cast
      exact hlt
    omega
  have hfloor_nn : 0 ≤ ⌊roundF64 (roundF64 (d : ℚ) * s)⌋ := Int.floor_nonneg.mpr hPpos.le
  simp only [F64.ofInt, F64.mul, F64.toInt, if_pos hPpos.le]
  rw [if_pos ⟨by omega, by omega⟩]
  exact ⟨hfloor_nn, hfloor_le⟩

theorem minFloat_finite (a b : ℚ) :
    minFloat (F64.finite a) (F64.finite b) = F64.finite (min a b) := by
  unfold minFloat F64.lt
  by_cases h : a < b
  · simp [h, min_eq_left h.le]
  · simp [h, min_eq_right (not_lt.mp h)]

/-- C5 as the code has it. For every GPU class and positive width and height,
`calculateScaledDimensions` returns a pair within the ceiling of the class on
both axes; when the input exceeds the ceiling on some axis both values are
even and non-negative, and otherwise the input is returned unchanged. -/
theorem calculateScaledDimensions_within_ceiling (gpuType : String) (width height : Int)
    (hw : 0 < width) (hh : 0 < height) :
    (calculateScaledDimensions width height gpuType).1 ≤ (getMaxResolution gpuType).1 ∧
    (calculateScaledDimensions width height gpuType).2 ≤ (getMaxResolution gpuType).2 ∧
    ((width > (getMaxResolution gpuType).1 ∨ height > (getMaxResolution gpuType).2) →
      2 ∣ (calculateScaledDimensions width height gpuType).1 ∧
      2 ∣ (calculateScaledDimensions width height gpuType).2 ∧
      0 ≤ (calculateScaledDimensions width height gpuType).1 ∧
      0 ≤ (calculateScaledDimensions width height gpuType).2) ∧
    ((width ≤ (getMaxResolution gpuType).1 ∧ height ≤ (getMaxResolution gpuType).2) →
      calculateScaledDimensions width height gpuType = (width, height)) := by
  obtain ⟨hm1, hm2, hm3, hm4⟩ := getMaxResolution_range gpuType
  by_cases hin : width ≤ (getMaxResolution gpuType).1 ∧ height ≤ (getMaxResolution gpuType).2
  · have heq : calculateScaledDimensions width height gpuType = (width, height) := by
      unfold calculateScaledDimensions
      simp only [hin, and_self, if_true]
    rw [heq]
    refine ⟨hin.1, hin.2, ?_, fun _ => rfl⟩
    intro hout
    rcases hout with h | h
    · exact absurd hin.1 (not_le.mpr h)
    · exact absurd hin.2 (not_le.mpr h)
  · have hwq : (0 : ℚ) < (width : ℚ) := by exact_mod_cast hw
    have hhq : (0 : ℚ) < (height : ℚ) := by exact_mod_cast hh
    have hMwq : (0 : ℚ) < ((getMaxResolution gpuType).1 : ℚ) := by
      exact_mod_cast (by omega : (0 : Int) < (getMaxResolution gpuType).1)
    have hMhq : (0 : ℚ) < ((getMaxResolution gpuType).2 : ℚ) := by
      exact_mod_cast (by omega : (0 : Int) < (getMaxResolution gpuType).2)
    have hW := (roundF64_pos_bound _ hwq).1
    have hH := (roundF64_pos_bound _ hhq).1
    have hMw := (roundF64_pos_bound _ hMwq).1
    have hMh := (roundF64_pos_bound _ hMhq).1
    have hws : F64.div (F64.ofInt (getMaxResolution gpuType).1) (F64.ofInt width) =
        F64.finite (roundF64 (roundF64 ((getMaxResolution gpuType).1 : ℚ) /
          roundF64 (width : ℚ))) := by
      simp only [F64.ofInt, F64.div, if_neg (ne_of_gt hW)]
    have hhs : F64.div (F64.ofInt (getMaxResolution gpuType).2) (F64.ofInt height) =
        F64.finite (roundF64 (roundF64 ((getMaxResolution gpuType).2 : ℚ) /
          roundF64 (height : ℚ))) := by
      simp only [F64.ofInt, F64.div, if_neg (ne_of_gt hH)]
    have hcw := (roundF64_pos_bound _ (div_pos hMw hW)).1
    have hch := (roundF64_pos_bound _ (div_pos hMh hH)).1
    have heq : calculateScaledDimensions width height gpuType =
        (forceEven (F64.toInt (F64.mul (F64.ofInt width) (F64.finite
            (min (roundF64 (roundF64 ((getMaxResolution gpuType).1 : ℚ) / roundF64 (width : ℚ)))
              (roundF64 (roundF64 ((getMaxResolution gpuType).2 : ℚ) /
                roundF64 (height : ℚ))))))),
         forceEven (F64.toInt (F64.mul (F64.ofInt height) (F64.finite
            (min (roundF64 (roundF64 ((getMaxResolution gpuType).1 : ℚ) / roundF64 (width : ℚ)))
              (roundF64 (roundF64 ((getMaxResolution gpuType).2 : ℚ) /
                roundF64 (height : ℚ)))))))) := by
      unfold calculateScaledDimensions
      simp only [hin, if_false, hws, hhs, minFloat_finite]
    have hs0 := lt_min hcw hch
    obtain ⟨ha0, ha1⟩ := scaled_axis_bound (getMaxResolution gpuType).1 width _ hm1 hm2 hw hs0
      (min_le_left _ _)
    obtain ⟨hb0, hb1⟩ := scaled_axis_bound (getMaxResolution gpuType).2 height _ hm3 hm4 hh hs0
      (min_le_right _ _)
    obtain ⟨he1, he2, he3⟩ := forceEven_of_nonneg _ ha0 (by omega)
    obtain ⟨hf1, hf2, hf3⟩ := forceEven_of_nonneg _ hb0 (by omega)
    rw [heq]
    refine ⟨le_trans he3 ha1, le_trans hf3 hb1, fun _ => ⟨he1, hf1, he2, hf2⟩, ?_⟩
    intro h
    exact absurd h hin

/-- C5 as stated fails at the input `(3, 3)` for the class `nvidia`: the
input is within the ceiling `8192 x 8192` and is returned unchanged, and `3`
is odd. -/
theorem calculateScaledDimensions_odd_within_ceiling :
    (0 : Int) < 3 ∧ calculateScaledDimensions 3 3 "nvidia" = (3, 3) ∧
    ¬ (2 ∣ (calculateScaledDimensions 3 3 "nvidia").1 ∧
       2 ∣ (calculateScaledDimensions 3 3 "nvidia").2) := by
  have h : calculateScaledDimensions 3 3 "nvidia" = (3, 3) := by
    unfold calculateScaledDimensions
    rw [if_pos (by decide)]
  refine ⟨by decide, h, ?_⟩
  rw [h]
  decide

/-- The theorem on `calculateScaledDimensions` applied to a canvas of 5000 by 3000 on an
unknown GPU class. -/
theorem calculateScaledDimensions_within_ceiling_example :
    (calculateScaledDimensions 5000 3000 "unknown").1 ≤ (getMaxResolution "unknown").1 ∧
    (calculateScaledDimensions 5000 3000 "unknown").2 ≤ (getMaxResolution "unknown").2 ∧
    (((5000 : Int) > (getMaxResolution "unknown").1 ∨
        (3000 : Int) > (getMaxResolution "unknown").2) →
      2 ∣ (calculateScaledDimensions 5000 3000 "unknown").1 ∧
      2 ∣ (calculateScaledDimensions 5000 3000 "unknown").2 ∧
      0 ≤ (calculateScaledDimensions 5000 3000 "unknown").1 ∧
      0 ≤ (calculateScaledDimensions 5000 3000 "unknown").2) ∧
    (((5000 : Int) ≤ (getMaxResolution "unknown").1 ∧
        (3000 : Int) ≤ (getMaxResolution "unknown").2) →
      calculateScaledDimensions 5000 3000 "unknown" = (5000, 3000)) :=
  calculateScaledDimensions_within_ceiling "unknown" 5000 3000 (by decide) (by decide)

/-- C11. For every GPU class and every width and height within the ceiling of
the class on both axes, `calculateScaledDimensions` returns `(width, height)`
unchanged. For positive dimensions the condition says that the smaller of the
ratios `maxWidth / width` and `maxHeight / height` is at least one. -/
theorem calculateScaledDimensions_noop (gpuType : String) (width height : Int)
    (hw : width ≤ (getMaxResolution gpuType).1) (hh : height ≤ (getMaxResolution gpuType).2) :
    calculateScaledDimensions width height gpuType = (width, height) ∧
    (0 < width → 0 < height →
      (1 : ℚ) ≤ min (((getMaxResolution gpuType).1 : ℚ) / (width : ℚ))
        (((getMaxResolution gpuType).2 : ℚ) / (height : ℚ))) := by
  refine ⟨?_, ?_⟩
  · unfold calculateScaledDimensions
    simp only [hw, hh, and_self, if_true]
  · intro hwp hhp
    have hwq : (0 : ℚ) < (width : ℚ) := by exact_mod_cast hwp
    have hhq : (0 : ℚ) < (height : ℚ) := by exact_mod_cast hhp
    have h1 : (width : ℚ) ≤ ((getMaxResolution gpuType).1 : ℚ) := by exact_mod_cast hw
    have h2 : (height : ℚ) ≤ ((getMaxResolution gpuType).2 : ℚ) := by exact_mod_cast hh
    rw [le_min_iff, le_div_iff₀ hwq, le_div_iff₀ hhq, one_mul, one_mul]
    exact ⟨h1, h2⟩

/-- For positive dimensions, the smaller of the two ratios is at least one
exactly when the dimensions are within the ceiling. -/
theorem scale_ge_one_iff (gpuType : String) (width height : Int) (hw : 0 < width)
    (hh : 0 < height) :
    (1 : ℚ) ≤ min (((getMaxResolution gpuType).1 : ℚ) / (width : ℚ))
        (((getMaxResolution gpuType).2 : ℚ) / (height : ℚ)) ↔
      (width ≤ (getMaxResolution gpuType).1 ∧ height ≤ (getMaxResolution gpuType).2) := by
  have hwq : (0 : ℚ) < (width : ℚ) := by exact_mod_cast hw
  have hhq : (0 : ℚ) < (height : ℚ) := by exact_mod_cast hh
  rw [le_min_iff, le_div_iff₀ hwq, le_div_iff₀ hhq, one_mul, one_mul]
  constructor
  · intro h
    exact ⟨by exact_mod_cast h.1, by exact_mod_cast h.2⟩
  · intro h
    exact ⟨by exact_mod_cast h.1, by exact_mod_cast h.2⟩

/-- C11 applied to the default canvas of 1080 by 1920 on an NVIDIA card. -/
theorem calculateScaledDimensions_noop_example :
    calculateScaledDimensions 1080 1920 "nvidia" = (1080, 1920) ∧
    ((0 : Int) < 1080 → (0 : Int) < 1920 →
      (1 : ℚ) ≤ min (((getMaxResolution "nvidia").1 : ℚ) / ((1080 : Int) : ℚ))
        (((getMaxResolution "nvidia").2 : ℚ) / ((1920 : Int) : ℚ))) :=
  calculateScaledDimensions_noop "nvidia" 1080 1920 (by decide) (by decide)

/-! ## Properties of the start of `EncodeGPU` -/

theorem probeLoop_name (probe : String → Bool) (gpuType : String) (l : List EncoderCandidate) :
    (probeLoop probe gpuType l).2.1 = "libx264" ∨
      (probeLoop probe gpuType l).2.1 ∈ l.map EncoderCandidate.name := by
  induction l with
  | nil => exact Or.inl rfl
  | cons e rest ih =>
    simp only [probeLoop]
    split
    · exact Or.inr (by simp)
    · rcases ih with h | h
      · exact Or.inl h
      · exact Or.inr (List.mem_cons_of_mem _ h)

theorem encodersFor_names (gpuType : String) :
    ∀ nm ∈ (encodersFor gpuType).map EncoderCandidate.name,
      nm = "nvenc" ∨ nm = "amf" ∨ nm = "qsv" ∨ nm = "vaapi" := by
  unfold encodersFor
  split
  · decide
  · split <;> decide

theorem getGPUEncoder_name (host : Host) (probe : String → Bool) (width height : Int) :
    (getGPUEncoder host probe width height).2.1 = "libx264" ∨
    (getGPUEncoder host probe width height).2.1 = "nvenc" ∨
    (getGPUEncoder host probe width height).2.1 = "amf" ∨
    (getGPUEncoder host probe width height).2.1 = "qsv" ∨
    (getGPUEncoder host probe width height).2.1 = "vaapi" := by
  unfold getGPUEncoder
  simp only []
  split
  · exact Or.inl rfl
  · rcases probeLoop_name probe (getGPUInfo host).1 (encodersFor (getGPUInfo host).1) with h | h
    · exact Or.inl h
    · exact Or.inr (encodersFor_names _ _ h)

theorem getEncoderArgs_vf (encoder encoderName gpuType : String) (width height : Int)
    (useScaling : Bool)
    (hname : encoderName = "nvenc" ∨ encoderName = "amf" ∨ encoderName = "qsv" ∨
      encoderName = "vaapi") :
    getEncoderArgs encoder encoderName gpuType width height useScaling "vf" =
      if useScaling then
        some (scaleFilter (calculateScaledDimensions width height gpuType).1
          (calculateScaledDimensions width height gpuType).2)
      else none := by
  have hne1 : ("vf" : String) ≠ "pix_fmt" := by decide
  have hne2 : ("vf" : String) ≠ "movflags" := by decide
  have hne3 : ("vf" : String) ≠ "c:v" := by decide
  have hne4 : ("vf" : String) ≠ "preset" := by decide
  have hne5 : ("vf" : String) ≠ "cq" := by decide
  have hne6 : ("vf" : String) ≠ "rc" := by decide
  have hne7 : ("vf" : String) ≠ "quality" := by decide
  have hne8 : ("vf" : String) ≠ "profile" := by decide
  have hne9 : ("vf" : String) ≠ "vaapi_device" := by decide
  rcases hname with h | h | h | h <;> subst h <;> cases useScaling <;>
    simp [getEncoderArgs, kwSet, Function.update_noteq, hne1, hne2, hne3, hne4, hne5, hne6,
      hne7, hne8, hne9]
  split <;>
    simp [Function.update_noteq, hne1, hne2, hne3, hne4, hne5, hne6, hne7, hne8, hne9]

/-- C7 as the code has it. In `EncodeGPU`, for a selected hardware encoder
(`encoderName` other than `libx264`), scaling is requested exactly when the
width exceeds 3840 or the height exceeds 2160: then `needsScaling` is true and
`getEncoderArgs` puts the `vf` scale filter for the dimensions of
`calculateScaledDimensions` in the output arguments, and otherwise there is no
`vf` argument. Hence scaling is requested whenever the canvas exceeds the
ceiling of a class whose ceiling is at least `3840 x 2160`. -/
theorem encodeGPUPlan_scaling (host : Host) (probe : String → Bool) (width height : Int)
    (hhw : (encodeGPUPlan host probe width height).encoderName ≠ "libx264") :
    ((encodeGPUPlan host probe width height).needsScaling = true ↔
      (width > 3840 ∨ height > 2160)) ∧
    ((encodeGPUPlan host probe width height).outputArgs "vf" =
      if (encodeGPUPlan host probe width height).needsScaling then
        some (scaleFilter
          (calculateScaledDimensions width height
            (encodeGPUPlan host probe width height).gpuType).1
          (calculateScaledDimensions width height
            (encodeGPUPlan host probe width height).gpuType).2)
      else none) ∧
    (3840 ≤ (getMaxResolution (encodeGPUPlan host probe width height).gpuType).1 →
      2160 ≤ (getMaxResolution (encodeGPUPlan host probe width height).gpuType).2 →
      (width > (getMaxResolution (encodeGPUPlan host probe width height).gpuType).1 ∨
        height > (getMaxResolution (encodeGPUPlan host probe width height).gpuType).2) →
      (encodeGPUPlan host probe width height).needsScaling = true ∧
      ((encodeGPUPlan host probe width height).outputArgs "vf").isSome = true) := by
  have hname : (getGPUEncoder host probe width height).2.1 ≠ "libx264" := hhw
  have hns : (encodeGPUPlan host probe width height).needsScaling = true ↔
      (width > 3840 ∨ height > 2160) := by
    simp only [encodeGPUPlan, Bool.and_eq_true, Bool.or_eq_true, decide_eq_true_eq]
    constructor
    · intro h; exact h.1
    · intro h; exact ⟨h, hname⟩
  have hvf : (encodeGPUPlan host probe width height).outputArgs "vf" =
      if (encodeGPUPlan host probe width height).needsScaling then
        some (scaleFilter
          (calculateScaledDimensions width height
            (encodeGPUPlan host probe width height).gpuType).1
          (calculateScaledDimensions width height
            (encodeGPUPlan host probe width height).gpuType).2)
      else none := by
    have h4 : (getGPUEncoder host probe width height).2.1 = "nvenc" ∨
        (getGPUEncoder host probe width height).2.1 = "amf" ∨
        (getGPUEncoder host probe width height).2.1 = "qsv" ∨
        (getGPUEncoder host probe width height).2.1 = "vaapi" := by
      rcases getGPUEncoder_name host probe width height with h | h
      · exact absurd h hname
      · exact h
    exact getEncoderArgs_vf _ _ _ width height _ h4
  refine ⟨hns, hvf, ?_⟩
  intro hc1 hc2 hout
  have hreq : (encodeGPUPlan host probe width height).needsScaling = true := by
    rw [hns]
    rcases hout with h | h
    · exact Or.inl (by omega)
    · exact Or.inr (by omega)
  refine ⟨hreq, ?_⟩
  rw [hvf, hreq]
  rfl

/-- C7 as stated fails on a host without a recognised GPU (class `unknown`,
ceiling `1920 x 1080`) whose nvenc probe succeeds, for a canvas of 2000 by
1000: the width exceeds the ceiling, yet `needsScaling` is false and the
output arguments hold no `vf` filter. -/
theorem encodeGPUPlan_no_scaling_above_low_ceiling :
    (encodeGPUPlan ⟨false, none, false⟩ (fun _ => true) 2000 1000).encoderName = "nvenc" ∧
    (encodeGPUPlan ⟨false, none, false⟩ (fun _ => true) 2000 1000).gpuType = "unknown" ∧
    (2000 : Int) > (getMaxResolution "unknown").1 ∧
    (encodeGPUPlan ⟨false, none, false⟩ (fun _ => true) 2000 1000).needsScaling = false ∧
    (encodeGPUPlan ⟨false, none, false⟩ (fun _ => true) 2000 1000).outputArgs "vf" = none := by
  decide

/-- The theorem on the start of `EncodeGPU` applied to a host with a discrete AMD card whose
amf probe succeeds and a canvas of 5000 by 3000. -/
theorem encodeGPUPlan_scaling_example :
    (encodeGPUPlan ⟨false, some true, false⟩
        (fun c => c == "ffmpeg -hide_banner -encoders | grep h264_amf") 5000 3000).encoderName
      = "amf" ∧
    (((encodeGPUPlan ⟨false, some true, false⟩
        (fun c => c == "ffmpeg -hide_banner -encoders | grep h264_amf") 5000 3000).needsScaling
          = true ↔ ((5000 : Int) > 3840 ∨ (3000 : Int) > 2160)) ∧
    ((encodeGPUPlan ⟨false, some true, false⟩
        (fun c => c == "ffmpeg -hide_banner -encoders | grep h264_amf") 5000 3000).outputArgs "vf"
      = if (encodeGPUPlan ⟨false, some true, false⟩
          (fun c => c == "ffmpeg -hide_banner -encoders | grep h264_amf") 5000 3000).needsScaling
        then
          some (scaleFilter
            (calculateScaledDimensions 5000 3000
              (encodeGPUPlan ⟨false, some true, false⟩
                (fun c => c == "ffmpeg -hide_banner -encoders | grep h264_amf")
                5000 3000).gpuType).1
            (calculateScaledDimensions 5000 3000
              (encodeGPUPlan ⟨false, some true, false⟩
                (fun c => c == "ffmpeg -hide_banner -encoders | grep h264_amf")
                5000 3000).gpuType).2)
        else none) ∧
    (3840 ≤ (getMaxResolution (encodeGPUPlan ⟨false, some true, false⟩
        (fun c => c == "ffmpeg -hide_banner -encoders | grep h264_amf") 5000 3000).gpuType).1 →
      2160 ≤ (getMaxResolution (encodeGPUPlan ⟨false, some true, false⟩
        (fun c => c == "ffmpeg -hide_banner -encoders | grep h264_amf") 5000 3000).gpuType).2 →
      ((5000 : Int) > (getMaxResolution (encodeGPUPlan ⟨false, some true, false⟩
          (fun c => c == "ffmpeg -hide_banner -encoders | grep h264_amf")
          5000 3000).gpuType).1 ∨
        (3000 : Int) > (getMaxResolution (encodeGPUPlan ⟨false, some true, false⟩
          (fun c => c == "ffmpeg -hide_banner -encoders | grep h264_amf")
          5000 3000).gpuType).2) →
      (encodeGPUPlan ⟨false, some true, false⟩
        (fun c => c == "ffmpeg -hide_banner -encoders | grep h264_amf") 5000 3000).needsScaling
          = true ∧
      ((encodeGPUPlan ⟨false, some true, false⟩
        (fun c => c == "ffmpeg -hide_banner -encoders | grep h264_amf")
        5000 3000).outputArgs "vf").isSome = true)) :=
  ⟨by decide, encodeGPUPlan_scaling ⟨false, some true, false⟩
    (fun c => c == "ffmpeg -hide_banner -encoders | grep h264_amf") 5000 3000 (by decide)⟩

/-! ## Properties of the frame serialization -/

theorem storeByte_length (buf out : List Nat) (index v : Nat)
    (h : storeByte buf index v = some out) : out.length = buf.length := by
  unfold storeByte at h
  split at h
  · cases h; simp
  · cases h

theorem storeRGB_some (img : Image) (buf : List Nat) (idx : Nat) (p : Int × Int)
    (h : idx + 3 ≤ buf.length) :
    ∃ out, storeRGB img (buf, idx) p = some (out, idx + 3) ∧ out.length = buf.length := by
  unfold storeRGB storeByte
  simp only []
  rw [if_pos (by omega)]
  simp only [List.length_set]
  rw [if_pos (by omega)]
  simp only [List.length_set]
  rw [if_pos (by omega)]
  exact ⟨_, rfl, by simp⟩

theorem storeRGB_length (img : Image) (st st1 : List Nat × Nat) (p : Int × Int)
    (h : storeRGB img st p = some st1) : st1.1.length = st.1.length := by
  unfold storeRGB at h
  split at h
  · cases h
  · next b1 h1 =>
    split at h
    · cases h
    · next b2 h2 =>
      split at h
      · cases h
      · next b3 h3 =>
        cases h
        rw [storeByte_length _ _ _ _ h3, storeByte_length _ _ _ _ h2,
          storeByte_length _ _ _ _ h1]

theorem pixelLoop_storeRGB_some (img : Image) (ps : List (Int × Int)) :
    ∀ (buf : List Nat) (idx : Nat), idx + 3 * ps.length ≤ buf.length →
      ∃ out, pixelLoop (storeRGB img) ps (buf, idx) = some (out, idx + 3 * ps.length) ∧
        out.length = buf.length := by
  induction ps with
  | nil => intro buf idx _; exact ⟨buf, rfl, rfl⟩
  | cons p ps ih =>
    intro buf idx h
    simp only [List.length_cons] at h
    obtain ⟨b, hb, hbl⟩ := storeRGB_some img buf idx p (by omega)
    obtain ⟨out, ho, hol⟩ := ih b (idx + 3) (by omega)
    refine ⟨out, ?_, by rw [hol, hbl]⟩
    simp only [pixelLoop, hb, ho, List.length_cons]
    congr 2
    omega

theorem pixelLoop_storeRGB_length (img : Image) (ps : List (Int × Int)) :
    ∀ (st out : List Nat × Nat), pixelLoop (storeRGB img) ps st = some out →
      out.1.length = st.1.length := by
  induction ps with
  | nil => intro st out h; simp only [pixelLoop] at h; cases h; rfl
  | cons p ps ih =>
    intro st out h
    simp only [pixelLoop] at h
    split at h
    · cases h
    · next st1 h1 =>
      rw [ih st1 out h, storeRGB_length img st st1 p h1]

theorem pixelOrder_length (img : Image) :
    (pixelOrder img).length = (img.maxY - img.minY).toNat * (img.maxX - img.minX).toNat := by
  unfold pixelOrder
  generalize (img.maxY - img.minY).toNat = rows
  induction rows with
  | zero => simp
  | succ n ih =>
    rw [List.range_succ, List.flatMap_append, List.length_append, ih]
    simp [Nat.succ_mul]

theorem pixelOrder_length_canvas (img : Image) (W H : Nat) (hc : IsCanvas img W H) :
    (pixelOrder img).length = H * W := by
  obtain ⟨h1, h2, h3, h4⟩ := hc
  rw [pixelOrder_length, h1, h2, h3, h4]
  simp

/-- The function `imageToRGB` on a canvas, in the opaque format, with a buffer
that is empty or has the length of the canvas. -/
theorem imageToRGB_canvas (img : Image) (W H : Nat) (imType : Int) (buffer : List Nat)
    (hc : IsCanvas img W H) (hsize : W * H * 3 < 2 ^ 63) (hty : imType ≠ 24)
    (hbuf : buffer.length = 0 ∨ buffer.length = W * H * 3) :
    ∃ out, imageToRGB img imType buffer = some out ∧ out.length = W * H * 3 := by
  have hpl := pixelOrder_length_canvas img W H hc
  have hmul : 3 * (pixelOrder img).length = W * H * 3 := by
    rw [hpl]; ring
  unfold imageToRGB
  by_cases hz : buffer.length = 0
  · simp only [hz, ne_eq, not_true_eq_false, if_false, hty]
    have hlen : wrapInt64 (wrapInt64 (img.maxX * img.maxY) * 3) = ((W * H * 3 : Nat) : Int) := by
      rw [hc.2.2.1, hc.2.2.2]
      have h0 : (0 : Int) ≤ (W : Int) * (H : Int) := by positivity
      have h1 : (W : Int) * (H : Int) * 3 < 2 ^ 63 := by exact_mod_cast hsize
      have e1 : wrapInt64 ((W : Int) * (H : Int)) = (W : Int) * (H : Int) :=
        wrapInt64_of_range _ (by omega) (by omega)
      rw [e1, wrapInt64_of_range _ (by omega) (by omega)]
      push_cast
      rfl
    rw [hlen]
    have hmk : makeBytes ((W * H * 3 : Nat) : Int) = some (List.replicate (W * H * 3) 0) := by
      unfold makeBytes
      rw [if_pos (by positivity), Int.toNat_natCast]
    rw [hmk]
    obtain ⟨out, ho, hol⟩ := pixelLoop_storeRGB_some img (pixelOrder img)
      (List.replicate (W * H * 3) 0) 0 (by simp [hmul])
    exact ⟨out, by simp [ho], by simpa using hol⟩
  · have hb : buffer.length = W * H * 3 := by
      rcases hbuf with h | h
      · exact absurd h hz
      · exact h
    simp only [ne_eq, hz, not_false_eq_true, if_true]
    obtain ⟨out, ho, hol⟩ := pixelLoop_storeRGB_some img (pixelOrder img) buffer 0
      (by omega)
    exact ⟨out, by simp [ho], by rw [hol, hb]⟩

/-- With a non-empty buffer `imageToRGB` stores into the buffer it is given:
when it returns, the length of the buffer is unchanged. -/
theorem imageToRGB_nonempty_length (img : Image) (imType : Int) (buffer out : List Nat)
    (hne : buffer.length ≠ 0) (h : imageToRGB img imType buffer = some out) :
    out.length = buffer.length := by
  unfold imageToRGB at h
  simp only [ne_eq, hne, not_false_eq_true, if_true] at h
  cases hp : pixelLoop (storeRGB img) (pixelOrder img) (buffer, 0) with
  | none => rw [hp] at h; cases h
  | some st =>
    rw [hp] at h
    cases h
    exact pixelLoop_storeRGB_length img _ _ _ hp

theorem newContext_isCanvas (W H : Nat) (px : Int → Int → Nat × Nat × Nat × Nat) :
    IsCanvas (newContext (W : Int) (H : Int) px) W H := by
  unfold IsCanvas newContext
  have hw : (0 : Int) ≤ (W : Int) := by positivity
  have hh : (0 : Int) ≤ (H : Int) := by positivity
  simp [hw, hh]

/-- One call of `frameCreate` with `&frameBuffer`, on a canvas of width `W` and
height `H`: when it returns, the image is such a canvas and the buffer has
length `W * H * 3`; and it returns when the canvas is there or `gg` sets it up. -/
theorem frameCreate_canvas (gg : Gg) (loads : String → Bool) (blocks : List VisualData)
    (im : Option Image) (W H : Nat) (textureSize : Int) (buf : List Nat)
    (hsize : W * H * 3 < 2 ^ 63)
    (him : ∀ img, im = some img → IsCanvas img W H)
    (hbuf : buf.length = 0 ∨ buf.length = W * H * 3) :
    (∀ r, frameCreate gg loads blocks im (W : Int) (H : Int) textureSize (some buf) = some r →
      IsCanvas r.1 W H ∧ ∃ out, r.2 = some out ∧ out.length = W * H * 3) ∧
    ((im ≠ none ∨ ((gg.tiled (W : Int) (H : Int) textureSize).isSome = true ∧
        (gg.cleared (W : Int) (H : Int)).isSome = true)) →
      ∃ r, frameCreate gg loads blocks im (W : Int) (H : Int) textureSize (some buf) = some r) := by
  have hstep : ∀ canvas : Image, IsCanvas canvas W H →
      ∃ out, (match imageToRGB
          { canvas with
            rgba := (blockDraws loads textureSize blocks).foldl gg.drawImage canvas.rgba }
          0 buf with
        | none => none
        | some out => some (({ canvas with
            rgba := (blockDraws loads textureSize blocks).foldl gg.drawImage canvas.rgba } : Image),
            some out)) =
        some (({ canvas with
            rgba := (blockDraws loads textureSize blocks).foldl gg.drawImage canvas.rgba } : Image),
            some out) ∧ out.length = W * H * 3 := by
    intro canvas hc
    obtain ⟨out, ho, hol⟩ := imageToRGB_canvas
      { canvas with
        rgba := (blockDraws loads textureSize blocks).foldl gg.drawImage canvas.rgba }
      W H 0 buf hc hsize (by decide) hbuf
    exact ⟨out, by rw [ho], hol⟩
  have hcanvas : ∀ canvas : Image, IsCanvas canvas W H →
      IsCanvas ({ canvas with
        rgba := (blockDraws loads textureSize blocks).foldl gg.drawImage canvas.rgba } : Image)
        W H := fun _ hc => hc
  unfold frameCreate
  cases im with
  | some img =>
    have hc := him img rfl
    obtain ⟨out, ho, hol⟩ := hstep img hc
    simp only []
    rw [ho]
    refine ⟨?_, fun _ => ⟨_, rfl⟩⟩
    intro r hr
    cases hr
    exact ⟨hcanvas img hc, out, rfl, hol⟩
  | none =>
    simp only []
    by_cases hl : loads "assets/white_concrete.png" = true
    · rw [if_pos hl]
      cases ht : gg.tiled (W : Int) (H : Int) textureSize with
      | none =>
        simp only [Option.map_none']
        refine ⟨fun r hr => Option.noConfusion hr, ?_⟩
        intro h
        simp [ht] at h
      | some px =>
        simp only [Option.map_some']
        have hc := newContext_isCanvas W H px
        obtain ⟨out, ho, hol⟩ := hstep _ hc
        rw [ho]
        refine ⟨?_, fun _ => ⟨_, rfl⟩⟩
        intro r hr
        cases hr
        exact ⟨hcanvas _ hc, out, rfl, hol⟩
    · rw [if_neg hl]
      cases ht : gg.cleared (W : Int) (H : Int) with
      | none =>
        simp only [Option.map_none']
        refine ⟨fun r hr => Option.noConfusion hr, ?_⟩
        intro h
        simp [ht] at h
      | some px =>
        simp only [Option.map_some']
        have hc := newContext_isCanvas W H px
        obtain ⟨out, ho, hol⟩ := hstep _ hc
        rw [ho]
        refine ⟨?_, fun _ => ⟨_, rfl⟩⟩
        intro r hr
        cases hr
        exact ⟨hcanvas _ hc, out, rfl, hol⟩

/-- The invariant `RenderInv` is kept by the writer loop when `frameCreate` is
the function of this package, whatever the encoder and the writes do. -/
theorem writerLoop_renderInv (gg : Gg) (loads : String → Bool) (W H : Nat) (textureSize : Int)
    (observe : Nat → EncoderObs) (write : Nat → WriteOutcome) (dest : List VisualData)
    (batchSize : Int) (hsize : W * H * 3 < 2 ^ 63) (fuel : Nat) :
    ∀ st : WriterState, RenderInv W H st →
      RenderInv W H (writerLoop (renderEnv gg loads (W : Int) (H : Int) textureSize observe write)
        dest batchSize fuel st).2 := by
  induction fuel with
  | zero => intro st h; simpa [writerLoop] using h
  | succ fuel ih =>
    intro st hinv
    rw [writerLoop]
    split
    · split
      · exact hinv
      · exact hinv
      · simp only []
        split
        · exact hinv
        · next batch hb =>
          obtain ⟨hret, _⟩ := frameCreate_canvas gg loads batch st.imgTmp W H textureSize
            st.frameBuffer hsize hinv.1 hinv.2.1
          cases hfc : frameCreate gg loads batch st.imgTmp (W : Int) (H : Int) textureSize
              (some st.frameBuffer) with
          | none =>
            have henv : (renderEnv gg loads (W : Int) (H : Int) textureSize observe
                write).frameCreate batch st.imgTmp st.frameBuffer = none := by
              simp only [renderEnv, hfc]
            rw [henv]
            exact hinv
          | some r =>
            obtain ⟨hcan, out, hout, hlen⟩ := hret r hfc
            have henv : (renderEnv gg loads (W : Int) (H : Int) textureSize observe
                write).frameCreate batch st.imgTmp st.frameBuffer = some (some r.1, out) := by
              simp only [renderEnv, hfc, hout, Option.getD_some]
            rw [henv]
            have hwrites : ∀ w ∈ st.writes ++ [out], w.length = W * H * 3 := by
              intro w hw
              rcases List.mem_append.mp hw with h | h
              · exact hinv.2.2 w h
              · simp at h; rw [h]; exact hlen
            have hcan' : ∀ img, some r.1 = some img → IsCanvas img W H := by
              intro img h; cases h; exact hcan
            simp only []
            split
            · exact ⟨hcan', Or.inr hlen, hwrites⟩
            · apply ih
              exact ⟨hcan', Or.inr hlen, hwrites⟩
    · exact hinv

/-- C6 as the code has it. For a canvas of width `W` and height `H` and the
opaque format (`imType` other than 24), `imageToRGB` returns with a frame
buffer of length `W * H * 3` when the buffer supplied is empty or already has
that length; `frameCreate` then returns such a canvas and such a buffer; and
every frame the writer loop of `EncodeGPU` passes to `pw.Write`, started from
a nil `imgTmp` and an empty `frameBuffer`, has length `W * H * 3`. The bound on
`W * H * 3` holds for every canvas that `image.NewRGBA` can allocate. -/
theorem frame_buffer_length (W H : Nat) (hsize : W * H * 3 < 2 ^ 63) :
    (∀ (img : Image) (imType : Int) (buffer : List Nat), IsCanvas img W H → imType ≠ 24 →
      (buffer.length = 0 ∨ buffer.length = W * H * 3) →
      ∃ out, imageToRGB img imType buffer = some out ∧ out.length = W * H * 3) ∧
    (∀ (gg : Gg) (loads : String → Bool) (blocks : List VisualData) (im : Option Image)
      (textureSize : Int) (buffer : List Nat),
      (∀ img, im = some img → IsCanvas img W H) →
      (buffer.length = 0 ∨ buffer.length = W * H * 3) →
      (im ≠ none ∨ ((gg.tiled (W : Int) (H : Int) textureSize).isSome = true ∧
        (gg.cleared (W : Int) (H : Int)).isSome = true)) →
      ∃ img out, frameCreate gg loads blocks im (W : Int) (H : Int) textureSize (some buffer) =
        some (img, some out) ∧ IsCanvas img W H ∧ out.length = W * H * 3) ∧
    (∀ (gg : Gg) (loads : String → Bool) (textureSize : Int) (observe : Nat → EncoderObs)
      (write : Nat → WriteOutcome) (dest : List VisualData) (iterations : Int),
      ∀ w ∈ (encodeWriter (renderEnv gg loads (W : Int) (H : Int) textureSize observe write)
        dest iterations none []).final.writes, w.length = W * H * 3) := by
  refine ⟨?_, ?_, ?_⟩
  · intro img imType buffer hc hty hbuf
    exact imageToRGB_canvas img W H imType buffer hc hsize hty hbuf
  · intro gg loads blocks im textureSize buffer him hbuf hret
    obtain ⟨h1, h2⟩ := frameCreate_canvas gg loads blocks im W H textureSize buffer hsize him hbuf
    obtain ⟨r, hr⟩ := h2 hret
    obtain ⟨hc, out, hout, hlen⟩ := h1 r hr
    refine ⟨r.1, out, ?_, hc, hlen⟩
    rw [hr, ← hout]
  · intro gg loads textureSize observe write dest iterations
    have hinit : RenderInv W H
        { i := 0
          frameIndex := 0
          round := 0
          imgTmp := none
          frameBuffer := []
          batches := []
          writes := [] } :=
      ⟨fun img h => Option.noConfusion h, Or.inl rfl, fun w hw => by simp at hw⟩
    unfold encodeWriter
    simp only []
    split
    · intro w hw
      simp at hw
    · exact (writerLoop_renderInv gg loads W H textureSize observe write dest iterations hsize
        (dest.length + 1) _ hinit).2.2

/-- C6 as stated fails for a non-empty buffer of another length. For the
canvas of one pixel and the opaque format, a buffer of four bytes keeps its
length four, which is not `1 * 1 * 3`, and with a buffer of one byte
`imageToRGB` panics with an index out of range. -/
theorem imageToRGB_keeps_length_of_nonempty_buffer :
    IsCanvas onePixel 1 1 ∧
    imageToRGB onePixel 0 [9, 9, 9, 9] = some [255, 128, 0, 9] ∧
    ¬ (∃ out, imageToRGB onePixel 0 [9, 9, 9, 9] = some out ∧ out.length = 1 * 1 * 3) ∧
    imageToRGB onePixel 0 [9] = none := by
  have h1 : imageToRGB onePixel 0 [9, 9, 9, 9] = some [255, 128, 0, 9] := by decide
  refine ⟨⟨rfl, rfl, rfl, rfl⟩, h1, ?_, by decide⟩
  rintro ⟨out, ho, hl⟩
  rw [h1] at ho
  cases ho
  simp at hl

/-- The theorem on the frame buffer length applied to a canvas of 2 by 1 pixels. -/
theorem frame_buffer_length_example :
    (∃ out, imageToRGB (newContext ((2 : Nat) : Int) ((1 : Nat) : Int) (fun _ _ => (0, 0, 0, 0)))
      0 [] = some out ∧ out.length = 2 * 1 * 3) ∧
    (∀ w ∈ (encodeWriter (renderEnv plainGg (fun _ => true) ((2 : Nat) : Int) ((1 : Nat) : Int) 16
        (fun _ => EncoderObs.running) (fun _ => WriteOutcome.ok))
        [⟨1, 0, 0, "a.png"⟩, ⟨2, 1, 0, "b.png"⟩, ⟨3, 2, 0, "c.png"⟩] 2 none []).final.writes,
      w.length = 2 * 1 * 3) :=
  ⟨(frame_buffer_length 2 1 (by decide)).1 _ 0 [] (newContext_isCanvas 2 1 _) (by decide)
      (Or.inl rfl),
   (frame_buffer_length 2 1 (by decide)).2.2 plainGg (fun _ => true) 16
    (fun _ => EncoderObs.running) (fun _ => WriteOutcome.ok)
    [⟨1, 0, 0, "a.png"⟩, ⟨2, 1, 0, "b.png"⟩, ⟨3, 2, 0, "c.png"⟩] 2⟩

/-! ## Properties of the loading loop of `normalModeSetup` -/

theorem queryPage_natCast (source : List Row) (o : Nat) :
    queryPage source (o : Int) = some ((source.drop o).take 1000) := by
  unfold queryPage
  rw [if_neg (not_lt.mpr (Int.ofNat_nonneg o)), Int.toNat_natCast]

theorem GetData_of_offset (toLower : String → String) (source : List Row) (i : Int) (o : Nat)
    (hw : wrapInt64 (i * 1000) = (o : Int)) :
    GetData toLower source i = ((source.drop o).take 1000).map (scanRow toLower) := by
  unfold GetData
  rw [hw, queryPage_natCast]

theorem GetData_round (toLower : String → String) (source : List Row) (k : Nat)
    (hk : k * 1000 * 1000 < 2 ^ 63) :
    GetData toLower source ((k * 1000 : Nat) : Int) = loadedPage toLower source k ∧
    wrapInt64 (((k * 1000 : Nat) : Int) * 1000) = ((k * 1000 * 1000 : Nat) : Int) := by
  have hcast : ((k * 1000 : Nat) : Int) * 1000 = ((k * 1000 * 1000 : Nat) : Int) := by
    push_cast; ring
  have hlt : ((k * 1000 * 1000 : Nat) : Int) < 2 ^ 63 := by exact_mod_cast hk
  have hnn : (0 : Int) ≤ ((k * 1000 * 1000 : Nat) : Int) := Int.ofNat_nonneg _
  have hw : wrapInt64 (((k * 1000 : Nat) : Int) * 1000) = ((k * 1000 * 1000 : Nat) : Int) := by
    rw [hcast, wrapInt64_of_range _ (by omega) hlt]
  exact ⟨GetData_of_offset toLower source _ _ hw, hw⟩

/-- The loading loop started at the beginning of round `k`. -/
theorem loadLoop_run (toLower : String → String) (source : List Row)
    (hsize : (source.length + 1000) * 1000 < 2 ^ 63) (fuel : Nat) :
    ∀ (k : Nat) (st : LoadState), st.i = ((k * 1000 : Nat) : Int) →
      st.num = (source.length : Int) → k * 1000 ≤ source.length + 1000 →
      source.length < (k + fuel) * 1000 →
      ∃ (c : Nat) (st1 : LoadState), loadLoop toLower source (fuel + 1) st = some st1 ∧
        source.length < (k + c) * 1000 ∧ (c = 0 ∨ (k + c - 1) * 1000 ≤ source.length) ∧
        st1.data = st.data ++ ((List.range' k c).map (loadedPage toLower source)).flatten ∧
        st1.offsets = st.offsets ++
          (List.range' k c).map (fun r => ((r * 1000 * 1000 : Nat) : Int)) := by
  have hN : GetMaxCount source = (source.length : Int) := by
    unfold GetMaxCount
    have h1 : (source.length : Int) < 2 ^ 63 := by
      have : source.length < 2 ^ 63 := by omega
      exact_mod_cast this
    have h0 : (0 : Int) ≤ (source.length : Int) := Int.ofNat_nonneg _
    exact wrapInt64_of_range _ (by omega) h1
  induction fuel with
  | zero =>
    intro k st hi hn hk hlt
    have hlt' : source.length < k * 1000 := by simpa using hlt
    refine ⟨0, st, ?_, by simpa using hlt', Or.inl rfl, by simp, by simp⟩
    have hcond : ¬ st.i ≤ st.num := by
      rw [hi, hn]
      exact_mod_cast not_le.mpr hlt'
    simp [loadLoop, hcond]
  | succ fuel ih =>
    intro k st hi hn hk hlt
    by_cases hcond : k * 1000 ≤ source.length
    · have hci : st.i ≤ st.num := by rw [hi, hn]; exact_mod_cast hcond
      have hround := GetData_round toLower source k (by omega)
      have hnext : wrapInt64 (st.i + 1000) = (((k + 1) * 1000 : Nat) : Int) := by
        rw [hi, wrapInt64_of_range]
        · push_cast; ring
        · have : (0 : Int) ≤ ((k * 1000 : Nat) : Int) := Int.ofNat_nonneg _
          omega
        · have : ((k * 1000 : Nat) : Int) + 1000 < 2 ^ 63 := by
            have : k * 1000 + 1000 < 2 ^ 63 := by omega
            exact_mod_cast this
          exact this
      obtain ⟨c, st1, h1, h2, h3, h4, h5⟩ := ih (k + 1)
        { i := (((k + 1) * 1000 : Nat) : Int)
          num := (source.length : Int)
          data := st.data ++ loadedPage toLower source k
          offsets := st.offsets ++ [((k * 1000 * 1000 : Nat) : Int)] }
        rfl rfl (by omega) (by rw [Nat.add_assoc, Nat.add_comm 1 fuel]; exact hlt)
      have hstep : loadLoop toLower source (fuel + 1 + 1) st =
          loadLoop toLower source (fuel + 1)
            { i := (((k + 1) * 1000 : Nat) : Int)
              num := (source.length : Int)
              data := st.data ++ loadedPage toLower source k
              offsets := st.offsets ++ [((k * 1000 * 1000 : Nat) : Int)] } := by
        rw [loadLoop]
        simp only [hci, if_true, hnext, hN]
        rw [hi, hround.1, hround.2]
      refine ⟨c + 1, st1, by rw [hstep]; exact h1, ?_, Or.inr ?_, ?_, ?_⟩
      · rw [← Nat.add_assoc, Nat.add_right_comm]; exact h2
      · rcases h3 with rfl | h3
        · simpa using hcond
        · have : k + (c + 1) - 1 = k + 1 + c - 1 := by omega
          rw [this]; exact h3
      · rw [h4, List.range'_succ]
        simp
      · rw [h5, List.range'_succ]
        simp
    · have hlt' : source.length < k * 1000 := not_le.mp hcond
      refine ⟨0, st, ?_, by simpa using hlt', Or.inl rfl, by simp, by simp⟩
      have hcond' : ¬ st.i ≤ st.num := by
        rw [hi, hn]
        exact_mod_cast not_le.mpr hlt'
      simp [loadLoop, hcond']

/-- What the loading loop of `normalModeSetup` does: it returns, after
`len / 1000 + 1` rounds, the queries are issued with the `OFFSET` arguments
`0, 1000000, 2000000, ...`, and the accumulated data are the pages of at most
1000 rows found at these offsets. -/
theorem normalModeSetup_loads (toLower : String → String) (source : List Row)
    (hsize : (source.length + 1000) * 1000 < 2 ^ 63) :
    ∃ st, normalModeSetup toLower source = some st ∧
      st.data = ((List.range (source.length / 1000 + 1)).map
        (loadedPage toLower source)).flatten ∧
      st.offsets = (List.range (source.length / 1000 + 1)).map
        (fun r => ((r * 1000 * 1000 : Nat) : Int)) := by
  have hN : GetMaxCount source = (source.length : Int) := by
    unfold GetMaxCount
    have h1 : (source.length : Int) < 2 ^ 63 := by
      have : source.length < 2 ^ 63 := by omega
      exact_mod_cast this
    have h0 : (0 : Int) ≤ (source.length : Int) := Int.ofNat_nonneg _
    exact wrapInt64_of_range _ (by omega) h1
  obtain ⟨c, st1, h1, h2, h3, h4, h5⟩ := loadLoop_run toLower source hsize
    (source.length / 1000 + 1) 0
    { i := 0, num := GetMaxCount source, data := [], offsets := [] }
    (by simp) hN (by omega)
    (by
      have := Nat.lt_div_mul_add (a := source.length) (b := 1000) (by norm_num)
      omega)
  have hc : c = source.length / 1000 + 1 := by
    rw [Nat.zero_add] at h2 h3
    rcases h3 with rfl | h3
    · omega
    · have hc1 : 1 ≤ c := by
        rcases Nat.eq_zero_or_pos c with rfl | h
        · omega
        · exact h
      have hlow : c - 1 ≤ source.length / 1000 :=
        (Nat.le_div_iff_mul_le (by norm_num)).mpr h3
      have hhigh : source.length / 1000 < c :=
        (Nat.div_lt_iff_lt_mul (by norm_num)).mpr h2
      omega
  subst hc
  refine ⟨st1, h1, ?_, ?_⟩
  · rw [h4, List.range_eq_range']
    simp
  · rw [h5, List.range_eq_range']
    simp

theorem loadedPage_zero (toLower : String → String) (source : List Row) :
    loadedPage toLower source 0 = (source.take 1000).map (scanRow toLower) := by
  unfold loadedPage
  simp only [Nat.zero_mul, List.drop_zero]

theorem loadedPage_beyond (toLower : String → String) (source : List Row) (k : Nat)
    (h : source.length ≤ k * 1000 * 1000) : loadedPage toLower source k = [] := by
  unfold loadedPage
  rw [List.drop_of_length_le h, List.take_nil, List.map_nil]

theorem range_one_eq : List.range 1 = [0] := rfl

theorem range_two_eq : List.range 2 = [0, 1] := rfl

theorem sampleTable_length (n : Nat) : (sampleTable n).length = n := by
  unfold sampleTable
  rw [List.length_map, List.length_range]

/-- A table of at most 1000 rows is loaded whole, in order. -/
theorem normalModeSetup_small (toLower : String → String) (source : List Row)
    (hsmall : source.length ≤ 1000) :
    ∃ st, normalModeSetup toLower source = some st ∧
      st.data = source.map (scanRow toLower) := by
  obtain ⟨st, h1, h2, _⟩ := normalModeSetup_loads toLower source (by omega)
  refine ⟨st, h1, ?_⟩
  have h0 : loadedPage toLower source 0 = source.map (scanRow toLower) := by
    rw [loadedPage_zero, List.take_of_length_le hsmall]
  rcases Nat.lt_or_ge source.length 1000 with hlt | hge
  · have hq : source.length / 1000 + 1 = 1 := by
      rw [Nat.div_eq_of_lt hlt]
    rw [hq] at h2
    rw [h2, range_one_eq]
    simp only [List.map_cons, List.map_nil, List.flatten_cons, List.flatten_nil,
      List.append_nil, h0]
  · have hlen : source.length = 1000 := Nat.le_antisymm hsmall hge
    have hq : source.length / 1000 + 1 = 2 := by
      rw [hlen]
    have h1p : loadedPage toLower source 1 = [] :=
      loadedPage_beyond toLower source 1 (by rw [hlen]; norm_num)
    rw [hq] at h2
    rw [h2, range_two_eq]
    simp only [List.map_cons, List.map_nil, List.flatten_cons, List.flatten_nil,
      List.append_nil, h0, h1p]

/-- C12 at a failing input. For a table of 1001 rows the loading loop of
`normalModeSetup` runs twice: the queries carry the `OFFSET` arguments `0` and
`1000000` (not `0` and `1000`), the second page is empty, and the accumulated
data are the first 1000 rows; the row with index 1000 is not loaded. -/
theorem normalModeSetup_skips_records :
    (sampleTable 1001).length = 1001 ∧
    ∃ st, normalModeSetup (fun c => c) (sampleTable 1001) = some st ∧
      st.offsets = [0, 1000000] ∧
      st.data = ((sampleTable 1001).take 1000).map (scanRow (fun c => c)) ∧
      st.data.length = 1000 := by
  have hlen : (sampleTable 1001).length = 1001 := sampleTable_length 1001
  refine ⟨hlen, ?_⟩
  obtain ⟨st, h1, h2, h3⟩ := normalModeSetup_loads (fun c => c) (sampleTable 1001)
    (by rw [hlen]; norm_num)
  have hq : (sampleTable 1001).length / 1000 + 1 = 2 := by
    rw [hlen]
  have h1p : loadedPage (fun c => c) (sampleTable 1001) 1 = [] :=
    loadedPage_beyond _ _ 1 (by rw [hlen]; norm_num)
  rw [hq] at h2 h3
  have hdata : st.data = ((sampleTable 1001).take 1000).map (scanRow (fun c => c)) := by
    rw [h2, range_two_eq]
    simp only [List.map_cons, List.map_nil, List.flatten_cons, List.flatten_nil,
      List.append_nil, loadedPage_zero, h1p]
  refine ⟨st, h1, ?_, hdata, ?_⟩
  · rw [h3, range_two_eq]
    norm_num
  · rw [hdata, List.length_map, List.length_take, hlen]
    norm_num

/-! ## Properties of the two pictures -/

theorem blockDraws_append (loads : String → Bool) (textureSize : Int)
    (l1 l2 : List VisualData) :
    blockDraws loads textureSize (l1 ++ l2) =
      blockDraws loads textureSize l1 ++ blockDraws loads textureSize l2 := by
  induction l1 with
  | nil => rfl
  | cons v l ih =>
    rw [List.cons_append]
    cases hl : loads ("assets/" ++ v.BlockTexture) with
    | false => simp only [blockDraws, hl, Bool.false_eq_true, if_false]; exact ih
    | true => simp only [blockDraws, hl, if_true, List.cons_append]; rw [ih]

theorem drawBlocks_append (loads : String → Bool) (textureSize : Int)
    (c : Int × Int → Option String) (l1 l2 : List VisualData) :
    drawBlocks loads textureSize c (l1 ++ l2) =
      drawBlocks loads textureSize (drawBlocks loads textureSize c l1) l2 := by
  unfold drawBlocks
  rw [blockDraws_append, List.foldl_append]

/-- Drawing the batches one after the other on the reused canvas is drawing
their concatenation. -/
theorem drawBlocks_flatten (loads : String → Bool) (textureSize : Int)
    (bs : List (List VisualData)) (c : Int × Int → Option String) :
    bs.foldl (drawBlocks loads textureSize) c = drawBlocks loads textureSize c bs.flatten := by
  induction bs generalizing c with
  | nil => rfl
  | cons b bs ih =>
    rw [List.foldl_cons, ih, List.flatten_cons, drawBlocks_append]

theorem drawBlocks_cons_loaded (loads : String → Bool) (textureSize : Int)
    (c : Int × Int → Option String) (v : VisualData) (l : List VisualData)
    (h : loads ("assets/" ++ v.BlockTexture) = true) :
    drawBlocks loads textureSize c (v :: l) =
      drawBlocks loads textureSize
        (Function.update c (cellOrigin textureSize v) (some ("assets/" ++ v.BlockTexture))) l := by
  unfold drawBlocks
  simp only [blockDraws, h, if_true, List.foldl_cons]
  rfl

theorem drawBlocks_cons_skipped (loads : String → Bool) (textureSize : Int)
    (c : Int × Int → Option String) (v : VisualData) (l : List VisualData)
    (h : loads ("assets/" ++ v.BlockTexture) = false) :
    drawBlocks loads textureSize c (v :: l) = drawBlocks loads textureSize c l := by
  unfold drawBlocks
  simp [blockDraws, h]

/-- A position keeps its texture under a block loop in which every block drawn
at that position carries that texture. -/
theorem drawBlocks_keeps (loads : String → Bool) (textureSize : Int) (p : Int × Int)
    (t : Option String) (l : List VisualData) :
    ∀ c : Int × Int → Option String, c p = t →
      (∀ w ∈ l, cellOrigin textureSize w = p → some ("assets/" ++ w.BlockTexture) = t) →
      drawBlocks loads textureSize c l p = t := by
  induction l with
  | nil => intro c hc _; exact hc
  | cons v l ih =>
    intro c hc h
    have hrest : ∀ w ∈ l, cellOrigin textureSize w = p →
        some ("assets/" ++ w.BlockTexture) = t :=
      fun w hw => h w (List.mem_cons_of_mem _ hw)
    cases hl : loads ("assets/" ++ v.BlockTexture) with
    | false =>
      rw [drawBlocks_cons_skipped loads textureSize c v l hl]
      exact ih c hc hrest
    | true =>
      rw [drawBlocks_cons_loaded loads textureSize c v l hl]
      apply ih _ _ hrest
      by_cases hp : cellOrigin textureSize v = p
      · rw [← hp, Function.update_same]
        exact h v (List.mem_cons_self _ _) hp
      · rw [Function.update_noteq (Ne.symm hp)]
        exact hc

/-- After the block loop a position shows the texture of a loaded block drawn
there, when the blocks drawn there later carry the same texture. -/
theorem drawBlocks_last (loads : String → Bool) (textureSize : Int)
    (c : Int × Int → Option String) (pre post : List VisualData) (u : VisualData)
    (hu : loads ("assets/" ++ u.BlockTexture) = true)
    (hpost : ∀ w ∈ post, cellOrigin textureSize w = cellOrigin textureSize u →
      w.BlockTexture = u.BlockTexture) :
    drawBlocks loads textureSize c (pre ++ u :: post) (cellOrigin textureSize u) =
      some ("assets/" ++ u.BlockTexture) := by
  rw [drawBlocks_append, drawBlocks_cons_loaded loads textureSize _ u post hu]
  apply drawBlocks_keeps
  · rw [Function.update_same]
  · intro w hw hp
    rw [hpost w hw hp]

theorem cellOrigin_of_coord (textureSize : Int) (u v : VisualData) (h : coord u = coord v) :
    cellOrigin textureSize u = cellOrigin textureSize v := by
  unfold coord at h
  unfold cellOrigin
  rw [(Prod.mk.inj h).1, (Prod.mk.inj h).2]

/-- With a live encoder and successful writes the writer loop returns nil and
the batches it renders concatenate to `dest`, for every batch size of type
`int` that is at least one. -/
theorem encodeWriter_alive_flatten
    (f : List VisualData → Option Image → List Nat → Image × List Nat)
    (dest : List VisualData) (b : Nat) (imgTmp : Option Image) (frameBuffer : List Nat)
    (hb : 1 ≤ b) (hb63 : b < 2 ^ 63) (hlen : dest.length ≤ 2 ^ 62) :
    (encodeWriter (aliveEnv f) dest (b : Int) imgTmp frameBuffer).exit = WriterExit.returned none ∧
    (encodeWriter (aliveEnv f) dest (b : Int) imgTmp frameBuffer).final.batches.flatten = dest := by
  have hb0 : (b : Int) ≠ 0 := by
    have : b ≠ 0 := by omega
    exact_mod_cast this
  have hst : ∀ k, k * b < dest.length → k * b + b < 2 ^ 63 := by
    intro k hk
    rcases Nat.eq_zero_or_pos k with rfl | hk0
    · rw [Nat.zero_mul, Nat.zero_add]; exact hb63
    · have : b ≤ k * b := Nat.le_mul_of_pos_left b hk0
      omega
  obtain ⟨c, hc1, _, h1, h2, _, _⟩ := writerLoop_alive_of_steps f dest b hb (by omega) hst
    dest.length 0
    { i := 0, frameIndex := 0, round := 0, imgTmp := imgTmp, frameBuffer := frameBuffer
      batches := [], writes := [] } (by simp) rfl rfl (by omega)
    (by
      rw [Nat.zero_add]
      exact Nat.le_mul_of_pos_right _ hb)
  rw [Nat.zero_add] at hc1
  simp only [List.nil_append] at h2
  rw [← List.range_eq_range'] at h2
  constructor
  · simp only [encodeWriter, hb0, if_false]; exact h1
  · have hbat : (encodeWriter (aliveEnv f) dest (b : Int) imgTmp frameBuffer).final.batches =
        (List.range c).map (batchAt dest b) := by
      simp only [encodeWriter, hb0, if_false]; exact h2
    rw [hbat, batches_join, List.take_of_length_le hc1]

/-- On a list sorted by non-decreasing timestamp in which the events of one
cell with equal timestamps carry the same texture, where all textures load and
distinct cells are drawn at distinct positions, drawing the output of
`removeOldData` on a new canvas gives the picture of drawing all events. -/
theorem drawBlocks_removeOldData (loads : String → Bool) (textureSize : Int)
    (dest : List VisualData)
    (hsorted : dest.Pairwise (fun u w => u.Time ≤ w.Time))
    (hloads : ∀ v ∈ dest, loads ("assets/" ++ v.BlockTexture) = true)
    (hcell : ∀ u ∈ dest, ∀ w ∈ dest,
      cellOrigin textureSize u = cellOrigin textureSize w → coord u = coord w)
    (htie : ∀ u ∈ dest, ∀ w ∈ dest, coord u = coord w → u.Time = w.Time →
      u.BlockTexture = w.BlockTexture) :
    drawBlocks loads textureSize newCanvas (removeOldData dest) =
      drawBlocks loads textureSize newCanvas dest := by
  funext p
  have hsub := removeOldData_sublist dest
  by_cases hp : ∃ v ∈ dest, cellOrigin textureSize v = p
  · obtain ⟨v, hv, hvp⟩ := hp
    obtain ⟨u, hu, huc⟩ := List.mem_map.mp (removeOldData_coord_mem dest v hv)
    have hud : u ∈ dest := hsub.subset hu
    have hup : p = cellOrigin textureSize u := by
      rw [← hvp]; exact (cellOrigin_of_coord textureSize u v huc).symm
    subst hup
    have hphoto : drawBlocks loads textureSize newCanvas (removeOldData dest)
        (cellOrigin textureSize u) = some ("assets/" ++ u.BlockTexture) := by
      obtain ⟨pre, post, hR⟩ := List.append_of_mem hu
      have hnd := removeOldData_coords_nodup dest
      rw [hR, List.map_append, List.map_cons] at hnd
      have hnot := (List.nodup_cons.mp (List.nodup_append.mp hnd).2.1).1
      rw [hR]
      apply drawBlocks_last loads textureSize newCanvas pre post u (hloads u hud)
      intro w hw hwp
      have hwR : w ∈ removeOldData dest := by
        rw [hR]; exact List.mem_append_right _ (List.mem_cons_of_mem _ hw)
      have hwc : coord w = coord u := hcell w (hsub.subset hwR) u hud hwp
      exact absurd (List.mem_map.mpr ⟨w, hw, hwc⟩) hnot
    have hvideo : drawBlocks loads textureSize newCanvas dest
        (cellOrigin textureSize u) = some ("assets/" ++ u.BlockTexture) := by
      obtain ⟨pre, post, hD⟩ := List.append_of_mem hud
      have hs := hsorted
      rw [hD] at hs
      have hafter := (List.pairwise_cons.mp (List.pairwise_append.mp hs).2.1).1
      have hpost : ∀ w ∈ post, cellOrigin textureSize w = cellOrigin textureSize u →
          w.BlockTexture = u.BlockTexture := by
        intro w hw hwp
        have hwd : w ∈ dest := by
          rw [hD]; exact List.mem_append_right _ (List.mem_cons_of_mem _ hw)
        have hwc : coord w = coord u := hcell w hwd u hud hwp
        have h1 : w.Time ≤ u.Time := removeOldData_time_max dest u hu w hwd hwc
        have h2 : u.Time ≤ w.Time := hafter w hw
        exact htie w hwd u hud hwc (le_antisymm h1 h2)
      have := drawBlocks_last loads textureSize newCanvas pre post u (hloads u hud) hpost
      rw [← hD] at this
      exact this
    rw [hphoto, hvideo]
  · have hnone : ∀ w ∈ dest, cellOrigin textureSize w = p →
        some ("assets/" ++ w.BlockTexture) = newCanvas p :=
      fun w hw hwp => absurd ⟨w, hw, hwp⟩ hp
    rw [drawBlocks_keeps loads textureSize p (newCanvas p) dest newCanvas rfl hnone,
      drawBlocks_keeps loads textureSize p (newCanvas p) (removeOldData dest) newCanvas rfl
        (fun w hw hwp => hnone w (hsub.subset hw) hwp)]

/-- Distinct cells are drawn at distinct positions when the texture size is
not zero and the products `X*textureSize64`, `Y*textureSize64` do not overflow
`int64`. -/
theorem cellOrigin_injective_of_range (textureSize : Int) (u w : VisualData)
    (hts : textureSize ≠ 0)
    (hux : -(2 ^ 63) ≤ u.X * textureSize ∧ u.X * textureSize < 2 ^ 63)
    (huy : -(2 ^ 63) ≤ u.Y * textureSize ∧ u.Y * textureSize < 2 ^ 63)
    (hwx : -(2 ^ 63) ≤ w.X * textureSize ∧ w.X * textureSize < 2 ^ 63)
    (hwy : -(2 ^ 63) ≤ w.Y * textureSize ∧ w.Y * textureSize < 2 ^ 63)
    (h : cellOrigin textureSize u = cellOrigin textureSize w) : coord u = coord w := by
  unfold cellOrigin at h
  rw [wrapInt64_of_range _ hux.1 hux.2, wrapInt64_of_range _ huy.1 huy.2,
    wrapInt64_of_range _ hwx.1 hwx.2, wrapInt64_of_range _ hwy.1 hwy.2] at h
  unfold coord
  rw [mul_right_cancel₀ hts (Prod.mk.inj h).1, mul_right_cancel₀ hts (Prod.mk.inj h).2]

/-- C13 at a failing input. The two events of the list sit at the cell `(0, 0)`
with the same timestamp `1`, so the list is sorted by non-decreasing timestamp.
`removeOldData` keeps the first of them, and the still-image path shows
`a.png` at the cell; the video path draws both, for the batch sizes `1` and
`2`, and its last frame shows `b.png` there. -/
theorem photoCanvas_ne_videoCanvas_on_equal_timestamps :
    List.Pairwise (fun u w => u.Time ≤ w.Time)
      ([⟨1, 0, 0, "a.png"⟩, ⟨1, 0, 0, "b.png"⟩] : List VisualData) ∧
    removeOldData [⟨1, 0, 0, "a.png"⟩, ⟨1, 0, 0, "b.png"⟩] = [⟨1, 0, 0, "a.png"⟩] ∧
    photoCanvas (fun _ => true) 1 [⟨1, 0, 0, "a.png"⟩, ⟨1, 0, 0, "b.png"⟩] (0, 0) =
      some "assets/a.png" ∧
    (encodeWriter (aliveEnv blankRenderer) [⟨1, 0, 0, "a.png"⟩, ⟨1, 0, 0, "b.png"⟩]
      1 none []).exit = WriterExit.returned none ∧
    videoCanvas blankRenderer (fun _ => true) 1 [⟨1, 0, 0, "a.png"⟩, ⟨1, 0, 0, "b.png"⟩] 1 (0, 0) =
      some "assets/b.png" ∧
    (encodeWriter (aliveEnv blankRenderer) [⟨1, 0, 0, "a.png"⟩, ⟨1, 0, 0, "b.png"⟩]
      2 none []).exit = WriterExit.returned none ∧
    videoCanvas blankRenderer (fun _ => true) 1 [⟨1, 0, 0, "a.png"⟩, ⟨1, 0, 0, "b.png"⟩] 2 (0, 0) =
      some "assets/b.png" := by
  decide

/-- C13, amended. Let `dest` be sorted by non-decreasing timestamp, let the
events of one cell that carry equal timestamps carry the same texture (as when
the timestamps at a cell are pairwise distinct), let every texture load, and
let distinct cells be drawn at distinct positions. Then for every batch size
`b` with `1 ≤ b < 2^63` and a list of at most `2^62` events the writer loop of
`EncodeGPU`, with a live encoder and successful writes, returns nil, and the
still-image path and the video path end on the same picture: drawing the
output of `removeOldData` on a new canvas gives every position the texture
that drawing the batches one after the other on the reused canvas gives it,
which is the picture of drawing all events in input order. -/
theorem photoCanvas_eq_videoCanvas
    (f : List VisualData → Option Image → List Nat → Image × List Nat)
    (loads : String → Bool) (textureSize : Int) (dest : List VisualData) (b : Nat)
    (hb : 1 ≤ b) (hb63 : b < 2 ^ 63) (hlen : dest.length ≤ 2 ^ 62)
    (hsorted : dest.Pairwise (fun u w => u.Time ≤ w.Time))
    (hloads : ∀ v ∈ dest, loads ("assets/" ++ v.BlockTexture) = true)
    (hcell : ∀ u ∈ dest, ∀ w ∈ dest,
      cellOrigin textureSize u = cellOrigin textureSize w → coord u = coord w)
    (htie : ∀ u ∈ dest, ∀ w ∈ dest, coord u = coord w → u.Time = w.Time →
      u.BlockTexture = w.BlockTexture) :
    (encodeWriter (aliveEnv f) dest (b : Int) none []).exit = WriterExit.returned none ∧
    photoCanvas loads textureSize dest = videoCanvas f loads textureSize dest (b : Int) ∧
    videoCanvas f loads textureSize dest (b : Int) =
      drawBlocks loads textureSize newCanvas dest := by
  obtain ⟨hexit, hflat⟩ := encodeWriter_alive_flatten f dest b none [] hb hb63 hlen
  have hvid : videoCanvas f loads textureSize dest (b : Int) =
      drawBlocks loads textureSize newCanvas dest := by
    unfold videoCanvas
    rw [drawBlocks_flatten, hflat]
  refine ⟨hexit, ?_, hvid⟩
  rw [hvid]
  exact drawBlocks_removeOldData loads textureSize dest hsorted hloads hcell htie

/-- The amended C13 applied to four events on two cells with texture size 16
and batch size 3: the cell `(0, 0)` is drawn three times, twice with the
timestamp `3` and the same texture, and both paths show `c.png` at the
position `(0, 0)` and `b.png` at the position `(16, 0)`. -/
theorem photoCanvas_eq_videoCanvas_example :
    photoCanvas (fun _ => true) 16
        [⟨1, 0, 0, "a.png"⟩, ⟨2, 1, 0, "b.png"⟩, ⟨3, 0, 0, "c.png"⟩, ⟨3, 0, 0, "c.png"⟩] =
      videoCanvas blankRenderer (fun _ => true) 16
        [⟨1, 0, 0, "a.png"⟩, ⟨2, 1, 0, "b.png"⟩, ⟨3, 0, 0, "c.png"⟩, ⟨3, 0, 0, "c.png"⟩]
        ((3 : Nat) : Int) ∧
    photoCanvas (fun _ => true) 16
        [⟨1, 0, 0, "a.png"⟩, ⟨2, 1, 0, "b.png"⟩, ⟨3, 0, 0, "c.png"⟩, ⟨3, 0, 0, "c.png"⟩]
        (0, 0) = some "assets/c.png" ∧
    photoCanvas (fun _ => true) 16
        [⟨1, 0, 0, "a.png"⟩, ⟨2, 1, 0, "b.png"⟩, ⟨3, 0, 0, "c.png"⟩, ⟨3, 0, 0, "c.png"⟩]
        (16, 0) = some "assets/b.png" :=
  ⟨(photoCanvas_eq_videoCanvas blankRenderer (fun _ => true) 16
      [⟨1, 0, 0, "a.png"⟩, ⟨2, 1, 0, "b.png"⟩, ⟨3, 0, 0, "c.png"⟩, ⟨3, 0, 0, "c.png"⟩] 3
      (by decide) (by norm_num) (by norm_num [List.length]) (by decide) (by decide) (by decide)
      (by decide)).2.1,
    by decide, by decide⟩

end PixelBattle
